import Mathlib

/-!
# FlexRC controller: keypad, joysticks, telemetry link, periodic trigger

Shallow embedding of `src/controller/buttons.cpp`, of the axis curve and the
calibration functions of `src/controller/joysticks.cpp`, of
`src/controller/receiver.cpp` with the controller side of `common/comm.cpp`,
and of `everyMs` (`common/time_utils.cpp`).

Conventions of the embedding.

* Every public key function of `buttons.cpp` first calls `buttonsUpdate`,
  which reads the averaged ADC value (`readAdcAvg()`) and the millisecond
  counter (`millis()`).  Both are inputs of the embedded functions: `adc`
  is the value returned by `readAdcAvg()` and `now` the value returned by
  `millis()` during that call (one value per call).
* `unsigned long` and `uint32_t` are 32 bits wide on the target; counter
  differences are taken modulo `2^32` (`sub32`).
* The module-level variables of `buttons.cpp` (`TH_*`, `eng`,
  `lastReleaseDurationMs`, `lastReleaseKey`) are the fields of `Buttons`.
* The arrays of `Engine` are functions on indices; only the indices
  `idx k < 6` are ever read or written.
-/

namespace FlexRC

/-! ## Keypad: data model -/

/-- Key identities, `enum class Key : uint8_t` of `buttons.h`. -/
inductive Key where
  | None
  | Left
  | Right
  | Up
  | Down
  | Center
  deriving DecidableEq, Repr

/-- Array index of a key, `idx` of `buttons.cpp` (the enumerator value). -/
def idx : Key → Nat
  | Key.None => 0
  | Key.Left => 1
  | Key.Right => 2
  | Key.Up => 3
  | Key.Down => 4
  | Key.Center => 5

/-- Number of values of a 32-bit counter. -/
def U32 : Nat := 4294967296

/-- Unsigned 32-bit subtraction `a - b` as computed on `unsigned long`. -/
def sub32 (a b : Nat) : Nat := (a % U32 + U32 - b % U32) % U32

/-- Debounce window in milliseconds, `debounceMs` of `buttons.cpp`. -/
def debounceMs : Nat := 30

/-- Runtime state of the keypad, `struct Engine` of `buttons.cpp`. -/
structure Engine where
  lastReading : Key
  stable : Key
  lastChange : Nat
  pressStart : Nat
  releasedPending : Nat → Bool
  releaseDur : Nat → Nat
  shortPending : Nat → Bool
  longFired : Nat → Bool
  lastRepeatAt : Nat → Nat

/-- Value-initialised engine, `Engine{}`. -/
def Engine.init : Engine where
  lastReading := Key.None
  stable := Key.None
  lastChange := 0
  pressStart := 0
  releasedPending := fun _ => false
  releaseDur := fun _ => 0
  shortPending := fun _ => false
  longFired := fun _ => false
  lastRepeatAt := fun _ => 0

/-- Module state of `buttons.cpp`: thresholds, engine, last release info. -/
structure Buttons where
  TH_DOWN : Int
  TH_UP : Int
  TH_RIGHT : Int
  TH_CENTER : Int
  TH_LEFT : Int
  eng : Engine
  lastReleaseDurationMs : Nat
  lastReleaseKey : Key

/-- Default thresholds of `config.h`. -/
def TH_DOWN_DEFAULT : Int := 550

/-- Default thresholds of `config.h`. -/
def TH_UP_DEFAULT : Int := 625

/-- Default thresholds of `config.h`. -/
def TH_RIGHT_DEFAULT : Int := 700

/-- Default thresholds of `config.h`. -/
def TH_CENTER_DEFAULT : Int := 800

/-- Default thresholds of `config.h`. -/
def TH_LEFT_DEFAULT : Int := 875

/-- Module state at program start: default thresholds, `Engine{}`. -/
def Buttons.init : Buttons where
  TH_DOWN := TH_DOWN_DEFAULT
  TH_UP := TH_UP_DEFAULT
  TH_RIGHT := TH_RIGHT_DEFAULT
  TH_CENTER := TH_CENTER_DEFAULT
  TH_LEFT := TH_LEFT_DEFAULT
  eng := Engine.init
  lastReleaseDurationMs := 0
  lastReleaseKey := Key.None

/-- Threshold accessor, `buttonsGetThreshold`. -/
def buttonsGetThreshold (s : Buttons) : Key → Int
  | Key.Down => s.TH_DOWN
  | Key.Up => s.TH_UP
  | Key.Right => s.TH_RIGHT
  | Key.Center => s.TH_CENTER
  | Key.Left => s.TH_LEFT
  | Key.None => 0

/-- The table `entries` of `decodeKeyFromAdc`, in scan order. -/
def entries (s : Buttons) : List (Key × Int) :=
  [(Key.Down, s.TH_DOWN), (Key.Up, s.TH_UP), (Key.Right, s.TH_RIGHT),
   (Key.Center, s.TH_CENTER), (Key.Left, s.TH_LEFT)]

/-- One iteration of the scan loop of `decodeKeyFromAdc`; the accumulator
is the pair `(best, bestThr)`. -/
def decodeStep (adc : Int) (acc : Key × Int) (e : Key × Int) : Key × Int :=
  if adc ≥ e.2 ∧ e.2 ≥ 0 ∧ e.2 ≤ 1023 ∧ e.2 ≥ acc.2 then (e.1, e.2) else acc

/-- Decoder `decodeKeyFromAdc`: scan of the five entries from
`(Key::None, -1)`. -/
def decodeKeyFromAdc (s : Buttons) (adc : Int) : Key :=
  ((entries s).foldl (decodeStep adc) (Key.None, -1)).1

/-- Reset of the per-press flags, `resetPerPressState`. -/
def resetPerPressState (e : Engine) (k : Key) : Engine :=
  let i := idx k
  if i ≥ 6 then e
  else { e with longFired := Function.update e.longFired i false,
                lastRepeatAt := Function.update e.lastRepeatAt i 0 }

/-- Lowest of the five thresholds, the local `minThr` of `buttonsUpdate`. -/
def minThr (s : Buttons) : Int :=
  let m := s.TH_DOWN
  let m := if s.TH_UP < m then s.TH_UP else m
  let m := if s.TH_RIGHT < m then s.TH_RIGHT else m
  let m := if s.TH_CENTER < m then s.TH_CENTER else m
  if s.TH_LEFT < m then s.TH_LEFT else m

/-- The reading used by `buttonsUpdate`: the decoded key, forced back to the
stable key by the anti-chatter rule. -/
def filteredReading (s : Buttons) (adc : Int) : Key :=
  let reading := decodeKeyFromAdc s adc
  if s.eng.stable ≠ Key.None ∧ reading ≠ Key.None ∧ reading ≠ s.eng.stable
      ∧ adc ≥ minThr s then s.eng.stable
  else reading

/-- Bookkeeping shared by the two release branches of `buttonsUpdate`
(`k -> None` and `k1 -> k2`): duration, release flag, last release info,
short-click flag. `e` already holds the new stable key, `prev` is the old. -/
def recordRelease (s : Buttons) (e : Engine) (prev : Key) (now : Nat) : Buttons :=
  let ip := idx prev
  let dur := if e.pressStart ≠ 0 then sub32 now e.pressStart else 0
  let e1 := { e with releaseDur := Function.update e.releaseDur ip dur,
                     releasedPending := Function.update e.releasedPending ip true }
  let e2 := if e1.longFired ip = false
            then { e1 with shortPending := Function.update e1.shortPending ip true }
            else e1
  { s with eng := e2, lastReleaseDurationMs := dur, lastReleaseKey := prev }

/-- The body of `if (reading != eng.stable)` in `buttonsUpdate`: the stable
key becomes `reading` and the press (`None -> k`), release (`k -> None`) or
key-to-key (`k1 -> k2`) bookkeeping runs. `e0` is the engine after the
reading-change step. -/
def stableChange (s : Buttons) (e0 : Engine) (reading : Key) (now : Nat) : Buttons :=
  let prev := e0.stable
  let e1 := { e0 with stable := reading }
  if prev = Key.None ∧ e1.stable ≠ Key.None then
    { s with eng := resetPerPressState { e1 with pressStart := now } e1.stable }
  else if prev ≠ Key.None ∧ e1.stable = Key.None then
    let r := recordRelease s e1 prev now
    { r with eng := { r.eng with pressStart := 0 } }
  else if prev ≠ Key.None ∧ e1.stable ≠ Key.None then
    let r := recordRelease s e1 prev now
    { r with eng := resetPerPressState { r.eng with pressStart := now } r.eng.stable }
  else { s with eng := e1 }

/-- The reading-change step of `buttonsUpdate`: a reading different from the
last one restarts the debounce timer. -/
def noteReading (e : Engine) (reading : Key) (now : Nat) : Engine :=
  if reading ≠ e.lastReading
  then { e with lastChange := now, lastReading := reading }
  else e

/-- Decode, anti-chatter, debounce and press/release bookkeeping:
`buttonsUpdate`. -/
def buttonsUpdate (s : Buttons) (adc : Int) (now : Nat) : Buttons :=
  let reading := filteredReading s adc
  let e0 := noteReading s.eng reading now
  if sub32 now e0.lastChange > debounceMs then
    if reading ≠ e0.stable then stableChange s e0 reading now
    else { s with eng := e0 }
  else { s with eng := e0 }

/-- State poll `buttonsTick`. -/
def buttonsTick (s : Buttons) (adc : Int) (now : Nat) : Buttons :=
  buttonsUpdate s adc now

/-- Current debounced key `buttonsCurrent`: result and new state. -/
def buttonsCurrent (s : Buttons) (adc : Int) (now : Nat) : Key × Buttons :=
  let s1 := buttonsUpdate s adc now
  (s1.eng.stable, s1)

/-- Held test `keyDown`: result and new state. -/
def keyDown (s : Buttons) (adc : Int) (now : Nat) (k : Key) : Bool × Buttons :=
  let s1 := buttonsUpdate s adc now
  (decide (s1.eng.stable = k), s1)

/-- Release event `keyReleased`. `durationMs` is the content of the variable
the pointer designates (`none` for a null pointer); the result is the return
value, the content of that variable afterwards, and the new state. -/
def keyReleased (s : Buttons) (adc : Int) (now : Nat) (k : Key)
    (durationMs : Option Nat) (consume : Bool) : Bool × Option Nat × Buttons :=
  let s1 := buttonsUpdate s adc now
  let i := idx k
  if i ≥ 6 then (false, durationMs, s1)
  else if s1.eng.releasedPending i = true then
    let d := durationMs.map (fun _ => s1.eng.releaseDur i)
    let s2 := if consume = true
              then { s1 with eng := { s1.eng with
                       releasedPending := Function.update s1.eng.releasedPending i false,
                       shortPending := Function.update s1.eng.shortPending i false } }
              else s1
    (true, d, s2)
  else (false, durationMs, s1)

/-- Clear of all pending state, `buttonsConsumeAll`. -/
def buttonsConsumeAll (s : Buttons) : Buttons :=
  let current := s.eng.stable
  { s with eng := { Engine.init with stable := current },
           lastReleaseDurationMs := 0, lastReleaseKey := Key.None }

/-- Short-click event `keyShortClick`: result and new state. -/
def keyShortClick (s : Buttons) (adc : Int) (now : Nat) (k : Key)
    (thresholdMs : Nat) (consume : Bool) : Bool × Buttons :=
  let s1 := buttonsUpdate s adc now
  let i := idx k
  if i ≥ 6 then (false, s1)
  else if s1.eng.shortPending i = true then
    let isShort := decide (s1.eng.releaseDur i < thresholdMs)
    let s2 := if consume = true
              then { s1 with eng := { s1.eng with
                       shortPending := Function.update s1.eng.shortPending i false,
                       releasedPending := Function.update s1.eng.releasedPending i false } }
              else s1
    (isShort, s2)
  else (false, s1)

/-- Long-press event `keyLongPress`: result and new state. The parameter
`rpt` is the source's `repeat`. -/
def keyLongPress (s : Buttons) (adc : Int) (now : Nat) (k : Key)
    (rpt : Bool) (repeatMs thresholdMs : Nat) (consume : Bool) : Bool × Buttons :=
  let s1 := buttonsUpdate s adc now
  if k = Key.None then (false, s1)
  else if s1.eng.stable ≠ k then (false, s1)
  else if s1.eng.pressStart = 0 then (false, s1)
  else
    let i := idx k
    if i ≥ 6 then (false, s1)
    else
      let held := sub32 now s1.eng.pressStart
      if held < thresholdMs then (false, s1)
      else if s1.eng.longFired i = false then
        let e1 := if consume = true
                  then { s1.eng with longFired := Function.update s1.eng.longFired i true }
                  else s1.eng
        (true, { s1 with eng := { e1 with lastRepeatAt := Function.update e1.lastRepeatAt i now } })
      else if rpt = true then
        if sub32 now (s1.eng.lastRepeatAt i) ≥ repeatMs then
          (true, { s1 with eng := { s1.eng with
                     lastRepeatAt := Function.update s1.eng.lastRepeatAt i now } })
        else (false, s1)
      else (false, s1)

/-- State polls (`buttonsTick`) once per millisecond: the first sample is
read at counter value `t0`, the next at `t0 + 1`, and so on (modulo 2^32). -/
def pollTicks (s : Buttons) (t0 : Nat) : List Int → Buttons
  | [] => s
  | a :: as => pollTicks (buttonsTick s a (t0 % U32)) (t0 + 1) as

/-- Successive consuming calls `keyShortClick(k, thresholdMs)`, each with the
sample and the counter value it reads: the list of results and the final
state. -/
def shortClickCalls (s : Buttons) (k : Key) (thresholdMs : Nat) :
    List (Int × Nat) → List Bool × Buttons
  | [] => ([], s)
  | p :: ps =>
    let r := keyShortClick s p.1 p.2 k thresholdMs true
    let rest := shortClickCalls r.2 k thresholdMs ps
    (r.1 :: rest.1, rest.2)

/-- State polls (`buttonsTick`), each with the sample and the counter value
it reads. -/
def runTicks (s : Buttons) : List (Int × Nat) → Buttons
  | [] => s
  | p :: ps => runTicks (buttonsTick s p.1 p.2) ps

/-- Example engine with a bounce in progress, default thresholds: key Left
(sample 922) has been read at the ten polls at counter values 100..109; the
last reading is Left and the stable key is still None. -/
def midBounce : Buttons :=
  pollTicks Buttons.init 100 (List.replicate 10 922)

/-- Example run, default thresholds: key Left (sample 922) is read from
counter value 100 on and becomes the stable key at 131. -/
def pressedLeft : Buttons :=
  runTicks Buttons.init [(922, 100), (922, 131)]

/-- Example run: `buttonsConsumeAll` is called while Left is held; Left stays
down and is released (sample 8) at 1000, the release being debounced at 1031,
900 ms after the press was. -/
def clearedThenReleased : Buttons :=
  runTicks (buttonsConsumeAll pressedLeft) [(922, 500), (8, 1000), (8, 1031)]

/-- Example run: Left is released at 300 and the release is debounced at
331, 200 ms after the press was. -/
def shortPressReleased : Buttons :=
  runTicks pressedLeft [(8, 300), (8, 331)]

/-- Successive consuming calls `keyReleased(k, &d)` on one variable `d`,
whose content before the first call is `d`: for each call the return value and
the content of `d` after it, and the final state. -/
def releasedCalls (s : Buttons) (k : Key) (d : Nat) :
    List (Int × Nat) → List (Bool × Nat) × Buttons
  | [] => ([], s)
  | p :: ps =>
    let r := keyReleased s p.1 p.2 k (some d) true
    let d1 := r.2.1.getD d
    let rest := releasedCalls r.2.2 k d1 ps
    ((r.1, d1) :: rest.1, rest.2)

/-- Successive consuming calls `keyLongPress(k, rpt, repeatMs, thresholdMs)`,
each with the sample and the counter value it reads: the list of results and
the final state. -/
def longPressCalls (s : Buttons) (k : Key) (rpt : Bool) (repeatMs thresholdMs : Nat) :
    List (Int × Nat) → List Bool × Buttons
  | [] => ([], s)
  | p :: ps =>
    let r := keyLongPress s p.1 p.2 k rpt repeatMs thresholdMs true
    let rest := longPressCalls r.2 k rpt repeatMs thresholdMs ps
    (r.1 :: rest.1, rest.2)

/-- Polls once per millisecond: the samples `as` are read at the counter
values `t0, t0 + 1, ...` (modulo 2^32). -/
def msPolls (t0 : Nat) : List Int → List (Int × Nat)
  | [] => []
  | a :: as => (a, t0 % U32) :: msPolls (t0 + 1) as

/-- Getter `buttonsLastReleaseDuration`. -/
def buttonsLastReleaseDuration (s : Buttons) : Nat :=
  s.lastReleaseDurationMs

/-- Getter `buttonsLastReleaseKey`. -/
def buttonsLastReleaseKey (s : Buttons) : Key :=
  s.lastReleaseKey

/-- Configuration and calibration of one joystick: the data members of
`class Joystick` that `processAxis` reads (the pin numbers are left out). -/
structure Joystick where
  invertX : Bool
  invertY : Bool
  deadzoneX : Int
  deadzoneY : Int
  expoX : ℚ
  expoY : ℚ
  calMinX : Int
  calMaxX : Int
  calMinY : Int
  calMaxY : Int
  centerX : Int
  centerY : Int

/-- The Arduino macro `constrain(amt, low, high)`. -/
def constrain (amt low high : Int) : Int :=
  if amt < low then low else if amt > high then high else amt

/-- Axis inversion, `Joystick::applyInvert`. -/
def applyInvert (j : Joystick) (raw : Int) (isX : Bool) : Int :=
  if (if isX then j.invertX else j.invertY) = true then 1023 - raw else raw

/-- The C function `roundf`: nearest integer, halves away from zero. -/
def roundf (q : ℚ) : Int :=
  if 0 ≤ q then ⌊q + 1 / 2⌋ else -⌊-q + 1 / 2⌋

/-- The test `axisName && axisName[0] == 'X'` of `processAxis` (the callers
pass the literals "X" and "Y"). -/
def isAxisX (axisName : String) : Bool :=
  axisName.get 0 == 'X'

/-- Signal conditioning of one axis, `Joystick::processAxis`. The result is
the mathematical value of `sign * curved`, which the source converts to
`int16_t`. -/
def processAxis (pow : ℚ → ℚ → ℚ) (j : Joystick) (raw : Int) (axisName : String) : Int :=
  let raw := constrain raw 0 1023
  let isX := isAxisX axisName
  let raw := applyInvert j raw isX
  let calMin0 := if isX = true then j.calMinX else j.calMinY
  let calMax0 := if isX = true then j.calMaxX else j.calMaxY
  let calCenter0 := if isX = true then j.centerX else j.centerY
  let calMin := if calMax0 ≤ calMin0 + 2 then 0 else calMin0
  let calMax := if calMax0 ≤ calMin0 + 2 then 1023 else calMax0
  let calCenter := if calCenter0 < calMin ∨ calCenter0 > calMax
                   then Int.tdiv (calMin + calMax) 2 else calCenter0
  let dz := if isX = true then j.deadzoneX else j.deadzoneY
  let mid : ℚ := calCenter
  let spanPos0 : ℚ := ((calMax - calCenter : Int) : ℚ)
  let spanNeg0 : ℚ := ((calCenter - calMin : Int) : ℚ)
  let spanPos : ℚ := if spanPos0 < 1 then 1 else spanPos0
  let spanNeg : ℚ := if spanNeg0 < 1 then 1 else spanNeg0
  let mid_16b : Int := 32767
  let centered : ℚ := (raw : ℚ) - mid
  let absC : ℚ := |centered|
  let sign : Int := if centered ≥ 0 then 1 else -1
  let xMax : ℚ := if sign ≥ 0 then spanPos else spanNeg
  if absC ≤ (dz : ℚ) ∨ xMax ≤ (dz : ℚ) then 0
  else
    let x := absC
    let norm0 : ℚ := (x - dz) / (xMax - dz)
    let norm1 : ℚ := if norm0 < 0 then 0 else norm0
    let norm : ℚ := if norm1 > 1 then 1 else norm1
    let expoVal : ℚ := if isX = true then j.expoX else j.expoY
    let curved0 : Int := roundf ((mid_16b : ℚ) * pow norm (1 + expoVal))
    let curved : Int := if curved0 > mid_16b then mid_16b else curved0
    sign * curved

/-- The sample `processAxis` works on: constrained to [0,1023], then
inverted. -/
def axisSample (j : Joystick) (raw : Int) (axisName : String) : Int :=
  applyInvert j (constrain raw 0 1023) (isAxisX axisName)

/-- Lower calibration bound used by `processAxis`, after the full-range
fallback. -/
def axisMin (j : Joystick) (axisName : String) : Int :=
  if (if isAxisX axisName = true then j.calMaxX else j.calMaxY)
      ≤ (if isAxisX axisName = true then j.calMinX else j.calMinY) + 2
  then 0 else (if isAxisX axisName = true then j.calMinX else j.calMinY)

/-- Upper calibration bound used by `processAxis`, after the full-range
fallback. -/
def axisMax (j : Joystick) (axisName : String) : Int :=
  if (if isAxisX axisName = true then j.calMaxX else j.calMaxY)
      ≤ (if isAxisX axisName = true then j.calMinX else j.calMinY) + 2
  then 1023 else (if isAxisX axisName = true then j.calMaxX else j.calMaxY)

/-- Centre used by `processAxis`, after the midpoint correction. -/
def axisCenter (j : Joystick) (axisName : String) : Int :=
  if (if isAxisX axisName = true then j.centerX else j.centerY) < axisMin j axisName
      ∨ (if isAxisX axisName = true then j.centerX else j.centerY) > axisMax j axisName
  then Int.tdiv (axisMin j axisName + axisMax j axisName) 2
  else (if isAxisX axisName = true then j.centerX else j.centerY)

/-- Dead-zone of the axis, the local `dz` of `processAxis`. -/
def axisDeadzone (j : Joystick) (axisName : String) : Int :=
  if isAxisX axisName = true then j.deadzoneX else j.deadzoneY

/-- Expo of the axis, the local `expoVal` of `processAxis`. -/
def axisExpo (j : Joystick) (axisName : String) : ℚ :=
  if isAxisX axisName = true then j.expoX else j.expoY

/-- Span from the centre to the bound on the side of sample `r`, floored at
1: the local `xMax` of `processAxis`. -/
def sideSpan (j : Joystick) (axisName : String) (r : Int) : Int :=
  if r ≥ axisCenter j axisName
  then (if axisMax j axisName - axisCenter j axisName < 1 then 1
        else axisMax j axisName - axisCenter j axisName)
  else (if axisCenter j axisName - axisMin j axisName < 1 then 1
        else axisCenter j axisName - axisMin j axisName)

/-- The second half of `processAxis`, from `float mid = (float)calCenter` to
the end, as a function of the sample `raw`, the corrected calibration, the
dead-zone and the expo. -/
def axisCurve (pow : ℚ → ℚ → ℚ) (raw calCenter calMin calMax dz : Int) (expoVal : ℚ) : Int :=
  let mid : ℚ := calCenter
  let spanPos0 : ℚ := ((calMax - calCenter : Int) : ℚ)
  let spanNeg0 : ℚ := ((calCenter - calMin : Int) : ℚ)
  let spanPos : ℚ := if spanPos0 < 1 then 1 else spanPos0
  let spanNeg : ℚ := if spanNeg0 < 1 then 1 else spanNeg0
  let mid_16b : Int := 32767
  let centered : ℚ := (raw : ℚ) - mid
  let absC : ℚ := |centered|
  let sign : Int := if centered ≥ 0 then 1 else -1
  let xMax : ℚ := if sign ≥ 0 then spanPos else spanNeg
  if absC ≤ (dz : ℚ) ∨ xMax ≤ (dz : ℚ) then 0
  else
    let x := absC
    let norm0 : ℚ := (x - dz) / (xMax - dz)
    let norm1 : ℚ := if norm0 < 0 then 0 else norm0
    let norm : ℚ := if norm1 > 1 then 1 else norm1
    let curved0 : Int := roundf ((mid_16b : ℚ) * pow norm (1 + expoVal))
    let curved : Int := if curved0 > mid_16b then mid_16b else curved0
    sign * curved

/-- The curve of `processAxis` beyond the dead-zone, for magnitude `x`,
dead-zone `dz`, span `xMax` and exponent offset `expoVal`: normalise, clamp to
[0,1], raise to the power, scale, round and clamp at 32767. -/
def curveMagnitude (pow : ℚ → ℚ → ℚ) (x dz xMax : Int) (expoVal : ℚ) : Int :=
  let norm0 : ℚ := ((x : ℚ) - dz) / ((xMax : ℚ) - dz)
  let norm1 : ℚ := if norm0 < 0 then 0 else norm0
  let norm : ℚ := if norm1 > 1 then 1 else norm1
  let curved0 : Int := roundf ((32767 : ℚ) * pow norm (1 + expoVal))
  if curved0 > 32767 then 32767 else curved0

/-! ## Joystick: calibration session -/

/-- Start of a calibration session, `Joystick::startCalibration`. -/
def startCalibration (j : Joystick) : Joystick :=
  { j with calMinX := 1023, calMinY := 1023, calMaxX := 0, calMaxY := 0 }

/-- One sample of a calibration session, `Joystick::updateCalibrationSample`;
`rawX` and `rawY` are the values `readAxisRaw` returns for the two pins. -/
def updateCalibrationSample (j : Joystick) (rawX rawY : Int) : Joystick :=
  let rx := applyInvert j rawX true
  let ry := applyInvert j rawY false
  let j1 := if rx < j.calMinX then { j with calMinX := rx } else j
  let j2 := if rx > j1.calMaxX then { j1 with calMaxX := rx } else j1
  let j3 := if ry < j2.calMinY then { j2 with calMinY := ry } else j2
  if ry > j3.calMaxY then { j3 with calMaxY := ry } else j3

/-- End of a calibration session, `Joystick::finishCalibration`. -/
def finishCalibration (j : Joystick) : Joystick :=
  let j1 := if j.calMaxX ≤ j.calMinX + 2 then { j with calMinX := 0, calMaxX := 1023 } else j
  let j2 := if j1.calMaxY ≤ j1.calMinY + 2
            then { j1 with calMinY := 0, calMaxY := 1023 } else j1
  { j2 with centerX := Int.tdiv (j2.calMinX + j2.calMaxX) 2,
            centerY := Int.tdiv (j2.calMinY + j2.calMaxY) 2 }

/-- The samples of a session folded into the running extrema. -/
def calibrationSamples (j : Joystick) (xs : List (Int × Int)) : Joystick :=
  xs.foldl (fun a p => updateCalibrationSample a p.1 p.2) j

/-- A whole session: `startCalibration`, one `updateCalibrationSample` per pair
of raw readings, `finishCalibration`. -/
def calibrationSession (j : Joystick) (xs : List (Int × Int)) : Joystick :=
  finishCalibration (calibrationSamples (startCalibration j) xs)

/-! ## Joystick: persisted calibration

The EEPROM is a function from byte addresses to byte values. A `CalData`
record occupies 16 bytes: eight `uint16_t` fields, low byte first. -/

/-- The persisted record `struct CalData`; every field is a `uint16_t`. -/
structure CalData where
  magic : Nat
  minX : Nat
  maxX : Nat
  centerX : Nat
  minY : Nat
  maxY : Nat
  centerY : Nat
  crc : Nat

/-- Magic value of a calibration record, `CAL_MAGIC`. -/
def CAL_MAGIC : Nat := 0xCA11

/-- Checksum of a calibration record, `crcCal`. -/
def crcCal (d : CalData) : Nat :=
  (d.magic ^^^ d.minX ^^^ d.maxX ^^^ d.centerX ^^^ d.minY ^^^ d.maxY ^^^ d.centerY ^^^ 0xA55A)
    % 65536

/-- Address of the left joystick's record, `EEPROM_ADDR_L`. -/
def EEPROM_ADDR_L : Nat := 0

/-- Address of the right joystick's record, `EEPROM_ADDR_R`
(`EEPROM_ADDR_L + sizeof(CalData)`). -/
def EEPROM_ADDR_R : Nat := EEPROM_ADDR_L + 16

/-- A `uint16_t` read from two consecutive EEPROM bytes. -/
def eepromReadU16 (ee : Nat → Nat) (a : Nat) : Nat :=
  ee a % 256 + 256 * (ee (a + 1) % 256)

/-- A `uint16_t` written to two consecutive EEPROM bytes. -/
def eepromWriteU16 (ee : Nat → Nat) (a v : Nat) : Nat → Nat :=
  Function.update (Function.update ee a (v % 256)) (a + 1) (v / 256 % 256)

/-- The call `EEPROM.get(addr, d)` for a `CalData`. -/
def eepromGetCal (ee : Nat → Nat) (addr : Nat) : CalData where
  magic := eepromReadU16 ee addr
  minX := eepromReadU16 ee (addr + 2)
  maxX := eepromReadU16 ee (addr + 4)
  centerX := eepromReadU16 ee (addr + 6)
  minY := eepromReadU16 ee (addr + 8)
  maxY := eepromReadU16 ee (addr + 10)
  centerY := eepromReadU16 ee (addr + 12)
  crc := eepromReadU16 ee (addr + 14)

/-- The call `EEPROM.put(addr, d)` for a `CalData`. -/
def eepromPutCal (ee : Nat → Nat) (addr : Nat) (d : CalData) : Nat → Nat :=
  let e1 := eepromWriteU16 ee addr d.magic
  let e2 := eepromWriteU16 e1 (addr + 2) d.minX
  let e3 := eepromWriteU16 e2 (addr + 4) d.maxX
  let e4 := eepromWriteU16 e3 (addr + 6) d.centerX
  let e5 := eepromWriteU16 e4 (addr + 8) d.minY
  let e6 := eepromWriteU16 e5 (addr + 10) d.maxY
  let e7 := eepromWriteU16 e6 (addr + 12) d.centerY
  eepromWriteU16 e7 (addr + 14) d.crc

/-- Conversion `(uint16_t)x` of an `int`. -/
def toU16 (x : Int) : Nat :=
  (x % 65536).toNat

/-- Conversion of a `uint16_t` to the 16-bit `int` of the target. -/
def u16ToInt (n : Nat) : Int :=
  if n % 65536 < 32768 then ((n % 65536 : Nat) : Int) else ((n % 65536 : Nat) : Int) - 65536

/-- Load of a calibration record, `Joystick::loadCalibration`: the return
value and the joystick afterwards. -/
def loadCalibration (j : Joystick) (ee : Nat → Nat) (addr : Nat) : Bool × Joystick :=
  let d := eepromGetCal ee addr
  if d.magic ≠ CAL_MAGIC ∨ d.crc ≠ crcCal d then (false, j)
  else if d.minX ≥ d.maxX ∨ d.minY ≥ d.maxY then (false, j)
  else if d.maxX > 1023 ∨ d.maxY > 1023 then (false, j)
  else
    let j1 := { j with calMinX := u16ToInt d.minX, calMaxX := u16ToInt d.maxX,
                       calMinY := u16ToInt d.minY, calMaxY := u16ToInt d.maxY,
                       centerX := u16ToInt d.centerX, centerY := u16ToInt d.centerY }
    let midX := Int.tdiv (j1.calMinX + j1.calMaxX) 2
    let midY := Int.tdiv (j1.calMinY + j1.calMaxY) 2
    let j2 := if j1.centerX < j1.calMinX ∨ j1.centerX > j1.calMaxX
              then { j1 with centerX := midX } else j1
    let j3 := if j2.centerY < j2.calMinY ∨ j2.centerY > j2.calMaxY
              then { j2 with centerY := midY } else j2
    (true, j3)

/-- The record `Joystick::saveCalibration` builds before `EEPROM.put`. -/
def calDataOf (j : Joystick) : CalData :=
  let d : CalData :=
    { magic := CAL_MAGIC, minX := toU16 j.calMinX, maxX := toU16 j.calMaxX,
      centerX := toU16 j.centerX, minY := toU16 j.calMinY, maxY := toU16 j.calMaxY,
      centerY := toU16 j.centerY, crc := 0 }
  { d with crc := crcCal d }

/-- Save of the calibration, `Joystick::saveCalibration`: the EEPROM
afterwards. -/
def saveCalibration (j : Joystick) (ee : Nat → Nat) (addr : Nat) : Nat → Nat :=
  eepromPutCal ee addr (calDataOf j)

/-- Load of both joysticks at start-up, `joysticksLoadCalibration`: the left
and the right joystick afterwards. -/
def joysticksLoadCalibration (joyL joyR : Joystick) (ee : Nat → Nat) : Joystick × Joystick :=
  let l := loadCalibration joyL ee EEPROM_ADDR_L
  let r := loadCalibration joyR ee EEPROM_ADDR_R
  let l1 := if l.1 = false then finishCalibration l.2 else l.2
  let r1 := if r.1 = false then finishCalibration r.2 else r.2
  (l1, r1)

/-- A joystick as constructed: the default member initialisers of
`class Joystick`. -/
def Joystick.default : Joystick where
  invertX := false
  invertY := false
  deadzoneX := 40
  deadzoneY := 40
  expoX := 9 / 5
  expoY := 9 / 5
  calMinX := 0
  calMaxX := 1023
  calMinY := 0
  calMaxY := 1023
  centerX := 512
  centerY := 512

/-- Centre setter `Joystick::setCenter`. -/
def setCenter (j : Joystick) (cx cy : Int) : Joystick :=
  { j with centerX := cx, centerY := cy }

/-- An erased EEPROM: every byte reads 0xFF. -/
def blankEeprom : Nat → Nat :=
  fun _ => 255

/-- Example record: valid magic and checksum, X bounds in the wrong order
(min 600, max 400). -/
def swappedRecord : CalData :=
  let d : CalData :=
    { magic := CAL_MAGIC, minX := 600, maxX := 400, centerX := 500, minY := 0, maxY := 1023,
      centerY := 511, crc := 0 }
  { d with crc := crcCal d }

/-- Example EEPROM: erased, then `swappedRecord` stored at address 0. -/
def swappedEeprom : Nat → Nat :=
  eepromPutCal blankEeprom 0 swappedRecord

/-- Example joystick: X inverted, dead-zone 40, expo 1.8, calibrated to
[12, 1012] with centre 512 on both axes. -/
def joyExample : Joystick where
  invertX := true
  invertY := false
  deadzoneX := 40
  deadzoneY := 40
  expoX := 9 / 5
  expoY := 9 / 5
  calMinX := 12
  calMaxX := 1012
  calMinY := 12
  calMaxY := 1012
  centerX := 512
  centerY := 512

/-- Example power function on rationals: the base raised to the integer part
of the exponent. -/
def powExample (b e : ℚ) : ℚ :=
  b ^ ⌊e⌋.toNat

/-! ## Control/telemetry link: `comm.cpp` (controller role) and `receiver.cpp`

The radio hardware is an input: for each `commSendFrame` call a
`RadioOutcome` says whether the radio is initialised, whether the write was
acknowledged and which acknowledgment payload, if any, is available. The LED
output of `updateLed` (`ledsSet`) and the debug print are left out; they do
not write the state. -/

/-- Application frame, `struct CommFrame`. -/
structure CommFrame where
  lx : Int
  ly : Int
  rx : Int
  ry : Int
  aux : Nat

/-- A value-initialised frame, `CommFrame rx{}`. -/
def CommFrame.zero : CommFrame where
  lx := 0
  ly := 0
  rx := 0
  ry := 0
  aux := 0

/-- Behaviour of the radio during one `commSendFrame` call: `ready` is
`gRadio && gRadioOk`, `writeOk` the result of `gRadio->write`, `ackPayload`
the byte `ap.aux` read when `isAckPayloadAvailable()` holds. -/
structure RadioOutcome where
  ready : Bool
  writeOk : Bool
  ackPayload : Option Nat

/-- Controller-side `commSendFrame(tx, rxAck)`: the return value and the frame
`rxAck` points to afterwards (`none` for a null pointer). -/
def commSendFrame (radio : RadioOutcome) (_tx : CommFrame) (rxAck : Option CommFrame) :
    Bool × Option CommFrame :=
  if radio.ready = false then (false, rxAck)
  else
    let ok := radio.writeOk
    match rxAck, radio.ackPayload with
    | some r, some ap => if ok = true then (ok, some { r with aux := ap % 256 }) else (ok, some r)
    | _, _ => (ok, rxAck)

/-- Transmit period, `TX_TICK_MS`. -/
def TX_TICK_MS : Nat := 20

/-- LED update period, `LED_TICK_MS`. -/
def LED_TICK_MS : Nat := 10

/-- Link-loss window, `RX_TIMEOUT_MS`. -/
def RX_TIMEOUT_MS : Nat := 120

/-- Shift of the moving average, `EMA_SHIFT`. -/
def EMA_SHIFT : Nat := 2

/-- Lower snap constant, `AUX_SNAP_LOW`. -/
def AUX_SNAP_LOW : Nat := 1

/-- Upper snap constant, `AUX_SNAP_HIGH`. -/
def AUX_SNAP_HIGH : Nat := 99

/-- Module state of `receiver.cpp`. -/
structure Receiver where
  auxTarget : Nat
  auxSmooth : Nat
  lastTxMs : Nat
  lastLedMs : Nat
  lastRxOkMs : Nat
  s0 : Nat
  s1 : Nat
  s2 : Nat
  samplesInit : Bool

/-- First shaping stage, `clampAndSnap`. -/
def clampAndSnap (v : Nat) : Nat :=
  let v1 := if v > 100 then 100 else v
  let v2 := if v1 < AUX_SNAP_LOW then 0 else v1
  if v2 > AUX_SNAP_HIGH then 100 else v2

/-- Median of three, `median3`: the three conditional swaps, followed through
for the variables that reach the returned `b`. -/
def median3 (a b c : Nat) : Nat :=
  let a1 := if a > b then b else a
  let b1 := if a > b then a else b
  let b2 := if b1 > c then c else b1
  if a1 > b2 then a1 else b2

/-- Smoothing and failsafe, `updateLed`. -/
def updateLed (st : Receiver) (now : Nat) : Receiver :=
  if sub32 now st.lastLedMs < LED_TICK_MS then st
  else
    let st1 := { st with lastLedMs := now }
    let st2 := if sub32 now st1.lastRxOkMs > RX_TIMEOUT_MS
               then { st1 with auxTarget := 0 } else st1
    let delta : Int := (st2.auxTarget : Int) - (st2.auxSmooth : Int)
    let sm : Nat := (((st2.auxSmooth : Int) + delta >>> EMA_SHIFT) % 65536).toNat
    { st2 with auxSmooth := if sm > 100 then 100 else sm }

/-- Module initialisation, `receiverInit`. -/
def receiverInit (now : Nat) : Receiver where
  auxTarget := 0
  auxSmooth := 0
  lastTxMs := 0
  lastLedMs := 0
  lastRxOkMs := now
  s0 := 0
  s1 := 0
  s2 := 0
  samplesInit := false

/-- The transmit block of `receiverLoop`: the state afterwards, the sample
`lastRaw` when an acknowledgment was received (`got`), and whether
`commSendFrame` was invoked. -/
def transmitStep (st : Receiver) (now : Nat) (txFrame : CommFrame) (radio : RadioOutcome) :
    Receiver × Option Nat × Bool :=
  if sub32 now st.lastTxMs ≥ TX_TICK_MS then
    let st1 := { st with lastTxMs := now }
    let r := commSendFrame radio txFrame (some CommFrame.zero)
    if r.1 = true then
      let v := clampAndSnap ((r.2.getD CommFrame.zero).aux)
      ({ st1 with lastRxOkMs := now }, some v, true)
    else (st1, none, true)
  else (st, none, false)

/-- The median block of `receiverLoop` for a received sample `lastRaw`. -/
def pushSample (st : Receiver) (lastRaw : Nat) : Receiver :=
  let st1 := if st.samplesInit = false
             then { st with s0 := lastRaw, s1 := lastRaw, s2 := lastRaw, samplesInit := true }
             else { st with s0 := st.s1, s1 := st.s2, s2 := lastRaw }
  { st1 with auxTarget := median3 st1.s0 st1.s1 st1.s2 }

/-- One pass of `receiverLoop`: the state afterwards and whether
`commSendFrame` was invoked. -/
def receiverLoop (st : Receiver) (now : Nat) (txFrame : CommFrame) (radio : RadioOutcome) :
    Receiver × Bool :=
  let t := transmitStep st now txFrame radio
  let st2 := match t.2.1 with
    | some lastRaw => pushSample t.1 lastRaw
    | none => t.1
  (updateLed st2 now, t.2.2)

/-- Getter `receiverGetLastAux`. -/
def receiverGetLastAux (st : Receiver) : Nat :=
  st.auxTarget

/-- Successive passes of `receiverLoop`, each with its counter value, frame
and radio behaviour: the final state. -/
def receiverRun (st : Receiver) : List (Nat × CommFrame × RadioOutcome) → Receiver
  | [] => st
  | c :: cs => receiverRun (receiverLoop st c.1 c.2.1 c.2.2).1 cs

/-- The value of `receiverGetLastAux()` after each of successive passes of
`receiverLoop`. -/
def receiverTargets (st : Receiver) : List (Nat × CommFrame × RadioOutcome) → List Nat
  | [] => []
  | c :: cs =>
    receiverGetLastAux (receiverLoop st c.1 c.2.1 c.2.2).1
      :: receiverTargets (receiverLoop st c.1 c.2.1 c.2.2).1 cs

/-- A radio pass in which the frame is acknowledged with telemetry byte
`aux`. -/
def ackWith (aux : Nat) : RadioOutcome where
  ready := true
  writeOk := true
  ackPayload := some aux

/-- A radio pass in which the frame is not acknowledged. -/
def noAck : RadioOutcome where
  ready := true
  writeOk := false
  ackPayload := none

/-- Number of passes of a run of `receiverLoop` at which the LED update runs:
the gate `now - lastLedMs < LED_TICK_MS` of `updateLed` does not return
early. -/
def ledUpdates (st : Receiver) : List (Nat × CommFrame × RadioOutcome) → Nat
  | [] => 0
  | c :: cs =>
    (if sub32 c.1 st.lastLedMs < LED_TICK_MS then 0 else 1)
      + ledUpdates (receiverLoop st c.1 c.2.1 c.2.2).1 cs

/-- Whether `commSendFrame` was invoked, for each of successive passes of
`receiverLoop`. -/
def receiverSends (st : Receiver) : List (Nat × CommFrame × RadioOutcome) → List Bool
  | [] => []
  | c :: cs =>
    (receiverLoop st c.1 c.2.1 c.2.2).2
      :: receiverSends (receiverLoop st c.1 c.2.1 c.2.2).1 cs

/-- Example module state with the link about to be lost: last acknowledgment
at counter value 0, target 80 and smoothed value 100. -/
def lostStart : Receiver :=
  { receiverInit 0 with auxTarget := 80, auxSmooth := 100, s0 := 80, s1 := 80, s2 := 80,
                        samplesInit := true }

/-- Example run for `lostStart`: fourteen unacknowledged passes, 10 ms apart,
from counter value 200 on. -/
def lostRun : List (Nat × CommFrame × RadioOutcome) :=
  (List.range 14).map (fun i => (200 + 10 * i, CommFrame.zero, noAck))

/-! ## Joystick: re-centring -/

/-- Re-centring of the calibration window, `Joystick::recenterAround`: the
span of each axis (1023 when below 2) is halved, the window `centre ± half` is
clamped to [0,1023] and replaced by the full range when it is 2 wide or less,
and the centre is limited to the window. -/
def recenterAround (j : Joystick) (centerX centerY : Int) : Joystick :=
  let spanX := j.calMaxX - j.calMinX
  let spanY := j.calMaxY - j.calMinY
  let spanX := if spanX < 2 then 1023 else spanX
  let spanY := if spanY < 2 then 1023 else spanY
  let halfX := Int.tdiv spanX 2
  let halfY := Int.tdiv spanY 2
  let minX := centerX - halfX
  let maxX := centerX + halfX
  let minY := centerY - halfY
  let maxY := centerY + halfY
  let minX := if minX < 0 then 0 else minX
  let maxX := if maxX > 1023 then 1023 else maxX
  let minY := if minY < 0 then 0 else minY
  let maxY := if maxY > 1023 then 1023 else maxY
  let resetX := decide (maxX ≤ minX + 2)
  let minX := if resetX = true then 0 else minX
  let maxX := if resetX = true then 1023 else maxX
  let resetY := decide (maxY ≤ minY + 2)
  let minY := if resetY = true then 0 else minY
  let maxY := if resetY = true then 1023 else maxY
  { j with calMinX := minX, calMaxX := maxX, calMinY := minY, calMaxY := maxY,
           centerX := if centerX < minX then minX
                      else if centerX > maxX then maxX else centerX,
           centerY := if centerY < minY then minY
                      else if centerY > maxY then maxY else centerY }

/-- Example joystick: X calibrated to the narrow window [500, 502]. -/
def joyNarrow : Joystick :=
  { Joystick.default with calMinX := 500, calMaxX := 502, centerX := 501 }

/-! ## Periodic trigger: `time_utils.cpp` -/

/-- Trigger `everyMs(interval, lastTick)`: `interval` and `lastTick` are values
of `uint32_t`, `now` is the value `millis()` returns during the call. The
result is the return value and the content of `lastTick` afterwards. -/
def everyMs (interval lastTick now : Nat) : Bool × Nat :=
  if sub32 now lastTick ≥ interval then (true, now) else (false, lastTick)

/-- Successive calls of `everyMs(interval, lastTick)` on one variable
`lastTick`, one per counter value of the list: the results and the content of
`lastTick` after the last call. -/
def everyMsCalls (interval lastTick : Nat) : List Nat → List Bool × Nat
  | [] => ([], lastTick)
  | t :: ts =>
    ((everyMs interval lastTick t).1 :: (everyMsCalls interval (everyMs interval lastTick t).2 ts).1,
     (everyMsCalls interval (everyMs interval lastTick t).2 ts).2)

/-- Example run from `receiverInit 0`: fourteen passes 20 ms apart, each
acknowledged with the telemetry byte 100. -/
def risingRun : List (Nat × CommFrame × RadioOutcome) :=
  (List.range 14).map (fun i => (20 + 20 * i, CommFrame.zero, ackWith 100))

/-- Example module state: smoothed value 20, nothing received yet. -/
def fallingStart : Receiver :=
  { receiverInit 0 with auxSmooth := 20 }

/-- Example run for `fallingStart`: ten passes 20 ms apart, each acknowledged
with the telemetry byte 10. -/
def fallingRun : List (Nat × CommFrame × RadioOutcome) :=
  (List.range 10).map (fun i => (20 + 20 * i, CommFrame.zero, ackWith 10))

/-- A radio pass in which the frame is acknowledged and no acknowledgment
payload is available. -/
def ackNoPayload : RadioOutcome where
  ready := true
  writeOk := true
  ackPayload := none

/-- Example thresholds: Down and Left share the threshold 600, the other
three are 700, 800 and 900. -/
def tiedDownLeft : Buttons :=
  { Buttons.init with TH_DOWN := 600, TH_UP := 700, TH_RIGHT := 800, TH_CENTER := 900,
                      TH_LEFT := 600 }

/-! ## Keypad: decoder -/

/-- All five thresholds lie in `[0,1023]`, as `clampThresholds` leaves them. -/
def ThresholdsInRange (s : Buttons) : Prop :=
  (0 ≤ s.TH_DOWN ∧ s.TH_DOWN ≤ 1023) ∧ (0 ≤ s.TH_UP ∧ s.TH_UP ≤ 1023) ∧
  (0 ≤ s.TH_RIGHT ∧ s.TH_RIGHT ≤ 1023) ∧ (0 ≤ s.TH_CENTER ∧ s.TH_CENTER ≤ 1023) ∧
  (0 ≤ s.TH_LEFT ∧ s.TH_LEFT ≤ 1023)

/-- Two module states hold the same five thresholds. -/
def SameThresholds (s t : Buttons) : Prop :=
  s.TH_DOWN = t.TH_DOWN ∧ s.TH_UP = t.TH_UP ∧ s.TH_RIGHT = t.TH_RIGHT ∧
  s.TH_CENTER = t.TH_CENTER ∧ s.TH_LEFT = t.TH_LEFT

/-- Scan invariant of `decodeKeyFromAdc` over any table whose thresholds
lie in [0,1023]: either no entry was accepted and the accumulator is
unchanged, or the result is an accepted entry of the table with the highest
threshold not exceeding the sample. -/
theorem decode_foldl_invariant (adc : Int) (l : List (Key × Int))
    (hl : ∀ e ∈ l, 0 ≤ e.2 ∧ e.2 ≤ 1023) (acc : Key × Int) :
    (l.foldl (decodeStep adc) acc = acc ∧ ∀ e ∈ l, ¬ (e.2 ≤ adc ∧ acc.2 ≤ e.2)) ∨
    (l.foldl (decodeStep adc) acc ∈ l ∧ (l.foldl (decodeStep adc) acc).2 ≤ adc ∧
      acc.2 ≤ (l.foldl (decodeStep adc) acc).2 ∧
      ∀ e ∈ l, e.2 ≤ adc → e.2 ≤ (l.foldl (decodeStep adc) acc).2) := by
  induction l generalizing acc with
  | nil => left; simp
  | cons e l ih =>
    have he := hl e (List.mem_cons_self e l)
    have hl2 : ∀ x ∈ l, 0 ≤ x.2 ∧ x.2 ≤ 1023 :=
      fun x hx => hl x (List.mem_cons_of_mem e hx)
    simp only [List.foldl]
    by_cases hc : e.2 ≤ adc ∧ acc.2 ≤ e.2
    · have hstep : decodeStep adc acc e = e := by
        unfold decodeStep
        rw [if_pos ⟨hc.1, he.1, he.2, hc.2⟩]
      rw [hstep]
      right
      rcases ih hl2 e with ⟨h1, h2⟩ | ⟨h1, h2, h3, h4⟩
      · rw [h1]
        refine ⟨List.mem_cons_self e l, hc.1, hc.2, ?_⟩
        intro x hx hxa
        rcases List.mem_cons.mp hx with rfl | hx
        · exact le_refl _
        · have := h2 x hx
          by_contra hcon
          exact this ⟨hxa, by omega⟩
      · refine ⟨List.mem_cons_of_mem e h1, h2, by omega, ?_⟩
        intro x hx hxa
        rcases List.mem_cons.mp hx with rfl | hx
        · exact h3
        · exact h4 x hx hxa
    · have hstep : decodeStep adc acc e = acc := by
        unfold decodeStep
        rw [if_neg]
        rintro ⟨h1, _, _, h4⟩
        exact hc ⟨h1, h4⟩
      rw [hstep]
      rcases ih hl2 acc with ⟨h1, h2⟩ | ⟨h1, h2, h3, h4⟩
      · left
        refine ⟨h1, ?_⟩
        intro x hx
        rcases List.mem_cons.mp hx with rfl | hx
        · exact hc
        · exact h2 x hx
      · right
        refine ⟨List.mem_cons_of_mem e h1, h2, h3, ?_⟩
        intro x hx hxa
        rcases List.mem_cons.mp hx with rfl | hx
        · have : ¬ acc.2 ≤ x.2 := fun h => hc ⟨hxa, h⟩
          omega
        · exact h4 x hx hxa

/-- Every entry of the table pairs a key other than `None` with its
threshold, and every such key has an entry. -/
theorem mem_entries (s : Buttons) (e : Key × Int) :
    e ∈ entries s ↔ e.1 ≠ Key.None ∧ e.2 = buttonsGetThreshold s e.1 := by
  obtain ⟨k, v⟩ := e
  simp only [entries, List.mem_cons, List.mem_singleton, Prod.mk.injEq, List.mem_nil_iff,
    or_false]
  constructor
  · rintro (⟨rfl, rfl⟩ | ⟨rfl, rfl⟩ | ⟨rfl, rfl⟩ | ⟨rfl, rfl⟩ | ⟨rfl, rfl⟩) <;>
      exact ⟨by decide, rfl⟩
  · rintro ⟨hk, hv⟩
    cases k <;> simp_all [buttonsGetThreshold]

/-- Entries of the table are in range when the thresholds are. -/
theorem entries_in_range (s : Buttons) (h : ThresholdsInRange s) :
    ∀ e ∈ entries s, 0 ≤ e.2 ∧ e.2 ≤ 1023 := by
  obtain ⟨hd, hu, hr, hc, hl⟩ := h
  intro e he
  simp only [entries, List.mem_cons, List.mem_singleton, List.mem_nil_iff, or_false] at he
  rcases he with rfl | rfl | rfl | rfl | rfl <;> assumption

/-- C1. With the five thresholds in [0,1023], `decodeKeyFromAdc` returns
`Key::None` exactly when the sample is below all five thresholds; otherwise
the threshold of the returned key does not exceed the sample and is the
highest threshold with that property; and the result is the same in any two
module states that hold the same thresholds. -/
theorem decodeKeyFromAdc_highest_threshold (s : Buttons) (adc : Int)
    (h : ThresholdsInRange s) :
    (decodeKeyFromAdc s adc = Key.None ↔
        ∀ k, k ≠ Key.None → adc < buttonsGetThreshold s k) ∧
    (decodeKeyFromAdc s adc ≠ Key.None →
        buttonsGetThreshold s (decodeKeyFromAdc s adc) ≤ adc ∧
        ∀ k, k ≠ Key.None → buttonsGetThreshold s k ≤ adc →
          buttonsGetThreshold s k ≤ buttonsGetThreshold s (decodeKeyFromAdc s adc)) ∧
    (∀ t : Buttons, SameThresholds s t →
        decodeKeyFromAdc t adc = decodeKeyFromAdc s adc) := by
  have hr := entries_in_range s h
  have hnn : ∀ k, k ≠ Key.None → 0 ≤ buttonsGetThreshold s k := by
    intro k hk
    exact (hr (k, buttonsGetThreshold s k) ((mem_entries s _).mpr ⟨hk, rfl⟩)).1
  have inv := decode_foldl_invariant adc (entries s) hr (Key.None, -1)
  refine ⟨?_, ?_, ?_⟩
  · unfold decodeKeyFromAdc
    rcases inv with ⟨h1, h2⟩ | ⟨h1, h2, h3, h4⟩
    · rw [h1]
      refine ⟨fun _ k hk => ?_, fun _ => rfl⟩
      have := h2 (k, buttonsGetThreshold s k) ((mem_entries s _).mpr ⟨hk, rfl⟩)
      have h0 := hnn k hk
      simp only at this
      by_contra hcon
      exact this ⟨by omega, by omega⟩
    · have hm := (mem_entries s _).mp h1
      constructor
      · intro hk
        exact absurd hk hm.1
      · intro hall
        have := hall _ hm.1
        rw [← hm.2] at this
        omega
  · unfold decodeKeyFromAdc
    rcases inv with ⟨h1, h2⟩ | ⟨h1, h2, h3, h4⟩
    · rw [h1]
      intro hne
      exact absurd rfl hne
    · have hm := (mem_entries s _).mp h1
      intro _
      rw [← hm.2]
      refine ⟨h2, fun k hk hka => ?_⟩
      exact h4 (k, buttonsGetThreshold s k) ((mem_entries s _).mpr ⟨hk, rfl⟩) hka
  · rintro t ⟨e1, e2, e3, e4, e5⟩
    simp only [decodeKeyFromAdc, entries, e1, e2, e3, e4, e5]

/-- C1 at the default thresholds and the sample 922. -/
theorem decodeKeyFromAdc_highest_threshold_witness :
    (decodeKeyFromAdc Buttons.init 922 = Key.None ↔
        ∀ k, k ≠ Key.None → (922 : Int) < buttonsGetThreshold Buttons.init k) ∧
    (decodeKeyFromAdc Buttons.init 922 ≠ Key.None →
        buttonsGetThreshold Buttons.init (decodeKeyFromAdc Buttons.init 922) ≤ 922 ∧
        ∀ k, k ≠ Key.None → buttonsGetThreshold Buttons.init k ≤ 922 →
          buttonsGetThreshold Buttons.init k
            ≤ buttonsGetThreshold Buttons.init (decodeKeyFromAdc Buttons.init 922)) ∧
    (∀ t : Buttons, SameThresholds Buttons.init t →
        decodeKeyFromAdc t 922 = decodeKeyFromAdc Buttons.init 922) :=
  decodeKeyFromAdc_highest_threshold Buttons.init 922 (by
    simp only [ThresholdsInRange, Buttons.init, TH_DOWN_DEFAULT, TH_UP_DEFAULT,
      TH_RIGHT_DEFAULT, TH_CENTER_DEFAULT, TH_LEFT_DEFAULT]
    decide)

/-! ## Keypad: debounce -/

/-- Counter difference between two polls `j` milliseconds apart. -/
theorem sub32_add (t j : Nat) (hj : j < U32) : sub32 ((t + j) % U32) (t % U32) = j := by
  unfold sub32 U32 at *
  omega

/-- Fields of the engine that the reading-change step sets or keeps. -/
theorem noteReading_fields (e : Engine) (reading : Key) (now : Nat) :
    (noteReading e reading now).lastReading = reading ∧
    (noteReading e reading now).lastChange
      = (if reading ≠ e.lastReading then now else e.lastChange) ∧
    (noteReading e reading now).stable = e.stable ∧
    (noteReading e reading now).pressStart = e.pressStart ∧
    (noteReading e reading now).releasedPending = e.releasedPending ∧
    (noteReading e reading now).releaseDur = e.releaseDur ∧
    (noteReading e reading now).shortPending = e.shortPending ∧
    (noteReading e reading now).longFired = e.longFired ∧
    (noteReading e reading now).lastRepeatAt = e.lastRepeatAt := by
  unfold noteReading
  by_cases h : reading ≠ e.lastReading
  · simp only [if_pos h, and_self]
  · simp only [if_neg h, and_true, true_and]
    exact (not_not.mp h).symm

/-- What a change of the stable key keeps: thresholds, last reading and
change time; the stable key becomes the reading. -/
theorem stableChange_fields (s : Buttons) (e0 : Engine) (reading : Key) (now : Nat) :
    SameThresholds s (stableChange s e0 reading now) ∧
    (stableChange s e0 reading now).eng.stable = reading ∧
    (stableChange s e0 reading now).eng.lastReading = e0.lastReading ∧
    (stableChange s e0 reading now).eng.lastChange = e0.lastChange := by
  unfold stableChange recordRelease resetPerPressState SameThresholds
  dsimp only
  split_ifs <;> exact ⟨⟨rfl, rfl, rfl, rfl, rfl⟩, rfl, rfl, rfl⟩

/-- The update never touches the thresholds. -/
theorem buttonsUpdate_thresholds (s : Buttons) (adc : Int) (now : Nat) :
    SameThresholds s (buttonsUpdate s adc now) := by
  unfold buttonsUpdate
  dsimp only
  split_ifs
  · exact (stableChange_fields _ _ _ _).1
  · exact ⟨rfl, rfl, rfl, rfl, rfl⟩
  · exact ⟨rfl, rfl, rfl, rfl, rfl⟩

/-- After an update the last reading is the filtered reading of the sample. -/
theorem buttonsUpdate_lastReading (s : Buttons) (adc : Int) (now : Nat) :
    (buttonsUpdate s adc now).eng.lastReading = filteredReading s adc := by
  have hn := (noteReading_fields s.eng (filteredReading s adc) now).1
  unfold buttonsUpdate
  dsimp only
  split_ifs
  · rw [(stableChange_fields _ _ _ _).2.2.1]; exact hn
  · exact hn
  · exact hn

/-- After an update the change time is the poll time when the reading
changed and the old change time otherwise. -/
theorem buttonsUpdate_lastChange (s : Buttons) (adc : Int) (now : Nat) :
    (buttonsUpdate s adc now).eng.lastChange =
      if filteredReading s adc ≠ s.eng.lastReading then now else s.eng.lastChange := by
  have hn := (noteReading_fields s.eng (filteredReading s adc) now).2.1
  unfold buttonsUpdate
  dsimp only
  by_cases h1 : sub32 now (noteReading s.eng (filteredReading s adc) now).lastChange
      > debounceMs
  · rw [if_pos h1]
    by_cases h2 : filteredReading s adc ≠ (noteReading s.eng (filteredReading s adc) now).stable
    · rw [if_pos h2, (stableChange_fields _ _ _ _).2.2.2]; exact hn
    · rw [if_neg h2]; exact hn
  · rw [if_neg h1]; exact hn

/-- After an update the stable key is the filtered reading when the reading
has been unchanged for more than the debounce window, and the old stable key
otherwise. -/
theorem buttonsUpdate_stable (s : Buttons) (adc : Int) (now : Nat) :
    (buttonsUpdate s adc now).eng.stable =
      if sub32 now (if filteredReading s adc ≠ s.eng.lastReading then now
                    else s.eng.lastChange) > debounceMs
      then filteredReading s adc else s.eng.stable := by
  obtain ⟨-, hc, hs, -⟩ := noteReading_fields s.eng (filteredReading s adc) now
  unfold buttonsUpdate
  dsimp only
  rw [hc, hs]
  by_cases h1 : sub32 now (if filteredReading s adc ≠ s.eng.lastReading then now
      else s.eng.lastChange) > debounceMs
  · rw [if_pos h1, if_pos h1]
    by_cases h2 : filteredReading s adc ≠ s.eng.stable
    · rw [if_pos h2]
      exact (stableChange_fields _ _ _ _).2.1
    · rw [if_neg h2]
      exact ((not_not.mp h2).symm ▸ hs)
  · rw [if_neg h1, if_neg h1]
    exact hs

/-- The filtered reading depends only on the thresholds and the stable key. -/
theorem filteredReading_congr (s t : Buttons) (adc : Int) (hT : SameThresholds s t)
    (hs : s.eng.stable = t.eng.stable) : filteredReading t adc = filteredReading s adc := by
  obtain ⟨e1, e2, e3, e4, e5⟩ := hT
  simp only [filteredReading, decodeKeyFromAdc, entries, minThr, e1, e2, e3, e4, e5, hs]

/-- A filtered reading that differs from the stable key is the decoded key. -/
theorem filteredReading_ne_stable (s : Buttons) (adc : Int)
    (h : filteredReading s adc ≠ s.eng.stable) :
    decodeKeyFromAdc s adc = filteredReading s adc := by
  unfold filteredReading at h ⊢
  dsimp only at h ⊢
  split_ifs at h ⊢ with hc
  · exact absurd rfl h
  · rfl

/-- A sample that decodes to the stable key is read as the stable key. -/
theorem filteredReading_of_decode_stable (s : Buttons) (adc : Int)
    (h : decodeKeyFromAdc s adc = s.eng.stable) : filteredReading s adc = s.eng.stable := by
  unfold filteredReading
  dsimp only
  split_ifs with hc
  · rfl
  · exact h

/-- A sample read as a new key `r` while `r0` is stable is still read as `r`
once `r` itself is stable. -/
theorem filteredReading_after_change (s t : Buttons) (adc : Int) (r : Key)
    (hT : SameThresholds s t) (h : filteredReading s adc = r) (hr : r ≠ s.eng.stable)
    (ht : t.eng.stable = r ∨ t.eng.stable = s.eng.stable) : filteredReading t adc = r := by
  rcases ht with ht | ht
  · have hd : decodeKeyFromAdc s adc = r := by
      rw [← h]; exact filteredReading_ne_stable s adc (by rw [h]; exact hr)
    have hd2 : decodeKeyFromAdc t adc = t.eng.stable := by
      rw [ht, ← hd]
      obtain ⟨e1, e2, e3, e4, e5⟩ := hT
      simp only [decodeKeyFromAdc, entries, e1, e2, e3, e4, e5]
    rw [filteredReading_of_decode_stable t adc hd2, ht]
  · rw [filteredReading_congr s t adc hT ht.symm, h]

/-- Transitivity of `SameThresholds`. -/
theorem SameThresholds.trans {s t u : Buttons} (h1 : SameThresholds s t)
    (h2 : SameThresholds t u) : SameThresholds s u := by
  obtain ⟨a1, a2, a3, a4, a5⟩ := h1
  obtain ⟨b1, b2, b3, b4, b5⟩ := h2
  exact ⟨a1.trans b1, a2.trans b2, a3.trans b3, a4.trans b4, a5.trans b5⟩

/-- Reflexivity of `SameThresholds`. -/
theorem SameThresholds.refl (s : Buttons) : SameThresholds s s :=
  ⟨rfl, rfl, rfl, rfl, rfl⟩

/-- Polls whose reading equals the stable key never change the stable key. -/
theorem pollTicks_reading_stable (s0 : Buttons) (bs : List Int)
    (hbs : ∀ b ∈ bs, filteredReading s0 b = s0.eng.stable) :
    ∀ (s : Buttons) (t : Nat), SameThresholds s0 s → s.eng.stable = s0.eng.stable →
      (pollTicks s t bs).eng.stable = s0.eng.stable := by
  induction bs with
  | nil => intro s t _ hs; exact hs
  | cons b bs ih =>
    intro s t hT hs
    have hb : filteredReading s b = s0.eng.stable := by
      rw [filteredReading_congr s0 s b hT hs.symm]
      exact hbs b (List.mem_cons_self b bs)
    simp only [pollTicks, buttonsTick]
    apply ih (fun x hx => hbs x (List.mem_cons_of_mem b hx))
    · exact hT.trans (buttonsUpdate_thresholds s b _)
    · rw [buttonsUpdate_stable, hb, hs]
      split_ifs <;> rfl

/-- Invariant of the polls during which a new reading `r` is pending: after
`j ≥ 1` polls at `t0, t0+1, ...` that all read `r`, the debounce timer was
started at `t0` and the stable key is still the old one exactly when `j ≤ 31`. -/
def Pending (s0 : Buttons) (t0 : Nat) (r : Key) (j : Nat) (s : Buttons) : Prop :=
  SameThresholds s0 s ∧ s.eng.lastReading = r ∧ s.eng.lastChange = t0 % U32 ∧
  s.eng.stable = if j ≤ 31 then s0.eng.stable else r

/-- One more poll reading `r` keeps the invariant. -/
theorem pending_step (s0 s : Buttons) (t0 j : Nat) (r : Key) (a : Int)
    (hr : r ≠ s0.eng.stable) (ha : filteredReading s0 a = r)
    (hj : j < U32) (hI : Pending s0 t0 r j s) :
    Pending s0 t0 r (j + 1) (buttonsUpdate s a ((t0 + j) % U32)) := by
  obtain ⟨hT, hL, hC, hS⟩ := hI
  have hst : s.eng.stable = r ∨ s.eng.stable = s0.eng.stable := by
    rw [hS]; split_ifs
    · right; rfl
    · left; rfl
  have hf : filteredReading s a = r := filteredReading_after_change s0 s a r hT ha hr hst
  refine ⟨hT.trans (buttonsUpdate_thresholds s a _), ?_, ?_, ?_⟩
  · rw [buttonsUpdate_lastReading, hf]
  · rw [buttonsUpdate_lastChange, hf, hL, if_neg (not_not.mpr rfl), hC]
  · rw [buttonsUpdate_stable, hf, hL, if_neg (not_not.mpr rfl), hC, sub32_add t0 j hj, hS]
    unfold debounceMs
    split_ifs <;> first | rfl | omega

/-- The invariant holds along any run of polls that read `r`. -/
theorem pollTicks_pending (s0 : Buttons) (t0 : Nat) (r : Key) (hr : r ≠ s0.eng.stable)
    (as : List Int) (has : ∀ a ∈ as, filteredReading s0 a = r) :
    ∀ (j : Nat) (s : Buttons), Pending s0 t0 r j s → j + as.length ≤ U32 →
      Pending s0 t0 r (j + as.length) (pollTicks s (t0 + j) as) := by
  induction as with
  | nil => intro j s hI _; exact hI
  | cons a as ih =>
    intro j s hI hlen
    simp only [List.length_cons] at hlen
    simp only [pollTicks, buttonsTick, List.length_cons]
    have h1 := pending_step s0 s t0 j r a hr (has a (List.mem_cons_self a as)) (by omega) hI
    have h2 := ih (fun x hx => has x (List.mem_cons_of_mem a hx)) (j + 1) _ h1 (by omega)
    rw [show j + (as.length + 1) = j + 1 + as.length by omega]
    exact h2

/-- The first poll that reads a key `r` different from the last reading starts
the debounce timer and leaves the stable key alone. -/
theorem pending_first (s0 : Buttons) (t0 : Nat) (r : Key) (a : Int)
    (hne : r ≠ s0.eng.lastReading) (ha : filteredReading s0 a = r) :
    Pending s0 t0 r 1 (buttonsUpdate s0 a (t0 % U32)) := by
  have h0 : sub32 (t0 % U32) (t0 % U32) = 0 := by unfold sub32 U32; omega
  refine ⟨buttonsUpdate_thresholds s0 a _, ?_, ?_, ?_⟩
  · rw [buttonsUpdate_lastReading, ha]
  · rw [buttonsUpdate_lastChange, ha, if_pos hne]
  · rw [buttonsUpdate_stable, ha, if_pos hne, h0]
    simp [debounceMs]

/-- Polling a concatenation is polling the first list, then the second. -/
theorem pollTicks_append (as bs : List Int) :
    ∀ (s : Buttons) (t0 : Nat),
      pollTicks s t0 (as ++ bs) = pollTicks (pollTicks s t0 as) (t0 + as.length) bs := by
  induction as with
  | nil => intro s t0; rfl
  | cons a as ih =>
    intro s t0
    show pollTicks (buttonsTick s a (t0 % U32)) (t0 + 1) (as ++ bs) =
      pollTicks (pollTicks (buttonsTick s a (t0 % U32)) (t0 + 1) as)
        (t0 + (as.length + 1)) bs
    rw [ih, show t0 + 1 + as.length = t0 + (as.length + 1) by omega]

/-- State after a non-empty run of polls that all read the new key `r`, the
last reading before the run being another key. -/
theorem pollTicks_new_reading (s0 : Buttons) (t0 : Nat) (r : Key) (l : List Int)
    (hnew : r ≠ s0.eng.lastReading) (hr : r ≠ s0.eng.stable)
    (hl : ∀ a ∈ l, filteredReading s0 a = r) (hne : l ≠ []) (hlen : l.length ≤ U32) :
    Pending s0 t0 r l.length (pollTicks s0 t0 l) := by
  cases l with
  | nil => exact absurd rfl hne
  | cons a as =>
    simp only [List.length_cons] at hlen
    simp only [pollTicks, buttonsTick, List.length_cons]
    have h1 := pending_first s0 t0 r a hnew (hl a (List.mem_cons_self a as))
    have h2 := pollTicks_pending s0 t0 r hr as
      (fun x hx => hl x (List.mem_cons_of_mem a hx)) 1 _ h1 (by omega)
    rw [show as.length + 1 = 1 + as.length by omega]
    exact h2

/-- C2 (amended). The engine is polled once per millisecond. The polls at
`t0, t0+1, ...` read a key `r` that differs from the stable key and from the
last reading the engine holds, so that the first of them starts the debounce
timer. After `j` such polls (the new reading has then persisted for `j - 1` ms)
the stable key is unchanged as long as `j ≤ 31`, that is for a persistence of
30 ms or less, and it is `r` for every `j ≥ 32`: the stable key changes exactly
once, at the poll 31 ms after the first changed reading. If the reading returns
to the old key after at most 31 polls, the stable key stays unchanged during
all later polls. -/
theorem debounce_window (s : Buttons) (t0 : Nat) (r : Key) (as bs : List Int)
    (hnew : r ≠ s.eng.lastReading) (hr : r ≠ s.eng.stable)
    (has : ∀ a ∈ as, filteredReading s a = r)
    (hbs : ∀ b ∈ bs, filteredReading s b = s.eng.stable)
    (hlen : as.length ≤ U32) :
    (∀ j, j ≤ as.length →
        (pollTicks s t0 (as.take j)).eng.stable = if j ≤ 31 then s.eng.stable else r) ∧
    (as.length ≤ 31 → (pollTicks s t0 (as ++ bs)).eng.stable = s.eng.stable) := by
  constructor
  · intro j hj
    rcases Nat.eq_zero_or_pos j with rfl | hpos
    · simp [pollTicks]
    · have hlt : (as.take j).length = j := List.length_take_of_le hj
      have hne : as.take j ≠ [] := by
        intro h0
        rw [h0] at hlt
        simp at hlt
        omega
      have h := pollTicks_new_reading s t0 r (as.take j) hnew hr
        (fun a ha => has a (List.mem_of_mem_take ha)) hne (by omega)
      rw [hlt] at h
      exact h.2.2.2
  · intro h31
    rw [pollTicks_append]
    by_cases hne : as = []
    · subst hne
      exact pollTicks_reading_stable s bs hbs s _ (SameThresholds.refl s) rfl
    · have h := pollTicks_new_reading s t0 r as hnew hr has hne hlen
      apply pollTicks_reading_stable s bs hbs _ _ h.1
      rw [h.2.2.2, if_pos h31]

set_option maxRecDepth 100000 in
/-- C2 (amended) at the default thresholds. From the initial engine, 32 polls
from counter value 100 read key Left (sample 922): the stable key changes at
the 32nd. When only 31 polls read Left and the next 40 read None (sample 8),
the stable key is None after all of them. From the engine left by 10 polls
reading Left (a bounce in progress: last reading Left, stable key None), 32
polls from 110 on read key Right (sample 720): the stable key changes at the
32nd of these. -/
theorem debounce_window_witness :
    (∀ j, j ≤ (List.replicate 32 (922 : Int)).length →
        (pollTicks Buttons.init 100 ((List.replicate 32 (922 : Int)).take j)).eng.stable
          = if j ≤ 31 then Buttons.init.eng.stable else Key.Left) ∧
    (pollTicks Buttons.init 100
        (List.replicate 31 (922 : Int) ++ List.replicate 40 8)).eng.stable
      = Buttons.init.eng.stable ∧
    (∀ j, j ≤ (List.replicate 32 (720 : Int)).length →
        (pollTicks midBounce 110 ((List.replicate 32 (720 : Int)).take j)).eng.stable
          = if j ≤ 31 then midBounce.eng.stable else Key.Right) ∧
    (pollTicks midBounce 110
        (List.replicate 31 (720 : Int) ++ List.replicate 40 8)).eng.stable
      = midBounce.eng.stable :=
  ⟨(debounce_window Buttons.init 100 Key.Left (List.replicate 32 922) [8]
      (by decide) (by decide) (by decide) (by decide) (by decide)).1,
   (debounce_window Buttons.init 100 Key.Left (List.replicate 31 922) (List.replicate 40 8)
      (by decide) (by decide) (by decide) (by decide) (by decide)).2 (by decide),
   (debounce_window midBounce 110 Key.Right (List.replicate 32 720) [8]
      (by decide) (by decide) (by decide) (by decide) (by decide)).1,
   (debounce_window midBounce 110 Key.Right (List.replicate 31 720) (List.replicate 40 8)
      (by decide) (by decide) (by decide) (by decide) (by decide)).2 (by decide)⟩

set_option maxRecDepth 100000 in
/-- C2 as stated fails in two ways. At a persistence of exactly 30 ms: default
thresholds, initial engine, the sample 922 decodes to Left and is read at the
31 polls at counter values 100..130 (the changed reading persists for 30 ms),
then the sample 8 (None) is read at 131..158; the stable key is None after
every one of these polls, the reading never became stable. When the last
reading the engine holds already is the changed reading: Left has become
stable by the polls at 100..131 and `buttonsConsumeAll` is called (last reading
None, change time 0, stable key Left); the next poll, at 132, reads None and
changes the stable key to None at once, after a persistence of 0 ms. -/
theorem debounce_exactly_30ms_counterexample :
    (decodeKeyFromAdc Buttons.init 922 = Key.Left ∧
      decodeKeyFromAdc Buttons.init 8 = Key.None ∧
      ∀ j < 60, (pollTicks Buttons.init 100
          ((List.replicate 31 (922 : Int) ++ List.replicate 28 8).take j)).eng.stable
            = Key.None) ∧
    ((pollTicks Buttons.init 100 (List.replicate 32 922)).eng.stable = Key.Left ∧
      (buttonsConsumeAll (pollTicks Buttons.init 100 (List.replicate 32 922))).eng.stable
        = Key.Left ∧
      (buttonsConsumeAll (pollTicks Buttons.init 100 (List.replicate 32 922))).eng.lastReading
        = Key.None ∧
      (pollTicks (buttonsConsumeAll (pollTicks Buttons.init 100 (List.replicate 32 922)))
        132 [8]).eng.stable = Key.None) := by
  decide

/-! ## Keypad: press and release bookkeeping -/

/-- The index of a key determines the key. -/
theorem idx_injective (a b : Key) (h : idx a = idx b) : a = b := by
  cases a <;> cases b <;> first | rfl | (exact absurd h (by decide))

/-- Every key index is below the array length 6. -/
theorem idx_lt_six (k : Key) : idx k < 6 := by
  cases k <;> decide

/-- Duration recorded by a release at counter value `now`: the time since
`pressStart`, or 0 when no press start is recorded (`pressStart == 0`). -/
def releaseDuration (e : Engine) (now : Nat) : Nat :=
  if e.pressStart ≠ 0 then sub32 now e.pressStart else 0

/-- The index guard of `resetPerPressState` never fires: the function always
clears the long-press latch and the repeat time of the key. -/
theorem resetPerPressState_eq (e : Engine) (k : Key) :
    resetPerPressState e k =
      { e with longFired := Function.update e.longFired (idx k) false,
               lastRepeatAt := Function.update e.lastRepeatAt (idx k) 0 } := by
  have h := idx_lt_six k
  unfold resetPerPressState
  dsimp only
  rw [if_neg (by omega)]

/-- Pending flags and recorded duration after a change of the stable key:
only the entries of the key that was stable are written, and only when that
key is not `None`. -/
theorem stableChange_pending (s : Buttons) (e0 : Engine) (reading : Key) (now : Nat)
    (hne : reading ≠ e0.stable) (i : Nat) :
    (stableChange s e0 reading now).eng.releasedPending i
      = (if e0.stable ≠ Key.None ∧ i = idx e0.stable then true else e0.releasedPending i) ∧
    (stableChange s e0 reading now).eng.releaseDur i
      = (if e0.stable ≠ Key.None ∧ i = idx e0.stable then releaseDuration e0 now
         else e0.releaseDur i) ∧
    (stableChange s e0 reading now).eng.shortPending i
      = (if e0.stable ≠ Key.None ∧ i = idx e0.stable ∧ e0.longFired i = false then true
         else e0.shortPending i) := by
  by_cases hp : e0.stable = Key.None
  · have hr : reading ≠ Key.None := fun h => hne (h.trans hp.symm)
    simp only [stableChange, hp, resetPerPressState_eq, ne_eq, not_true_eq_false, false_and,
      if_false, true_and, hr, not_false_eq_true, if_true]
  · by_cases hr : reading = Key.None
    · simp only [stableChange, recordRelease, releaseDuration, hp, hr, ne_eq,
        not_false_eq_true, true_and, false_and, if_false, if_true, and_true,
        not_true_eq_false, and_false]
      by_cases hi : i = idx e0.stable
      · subst hi
        by_cases hl : e0.longFired (idx e0.stable) = false
        · simp [hl, Function.update_same]
        · simp [hl, Function.update_same]
      · by_cases hl : e0.longFired (idx e0.stable) = false
        · simp [hl, hi, Function.update_noteq]
        · simp [hl, hi, Function.update_noteq]
    · simp only [stableChange, recordRelease, releaseDuration, resetPerPressState_eq, hp, hr,
        ne_eq, not_false_eq_true, true_and, false_and, if_false, if_true, and_true,
        not_true_eq_false, and_false]
      by_cases hi : i = idx e0.stable
      · subst hi
        by_cases hl : e0.longFired (idx e0.stable) = false
        · simp [hl, Function.update_same]
        · simp [hl, Function.update_same]
      · by_cases hl : e0.longFired (idx e0.stable) = false
        · simp [hl, hi, Function.update_noteq]
        · simp [hl, hi, Function.update_noteq]

/-- The two ways an update can end: the stable key is kept and only the
reading-change step ran, or the stable key changes to the filtered reading. -/
theorem buttonsUpdate_cases (s : Buttons) (adc : Int) (now : Nat) :
    ((buttonsUpdate s adc now).eng.stable = s.eng.stable ∧
      buttonsUpdate s adc now
        = { s with eng := noteReading s.eng (filteredReading s adc) now }) ∨
    (filteredReading s adc ≠ s.eng.stable ∧
      (buttonsUpdate s adc now).eng.stable = filteredReading s adc ∧
      buttonsUpdate s adc now
        = stableChange s (noteReading s.eng (filteredReading s adc) now)
            (filteredReading s adc) now) := by
  obtain ⟨-, -, hs, -⟩ := noteReading_fields s.eng (filteredReading s adc) now
  unfold buttonsUpdate
  dsimp only
  by_cases h1 : sub32 now (noteReading s.eng (filteredReading s adc) now).lastChange
      > debounceMs
  · rw [if_pos h1]
    by_cases h2 : filteredReading s adc ≠ (noteReading s.eng (filteredReading s adc) now).stable
    · rw [if_pos h2]
      right
      exact ⟨hs ▸ h2, (stableChange_fields _ _ _ _).2.1, rfl⟩
    · rw [if_neg h2]
      left
      exact ⟨hs, rfl⟩
  · rw [if_neg h1]
    left
    exact ⟨hs, rfl⟩

/-- The update performs a release of key `k`: `k` is stable before it and
is not stable after it. -/
def ReleasesKey (s : Buttons) (adc : Int) (now : Nat) (k : Key) : Prop :=
  s.eng.stable = k ∧ (buttonsUpdate s adc now).eng.stable ≠ k

/-- An update that does not release `k` leaves the release flag, the recorded
duration and the short-click flag of `k` untouched. -/
theorem buttonsUpdate_keeps_pending (s : Buttons) (adc : Int) (now : Nat) (k : Key)
    (h : ¬ ReleasesKey s adc now k) :
    (buttonsUpdate s adc now).eng.releasedPending (idx k) = s.eng.releasedPending (idx k) ∧
    (buttonsUpdate s adc now).eng.releaseDur (idx k) = s.eng.releaseDur (idx k) ∧
    (buttonsUpdate s adc now).eng.shortPending (idx k) = s.eng.shortPending (idx k) := by
  obtain ⟨-, -, hs, -, hrp, hrd, hsp, -, -⟩ :=
    noteReading_fields s.eng (filteredReading s adc) now
  rcases buttonsUpdate_cases s adc now with ⟨-, he⟩ | ⟨hne, hst, he⟩
  · rw [he]
    exact ⟨congrFun hrp _, congrFun hrd _, congrFun hsp _⟩
  · have hnot : ¬ ((noteReading s.eng (filteredReading s adc) now).stable ≠ Key.None ∧
        idx k = idx (noteReading s.eng (filteredReading s adc) now).stable) := by
      rintro ⟨-, hi⟩
      rw [hs] at hi
      have hk := idx_injective _ _ hi
      apply h
      refine ⟨hk.symm, ?_⟩
      rw [hst, hk]
      exact hne
    have hnot2 : ¬ ((noteReading s.eng (filteredReading s adc) now).stable ≠ Key.None ∧
        idx k = idx (noteReading s.eng (filteredReading s adc) now).stable ∧
        (noteReading s.eng (filteredReading s adc) now).longFired (idx k) = false) :=
      fun hc => hnot ⟨hc.1, hc.2.1⟩
    obtain ⟨p1, p2, p3⟩ := stableChange_pending s
      (noteReading s.eng (filteredReading s adc) now) (filteredReading s adc) now
      (hs ▸ hne) (idx k)
    rw [he, p1, p2, p3, if_neg hnot, if_neg hnot, if_neg hnot2]
    exact ⟨congrFun hrp _, congrFun hrd _, congrFun hsp _⟩

/-- An update that releases `k` sets the release flag of `k`, records the
duration, and sets the short-click flag unless the long-press latch is set. -/
theorem buttonsUpdate_release (s : Buttons) (adc : Int) (now : Nat) (k : Key)
    (hk : k ≠ Key.None) (h : ReleasesKey s adc now k) :
    (buttonsUpdate s adc now).eng.releasedPending (idx k) = true ∧
    (buttonsUpdate s adc now).eng.releaseDur (idx k) = releaseDuration s.eng now ∧
    (buttonsUpdate s adc now).eng.shortPending (idx k)
      = (if s.eng.longFired (idx k) = false then true else s.eng.shortPending (idx k)) := by
  obtain ⟨-, -, hs, hps, -, -, hsp, hlf, -⟩ :=
    noteReading_fields s.eng (filteredReading s adc) now
  obtain ⟨hst, hrel⟩ := h
  rcases buttonsUpdate_cases s adc now with ⟨hsame, -⟩ | ⟨hne, -, he⟩
  · exact absurd (hsame.trans hst) hrel
  · have hyes : (noteReading s.eng (filteredReading s adc) now).stable ≠ Key.None ∧
        idx k = idx (noteReading s.eng (filteredReading s adc) now).stable := by
      rw [hs, hst]; exact ⟨hk, rfl⟩
    obtain ⟨p1, p2, p3⟩ := stableChange_pending s
      (noteReading s.eng (filteredReading s adc) now) (filteredReading s adc) now
      (hs ▸ hne) (idx k)
    rw [he, p1, p2, p3, if_pos hyes, if_pos hyes]
    refine ⟨rfl, ?_, ?_⟩
    · unfold releaseDuration; rw [hps]
    · rw [hlf, hsp]
      by_cases hl : s.eng.longFired (idx k) = false
      · rw [if_pos ⟨hyes.1, hyes.2, hl⟩, if_pos hl]
      · rw [if_neg (fun hc => hl hc.2.2), if_neg hl]

/-! ## Keypad: short click -/

/-- None of the updates run by a sequence of consuming `keyShortClick` calls
releases key `k`. -/
def NoReleaseInShortClicks (k : Key) (thresholdMs : Nat) :
    Buttons → List (Int × Nat) → Prop
  | _, [] => True
  | s, p :: ps =>
    ¬ ReleasesKey s p.1 p.2 k ∧
    NoReleaseInShortClicks k thresholdMs (keyShortClick s p.1 p.2 k thresholdMs true).2 ps

/-- Result and effect of one consuming `keyShortClick` call, in terms of the
state `u` left by its update: the result is "short-click flag set and recorded
duration below the threshold", the short-click flag is clear afterwards and
the recorded duration is kept. -/
theorem keyShortClick_consume (s : Buttons) (adc : Int) (now : Nat) (k : Key) (thr : Nat) :
    ((keyShortClick s adc now k thr true).1
        = ((buttonsUpdate s adc now).eng.shortPending (idx k)
            && decide ((buttonsUpdate s adc now).eng.releaseDur (idx k) < thr)) ∧
      (keyShortClick s adc now k thr true).2.eng.shortPending (idx k) = false ∧
      (keyShortClick s adc now k thr true).2.eng.releaseDur (idx k)
        = (buttonsUpdate s adc now).eng.releaseDur (idx k) ∧
      (keyShortClick s adc now k thr true).2.eng.releasedPending (idx k) = false) ∨
    ((buttonsUpdate s adc now).eng.shortPending (idx k) = false ∧
      keyShortClick s adc now k thr true = (false, buttonsUpdate s adc now)) := by
  have h6 := idx_lt_six k
  unfold keyShortClick
  dsimp only
  rw [if_neg (by omega)]
  by_cases hp : (buttonsUpdate s adc now).eng.shortPending (idx k) = true
  · left
    rw [if_pos hp]
    simp [hp, Function.update_same]
  · right
    rw [if_neg hp]
    simp only [Bool.not_eq_true] at hp
    exact ⟨hp, rfl⟩

/-- As long as the short-click flag of `k` is only set together with a
recorded duration of at least the threshold, and `k` is not released,
consuming `keyShortClick` calls return false. -/
theorem shortClickCalls_all_false (k : Key) (thr : Nat) (ps : List (Int × Nat)) :
    ∀ s : Buttons,
      (s.eng.shortPending (idx k) = true → thr ≤ s.eng.releaseDur (idx k)) →
      NoReleaseInShortClicks k thr s ps →
      (shortClickCalls s k thr ps).1 = List.replicate ps.length false := by
  induction ps with
  | nil => intro s _ _; rfl
  | cons p ps ih =>
    intro s hJ hno
    obtain ⟨hnr, hrest⟩ := hno
    obtain ⟨-, kd, ks⟩ := buttonsUpdate_keeps_pending s p.1 p.2 k hnr
    simp only [shortClickCalls, List.length_cons, List.replicate_succ]
    rcases keyShortClick_consume s p.1 p.2 k thr with ⟨h1, h2, h3, -⟩ | ⟨h1, h2⟩
    · have hres : (keyShortClick s p.1 p.2 k thr true).1 = false := by
        rw [h1, kd, ks]
        by_cases hsp : s.eng.shortPending (idx k) = true
        · have := hJ hsp
          simp only [Bool.and_eq_false_imp, decide_eq_false_iff_not]
          intro _; omega
        · simp only [Bool.not_eq_true] at hsp
          rw [hsp]; rfl
      rw [hres, ih _ (by rw [h2]; intro hc; exact absurd hc (by decide)) hrest]
    · rw [h2] at hrest ⊢
      dsimp only
      rw [ih _ (by rw [ks]; intro hsp; rw [kd]; exact hJ hsp) hrest]

/-- C3 (amended). Key `k` is the stable key of a press whose start is recorded
(`pressStart != 0`) and an update at counter value `now` releases it; `d` is
the time since the recorded press start. Consuming `keyShortClick(k, thr)`
calls made after the release, up to the next release of `k`: if `d >= thr`
every call returns false; if `d < thr` and the long-press latch of `k` is not
set, the first call returns true and every later call returns false. -/
theorem shortClick_after_release (s : Buttons) (adc : Int) (now : Nat) (k : Key)
    (thr : Nat) (hk : k ≠ Key.None) (hrel : ReleasesKey s adc now k)
    (hps : s.eng.pressStart ≠ 0) :
    (thr ≤ sub32 now s.eng.pressStart →
      ∀ ps, NoReleaseInShortClicks k thr (buttonsUpdate s adc now) ps →
        (shortClickCalls (buttonsUpdate s adc now) k thr ps).1
          = List.replicate ps.length false) ∧
    (sub32 now s.eng.pressStart < thr → s.eng.longFired (idx k) = false →
      ∀ p ps, NoReleaseInShortClicks k thr (buttonsUpdate s adc now) (p :: ps) →
        (shortClickCalls (buttonsUpdate s adc now) k thr (p :: ps)).1
          = true :: List.replicate ps.length false) := by
  obtain ⟨-, hd, hsp⟩ := buttonsUpdate_release s adc now k hk hrel
  have hdur : releaseDuration s.eng now = sub32 now s.eng.pressStart := by
    unfold releaseDuration; rw [if_pos hps]
  rw [hdur] at hd
  constructor
  · intro hge ps hno
    exact shortClickCalls_all_false k thr ps _ (fun _ => by rw [hd]; exact hge) hno
  · intro hlt hlf p ps hno
    rw [if_pos hlf] at hsp
    obtain ⟨hnr, hrest⟩ := hno
    obtain ⟨-, kd, ks⟩ := buttonsUpdate_keeps_pending (buttonsUpdate s adc now) p.1 p.2 k hnr
    simp only [shortClickCalls]
    rcases keyShortClick_consume (buttonsUpdate s adc now) p.1 p.2 k thr with
      ⟨h1, h2, -, -⟩ | ⟨h1, -⟩
    · have hres : (keyShortClick (buttonsUpdate s adc now) p.1 p.2 k thr true).1 = true := by
        rw [h1, kd, ks, hsp, hd]
        simp only [Bool.true_and, decide_eq_true_eq]
        exact hlt
      rw [hres, shortClickCalls_all_false k thr ps _
        (by rw [h2]; intro hc; exact absurd hc (by decide)) hrest]
    · rw [ks, hsp] at h1
      exact absurd h1 (by decide)

/-- C3 at the example run: Left, pressed at 131, is released by the update at
331 (duration 200); consuming `keyShortClick(Left, 800)` calls follow at 332,
333 and 334. -/
theorem shortClick_after_release_witness :
    (800 ≤ sub32 331 (runTicks pressedLeft [(8, 300)]).eng.pressStart →
      ∀ ps, NoReleaseInShortClicks Key.Left 800
          (buttonsUpdate (runTicks pressedLeft [(8, 300)]) 8 331) ps →
        (shortClickCalls (buttonsUpdate (runTicks pressedLeft [(8, 300)]) 8 331)
            Key.Left 800 ps).1 = List.replicate ps.length false) ∧
    (sub32 331 (runTicks pressedLeft [(8, 300)]).eng.pressStart < 800 →
      (runTicks pressedLeft [(8, 300)]).eng.longFired (idx Key.Left) = false →
      ∀ p ps, NoReleaseInShortClicks Key.Left 800
          (buttonsUpdate (runTicks pressedLeft [(8, 300)]) 8 331) (p :: ps) →
        (shortClickCalls (buttonsUpdate (runTicks pressedLeft [(8, 300)]) 8 331)
            Key.Left 800 (p :: ps)).1 = true :: List.replicate ps.length false) :=
  shortClick_after_release (runTicks pressedLeft [(8, 300)]) 8 331 Key.Left 800
    (by decide) ⟨by decide, by decide⟩ (by decide)

/-- C3 as stated fails when `buttonsConsumeAll` is called during the press.
Left becomes stable at 131 (press start 131); `buttonsConsumeAll` clears the
press start while Left stays the stable key; the release is debounced at 1031,
900 ms after the press. No long press fired, the recorded duration is 0, and
the consuming `keyShortClick(Left, 800)` at 1032 returns true. -/
theorem shortClick_long_hold_counterexample :
    pressedLeft.eng.stable = Key.Left ∧ pressedLeft.eng.pressStart = 131 ∧
    (buttonsConsumeAll pressedLeft).eng.stable = Key.Left ∧
    (runTicks (buttonsConsumeAll pressedLeft) [(922, 500), (8, 1000)]).eng.stable
      = Key.Left ∧
    clearedThenReleased.eng.stable = Key.None ∧
    clearedThenReleased.eng.releaseDur (idx Key.Left) = 0 ∧
    (keyShortClick clearedThenReleased 8 1032 Key.Left 800 true).1 = true := by
  decide

/-! ## Keypad: release event and its interplay with the short click -/

/-- Result and effect on key `k` of `keyShortClick(k, thr, consume)`, in terms
of the state `u` left by its update. -/
theorem keyShortClick_fields (s : Buttons) (adc : Int) (now : Nat) (k : Key) (thr : Nat)
    (c : Bool) :
    (keyShortClick s adc now k thr c).1
      = ((buttonsUpdate s adc now).eng.shortPending (idx k)
          && decide ((buttonsUpdate s adc now).eng.releaseDur (idx k) < thr)) ∧
    (keyShortClick s adc now k thr c).2.eng.shortPending (idx k)
      = ((buttonsUpdate s adc now).eng.shortPending (idx k) && !c) ∧
    (keyShortClick s adc now k thr c).2.eng.releasedPending (idx k)
      = ((buttonsUpdate s adc now).eng.releasedPending (idx k)
          && !(c && (buttonsUpdate s adc now).eng.shortPending (idx k))) ∧
    (keyShortClick s adc now k thr c).2.eng.releaseDur
      = (buttonsUpdate s adc now).eng.releaseDur ∧
    (keyShortClick s adc now k thr c).2.eng.stable = (buttonsUpdate s adc now).eng.stable := by
  have h6 := idx_lt_six k
  unfold keyShortClick
  dsimp only
  rw [if_neg (by omega)]
  by_cases hp : (buttonsUpdate s adc now).eng.shortPending (idx k) = true
  · rw [if_pos hp]
    cases c <;> simp [hp, Function.update_same]
  · rw [if_neg hp]
    simp only [Bool.not_eq_true] at hp
    simp [hp]

/-- Result, written duration and effect on key `k` of
`keyReleased(k, durationMs, consume)`, in terms of the state `u` left by its
update. -/
theorem keyReleased_fields (s : Buttons) (adc : Int) (now : Nat) (k : Key)
    (dm : Option Nat) (c : Bool) :
    (keyReleased s adc now k dm c).1 = (buttonsUpdate s adc now).eng.releasedPending (idx k) ∧
    (keyReleased s adc now k dm c).2.1
      = (if (buttonsUpdate s adc now).eng.releasedPending (idx k) = true
         then dm.map (fun _ => (buttonsUpdate s adc now).eng.releaseDur (idx k)) else dm) ∧
    (keyReleased s adc now k dm c).2.2.eng.releasedPending (idx k)
      = ((buttonsUpdate s adc now).eng.releasedPending (idx k) && !c) ∧
    (keyReleased s adc now k dm c).2.2.eng.shortPending (idx k)
      = ((buttonsUpdate s adc now).eng.shortPending (idx k)
          && !(c && (buttonsUpdate s adc now).eng.releasedPending (idx k))) ∧
    (keyReleased s adc now k dm c).2.2.eng.releaseDur
      = (buttonsUpdate s adc now).eng.releaseDur ∧
    (keyReleased s adc now k dm c).2.2.eng.stable = (buttonsUpdate s adc now).eng.stable := by
  have h6 := idx_lt_six k
  unfold keyReleased
  dsimp only
  rw [if_neg (by omega)]
  by_cases hp : (buttonsUpdate s adc now).eng.releasedPending (idx k) = true
  · rw [if_pos hp]
    cases c <;> simp [hp, Function.update_same]
  · rw [if_neg hp]
    simp only [Bool.not_eq_true] at hp
    simp [hp]

/-- No update releases `k` from a state in which `k` is not the stable key. -/
theorem not_releasesKey_of_ne (s : Buttons) (adc : Int) (now : Nat) (k : Key)
    (h : s.eng.stable ≠ k) : ¬ ReleasesKey s adc now k :=
  fun hr => h hr.1

/-- C4 (amended). An update at `now` releases key `k` after a press whose
recorded duration is below `thr`, the long-press latch of `k` not being set.
Of the two calls `keyShortClick(k, thr)` and `keyReleased(k)` made afterwards
(at `p1`, then at `p2`, with no further release of `k`), the first one returns
true. When the first call consumes, it clears both pending flags and the other
call then returns false; when the first call is made with `consume = false`,
the other call still returns true. -/
theorem release_and_short_click_share_consumption (s : Buttons) (adc : Int) (now : Nat)
    (k : Key) (thr : Nat) (dm : Option Nat) (p1 p2 : Int × Nat)
    (hk : k ≠ Key.None) (hrel : ReleasesKey s adc now k)
    (hshort : releaseDuration s.eng now < thr) (hlf : s.eng.longFired (idx k) = false) :
    ((keyShortClick (buttonsUpdate s adc now) p1.1 p1.2 k thr true).1 = true ∧
      (¬ ReleasesKey (keyShortClick (buttonsUpdate s adc now) p1.1 p1.2 k thr true).2
            p2.1 p2.2 k →
        (keyReleased (keyShortClick (buttonsUpdate s adc now) p1.1 p1.2 k thr true).2
            p2.1 p2.2 k dm true).1 = false)) ∧
    ((keyReleased (buttonsUpdate s adc now) p1.1 p1.2 k dm true).1 = true ∧
      (¬ ReleasesKey (keyReleased (buttonsUpdate s adc now) p1.1 p1.2 k dm true).2.2
            p2.1 p2.2 k →
        (keyShortClick (keyReleased (buttonsUpdate s adc now) p1.1 p1.2 k dm true).2.2
            p2.1 p2.2 k thr true).1 = false)) ∧
    ((keyShortClick (buttonsUpdate s adc now) p1.1 p1.2 k thr false).1 = true ∧
      (¬ ReleasesKey (keyShortClick (buttonsUpdate s adc now) p1.1 p1.2 k thr false).2
            p2.1 p2.2 k →
        (keyReleased (keyShortClick (buttonsUpdate s adc now) p1.1 p1.2 k thr false).2
            p2.1 p2.2 k dm true).1 = true)) ∧
    ((keyReleased (buttonsUpdate s adc now) p1.1 p1.2 k dm false).1 = true ∧
      (¬ ReleasesKey (keyReleased (buttonsUpdate s adc now) p1.1 p1.2 k dm false).2.2
            p2.1 p2.2 k →
        (keyShortClick (keyReleased (buttonsUpdate s adc now) p1.1 p1.2 k dm false).2.2
            p2.1 p2.2 k thr true).1 = true)) := by
  obtain ⟨hrp, hrd, hsp⟩ := buttonsUpdate_release s adc now k hk hrel
  rw [if_pos hlf] at hsp
  obtain ⟨krp, krd, ksp⟩ := buttonsUpdate_keeps_pending (buttonsUpdate s adc now) p1.1 p1.2 k
    (not_releasesKey_of_ne _ _ _ _ hrel.2)
  rw [hrp] at krp
  rw [hrd] at krd
  rw [hsp] at ksp
  have hdec : decide (releaseDuration s.eng now < thr) = true := decide_eq_true hshort
  refine ⟨?_, ?_, ?_, ?_⟩
  · obtain ⟨f1, f2, f3, f4, -⟩ :=
      keyShortClick_fields (buttonsUpdate s adc now) p1.1 p1.2 k thr true
    rw [ksp, krd, hdec] at f1
    refine ⟨f1, fun hno => ?_⟩
    obtain ⟨g1, -, -⟩ := buttonsUpdate_keeps_pending _ p2.1 p2.2 k hno
    rw [(keyReleased_fields _ p2.1 p2.2 k dm true).1, g1, f3, krp, ksp]
    rfl
  · obtain ⟨f1, -, f3, f4, f5, -⟩ :=
      keyReleased_fields (buttonsUpdate s adc now) p1.1 p1.2 k dm true
    rw [krp] at f1
    refine ⟨f1, fun hno => ?_⟩
    obtain ⟨-, -, g3⟩ := buttonsUpdate_keeps_pending _ p2.1 p2.2 k hno
    rw [(keyShortClick_fields _ p2.1 p2.2 k thr true).1, g3, f4, ksp, krp]
    rfl
  · obtain ⟨f1, f2, f3, f4, -⟩ :=
      keyShortClick_fields (buttonsUpdate s adc now) p1.1 p1.2 k thr false
    rw [ksp, krd, hdec] at f1
    refine ⟨f1, fun hno => ?_⟩
    obtain ⟨g1, -, -⟩ := buttonsUpdate_keeps_pending _ p2.1 p2.2 k hno
    rw [(keyReleased_fields _ p2.1 p2.2 k dm true).1, g1, f3, krp, ksp]
    rfl
  · obtain ⟨f1, -, f3, f4, f5, -⟩ :=
      keyReleased_fields (buttonsUpdate s adc now) p1.1 p1.2 k dm false
    rw [krp] at f1
    refine ⟨f1, fun hno => ?_⟩
    obtain ⟨-, g2, g3⟩ := buttonsUpdate_keeps_pending _ p2.1 p2.2 k hno
    rw [(keyShortClick_fields _ p2.1 p2.2 k thr true).1, g3, g2, f4, f5, ksp, krp, krd, hdec]
    rfl

/-- C4 at the example run: Left, pressed at 131, is released by the update at
331; the two calls follow at 332 and 333. -/
theorem release_and_short_click_share_consumption_witness :
    ((keyShortClick shortPressReleased 8 332 Key.Left 800 true).1 = true ∧
      (¬ ReleasesKey (keyShortClick shortPressReleased 8 332 Key.Left 800 true).2
            8 333 Key.Left →
        (keyReleased (keyShortClick shortPressReleased 8 332 Key.Left 800 true).2
            8 333 Key.Left none true).1 = false)) ∧
    ((keyReleased shortPressReleased 8 332 Key.Left none true).1 = true ∧
      (¬ ReleasesKey (keyReleased shortPressReleased 8 332 Key.Left none true).2.2
            8 333 Key.Left →
        (keyShortClick (keyReleased shortPressReleased 8 332 Key.Left none true).2.2
            8 333 Key.Left 800 true).1 = false)) ∧
    ((keyShortClick shortPressReleased 8 332 Key.Left 800 false).1 = true ∧
      (¬ ReleasesKey (keyShortClick shortPressReleased 8 332 Key.Left 800 false).2
            8 333 Key.Left →
        (keyReleased (keyShortClick shortPressReleased 8 332 Key.Left 800 false).2
            8 333 Key.Left none true).1 = true)) ∧
    ((keyReleased shortPressReleased 8 332 Key.Left none false).1 = true ∧
      (¬ ReleasesKey (keyReleased shortPressReleased 8 332 Key.Left none false).2.2
            8 333 Key.Left →
        (keyShortClick (keyReleased shortPressReleased 8 332 Key.Left none false).2.2
            8 333 Key.Left 800 true).1 = true)) :=
  release_and_short_click_share_consumption (runTicks pressedLeft [(8, 300)]) 8 331
    Key.Left 800 none (8, 332) (8, 333) (by decide) ⟨by decide, by decide⟩
    (by decide) (by decide)

/-- C4 as stated fails: the first consuming call takes both events. Left is
pressed at 131 and released at 331 (200 ms, below the 800 ms threshold). After
the consuming `keyShortClick(Left)` at 332 returned true, the consuming
`keyReleased(Left)` at 333 returns false; and after the consuming
`keyReleased(Left)` at 332 returned true, the consuming `keyShortClick(Left)`
at 333 returns false. -/
theorem release_after_short_click_counterexample :
    shortPressReleased.eng.stable = Key.None ∧
    shortPressReleased.eng.releaseDur (idx Key.Left) = 200 ∧
    (keyShortClick shortPressReleased 8 332 Key.Left 800 true).1 = true ∧
    (keyReleased (keyShortClick shortPressReleased 8 332 Key.Left 800 true).2
        8 333 Key.Left none true).1 = false ∧
    (keyReleased shortPressReleased 8 332 Key.Left none true).1 = true ∧
    (keyShortClick (keyReleased shortPressReleased 8 332 Key.Left none true).2.2
        8 333 Key.Left 800 true).1 = false := by
  decide

/-- None of the updates run by a sequence of consuming `keyReleased(k, &d)`
calls releases key `k`. -/
def NoReleaseInReleasedCalls (k : Key) : Buttons → Nat → List (Int × Nat) → Prop
  | _, _, [] => True
  | s, d, p :: ps =>
    ¬ ReleasesKey s p.1 p.2 k ∧
    NoReleaseInReleasedCalls k (keyReleased s p.1 p.2 k (some d) true).2.2
      ((keyReleased s p.1 p.2 k (some d) true).2.1.getD d) ps

/-- Key `k` is the stable key after every one of a sequence of state polls. -/
def StableThroughTicks (k : Key) : Buttons → List (Int × Nat) → Prop
  | _, [] => True
  | s, p :: ps =>
    (buttonsTick s p.1 p.2).eng.stable = k ∧ StableThroughTicks k (buttonsTick s p.1 p.2) ps

/-- While the release flag of `k` is clear and `k` is not released, consuming
`keyReleased(k, &d)` calls return false and leave `d` untouched. -/
theorem releasedCalls_all_false (k : Key) (ps : List (Int × Nat)) :
    ∀ (s : Buttons) (d : Nat), s.eng.releasedPending (idx k) = false →
      NoReleaseInReleasedCalls k s d ps →
      (releasedCalls s k d ps).1 = List.replicate ps.length (false, d) := by
  induction ps with
  | nil => intro s d _ _; rfl
  | cons p ps ih =>
    intro s d hcl hno
    obtain ⟨hnr, hrest⟩ := hno
    obtain ⟨krp, -, -⟩ := buttonsUpdate_keeps_pending s p.1 p.2 k hnr
    obtain ⟨f1, f2, f3, -⟩ := keyReleased_fields s p.1 p.2 k (some d) true
    rw [krp, hcl] at f1 f2 f3
    have hd : (keyReleased s p.1 p.2 k (some d) true).2.1.getD d = d := by
      rw [f2]; rfl
    rw [hd] at hrest
    simp only [releasedCalls, List.length_cons, List.replicate_succ]
    rw [hd, f1, ih _ d (by rw [f3]; rfl) hrest]

/-- A press (stable key `None -> k`) records the counter value as the press
start. -/
theorem buttonsUpdate_press (s : Buttons) (adc : Int) (now : Nat) (k : Key)
    (hk : k ≠ Key.None) (h0 : s.eng.stable = Key.None)
    (h1 : (buttonsUpdate s adc now).eng.stable = k) :
    (buttonsUpdate s adc now).eng.pressStart = now ∧
    (buttonsUpdate s adc now).eng.longFired (idx k) = false := by
  obtain ⟨-, -, hs, -⟩ := noteReading_fields s.eng (filteredReading s adc) now
  rcases buttonsUpdate_cases s adc now with ⟨hsame, -⟩ | ⟨hne, hst, he⟩
  · exact absurd ((h1.symm.trans hsame).trans h0) hk
  · have hrk : filteredReading s adc = k := hst.symm.trans h1
    have hs0 : (noteReading s.eng (filteredReading s adc) now).stable = Key.None :=
      hs.trans h0
    rw [he, hrk]
    rw [hrk] at hs0
    generalize noteReading s.eng k now = e0 at hs0 ⊢
    unfold stableChange
    dsimp only
    rw [if_pos ⟨hs0, hk⟩, resetPerPressState_eq]
    exact ⟨rfl, Function.update_same _ _ _⟩

/-- An update that keeps the stable key keeps the press start, the long-press
latches and the repeat times. -/
theorem buttonsUpdate_hold (s : Buttons) (adc : Int) (now : Nat)
    (h : (buttonsUpdate s adc now).eng.stable = s.eng.stable) :
    (buttonsUpdate s adc now).eng.pressStart = s.eng.pressStart ∧
    (buttonsUpdate s adc now).eng.longFired = s.eng.longFired ∧
    (buttonsUpdate s adc now).eng.lastRepeatAt = s.eng.lastRepeatAt := by
  obtain ⟨-, -, -, hps, -, -, -, hlf, hlr⟩ :=
    noteReading_fields s.eng (filteredReading s adc) now
  rcases buttonsUpdate_cases s adc now with ⟨-, he⟩ | ⟨hne, hst, -⟩
  · rw [he]; exact ⟨hps, hlf, hlr⟩
  · exact absurd (hst.symm.trans h) hne

/-- State polls that keep `k` stable keep the press start. -/
theorem runTicks_hold (k : Key) (ps : List (Int × Nat)) :
    ∀ s : Buttons, s.eng.stable = k → StableThroughTicks k s ps →
      (runTicks s ps).eng.stable = k ∧ (runTicks s ps).eng.pressStart = s.eng.pressStart := by
  induction ps with
  | nil => intro s hs _; exact ⟨hs, rfl⟩
  | cons p ps ih =>
    intro s hs hst
    obtain ⟨h1, h2⟩ := hst
    obtain ⟨i1, i2⟩ := ih _ h1 h2
    simp only [runTicks]
    refine ⟨i1, i2.trans ?_⟩
    exact (buttonsUpdate_hold s p.1 p.2 (h1.trans hs.symm)).1

/-- C5 (amended). Key `k` is the stable key of a press whose start is recorded
(`pressStart != 0`) and an update at counter value `now` releases it. Of the
consuming calls `keyReleased(k, &d)` made afterwards, up to the next release
of `k`, the first returns true and writes to `d` the time from the recorded
press start to `now`; every later call returns false and leaves `d` as it is.
A call with `consume = false` returns what the consuming call returns and
leaves the state as `buttonsUpdate` alone leaves it. The recorded press start
is the counter value of the update that made `k` stable, when only state
polls that keep `k` stable lie between that update and the release. -/
theorem keyReleased_once_per_release (s : Buttons) (adc : Int) (now : Nat) (k : Key)
    (d0 : Nat) (hk : k ≠ Key.None) (hrel : ReleasesKey s adc now k)
    (hps : s.eng.pressStart ≠ 0) :
    (∀ p ps, NoReleaseInReleasedCalls k (buttonsUpdate s adc now) d0 (p :: ps) →
      (releasedCalls (buttonsUpdate s adc now) k d0 (p :: ps)).1
        = (true, sub32 now s.eng.pressStart)
            :: List.replicate ps.length (false, sub32 now s.eng.pressStart)) ∧
    (∀ (t : Buttons) (p : Int × Nat) (dm : Option Nat),
      keyReleased t p.1 p.2 k dm false
        = ((keyReleased t p.1 p.2 k dm true).1, (keyReleased t p.1 p.2 k dm true).2.1,
            buttonsUpdate t p.1 p.2)) ∧
    (∀ (s0 : Buttons) (press : Int × Nat) (hold : List (Int × Nat)),
      s0.eng.stable = Key.None → (buttonsUpdate s0 press.1 press.2).eng.stable = k →
      StableThroughTicks k (buttonsUpdate s0 press.1 press.2) hold →
      s = runTicks (buttonsUpdate s0 press.1 press.2) hold →
      s.eng.pressStart = press.2) := by
  refine ⟨?_, ?_, ?_⟩
  · intro p ps hno
    obtain ⟨hrp, hrd, -⟩ := buttonsUpdate_release s adc now k hk hrel
    have hdur : releaseDuration s.eng now = sub32 now s.eng.pressStart := by
      unfold releaseDuration; rw [if_pos hps]
    rw [hdur] at hrd
    obtain ⟨hnr, hrest⟩ := hno
    obtain ⟨krp, krd, -⟩ :=
      buttonsUpdate_keeps_pending (buttonsUpdate s adc now) p.1 p.2 k hnr
    obtain ⟨f1, f2, f3, -⟩ :=
      keyReleased_fields (buttonsUpdate s adc now) p.1 p.2 k (some d0) true
    rw [krp, hrp] at f1 f2 f3
    rw [krd, hrd] at f2
    have hd : (keyReleased (buttonsUpdate s adc now) p.1 p.2 k (some d0) true).2.1.getD d0
        = sub32 now s.eng.pressStart := by
      rw [f2]; rfl
    rw [hd] at hrest
    simp only [releasedCalls]
    rw [hd, f1, releasedCalls_all_false k ps _ _ (by rw [f3]; rfl) hrest]
  · intro t p dm
    have h6 := idx_lt_six k
    have hn : ¬ idx k ≥ 6 := by omega
    simp only [keyReleased, if_neg hn]
    by_cases hp : (buttonsUpdate t p.1 p.2).eng.releasedPending (idx k) = true
    · simp only [if_pos hp, if_true, Bool.false_eq_true, if_false]
    · simp only [if_neg hp]
  · intro s0 press hold h0 h1 hst hs
    rw [hs, (runTicks_hold k hold _ h1 hst).2]
    exact (buttonsUpdate_press s0 press.1 press.2 k hk h0 h1).1

/-- C5 at the example run: Left, made stable by the update at 131, is released
by the update at 331; consuming `keyReleased(Left, &d)` calls follow. -/
theorem keyReleased_once_per_release_witness :
    (∀ p ps, NoReleaseInReleasedCalls Key.Left
        (buttonsUpdate (runTicks pressedLeft [(8, 300)]) 8 331) 77 (p :: ps) →
      (releasedCalls (buttonsUpdate (runTicks pressedLeft [(8, 300)]) 8 331)
          Key.Left 77 (p :: ps)).1
        = (true, sub32 331 (runTicks pressedLeft [(8, 300)]).eng.pressStart)
            :: List.replicate ps.length
                (false, sub32 331 (runTicks pressedLeft [(8, 300)]).eng.pressStart)) ∧
    (∀ (t : Buttons) (p : Int × Nat) (dm : Option Nat),
      keyReleased t p.1 p.2 Key.Left dm false
        = ((keyReleased t p.1 p.2 Key.Left dm true).1,
            (keyReleased t p.1 p.2 Key.Left dm true).2.1, buttonsUpdate t p.1 p.2)) ∧
    (∀ (s0 : Buttons) (press : Int × Nat) (hold : List (Int × Nat)),
      s0.eng.stable = Key.None → (buttonsUpdate s0 press.1 press.2).eng.stable = Key.Left →
      StableThroughTicks Key.Left (buttonsUpdate s0 press.1 press.2) hold →
      runTicks pressedLeft [(8, 300)] = runTicks (buttonsUpdate s0 press.1 press.2) hold →
      (runTicks pressedLeft [(8, 300)]).eng.pressStart = press.2) :=
  keyReleased_once_per_release (runTicks pressedLeft [(8, 300)]) 8 331 Key.Left 77
    (by decide) ⟨by decide, by decide⟩ (by decide)

/-- C5 as stated fails when `buttonsConsumeAll` is called during the press.
Left becomes stable at 131 and its release is debounced at 1031, 900 ms later,
`buttonsConsumeAll` having been called in between. The consuming
`keyReleased(Left, &d)` at 1032 returns true and writes 0 to `d`, not 900. -/
theorem keyReleased_duration_counterexample :
    pressedLeft.eng.stable = Key.Left ∧ pressedLeft.eng.pressStart = 131 ∧
    (runTicks (buttonsConsumeAll pressedLeft) [(922, 500), (8, 1000)]).eng.stable
      = Key.Left ∧
    clearedThenReleased.eng.stable = Key.None ∧
    (keyReleased clearedThenReleased 8 1032 Key.Left (some 77) true).1 = true ∧
    (keyReleased clearedThenReleased 8 1032 Key.Left (some 77) true).2.1 = some 0 := by
  decide

/-! ## Keypad: long press -/

/-- Key `k` is the stable key after the update of every one of a sequence of
consuming `keyLongPress` calls: the press of `k` lasts through the calls. -/
def HeldThroughLongPress (k : Key) (rpt : Bool) (repeatMs thresholdMs : Nat) :
    Buttons → List (Int × Nat) → Prop
  | _, [] => True
  | s, p :: ps =>
    (buttonsUpdate s p.1 p.2).eng.stable = k ∧
    HeldThroughLongPress k rpt repeatMs thresholdMs
      (keyLongPress s p.1 p.2 k rpt repeatMs thresholdMs true).2 ps

/-- The body of a consuming `keyLongPress(k, ...)` call when, after its
update, `k` is the stable key and a press start is recorded. -/
theorem keyLongPress_held (s : Buttons) (adc : Int) (now : Nat) (k : Key) (rpt : Bool)
    (rms thr : Nat) (hk : k ≠ Key.None) (hu : (buttonsUpdate s adc now).eng.stable = k)
    (hps : (buttonsUpdate s adc now).eng.pressStart ≠ 0) :
    keyLongPress s adc now k rpt rms thr true =
      if sub32 now (buttonsUpdate s adc now).eng.pressStart < thr
      then (false, buttonsUpdate s adc now)
      else if (buttonsUpdate s adc now).eng.longFired (idx k) = false
      then (true, { buttonsUpdate s adc now with eng := { (buttonsUpdate s adc now).eng with
              longFired := Function.update (buttonsUpdate s adc now).eng.longFired (idx k) true,
              lastRepeatAt :=
                Function.update (buttonsUpdate s adc now).eng.lastRepeatAt (idx k) now } })
      else if rpt = true ∧ sub32 now ((buttonsUpdate s adc now).eng.lastRepeatAt (idx k)) ≥ rms
      then (true, { buttonsUpdate s adc now with eng := { (buttonsUpdate s adc now).eng with
              lastRepeatAt :=
                Function.update (buttonsUpdate s adc now).eng.lastRepeatAt (idx k) now } })
      else (false, buttonsUpdate s adc now) := by
  have h6 := idx_lt_six k
  have hn : ¬ idx k ≥ 6 := by omega
  simp only [keyLongPress, if_neg hk, hu, ne_eq, not_true_eq_false, if_false, if_neg hps,
    if_neg hn, if_true]
  by_cases h1 : sub32 now (buttonsUpdate s adc now).eng.pressStart < thr
  · simp only [if_pos h1]
  · simp only [if_neg h1]
    by_cases h2 : (buttonsUpdate s adc now).eng.longFired (idx k) = false
    · simp only [if_pos h2]
    · simp only [if_neg h2]
      cases rpt
      · simp
      · by_cases h3 : sub32 now ((buttonsUpdate s adc now).eng.lastRepeatAt (idx k)) ≥ rms
        · simp [h3]
        · simp [h3]

/-- `keyLongPress` returns false for `Key::None` and for every key that is
not the stable key after its update. -/
theorem keyLongPress_other_key (s : Buttons) (adc : Int) (now : Nat) (k : Key) (rpt : Bool)
    (rms thr : Nat) (c : Bool)
    (h : k = Key.None ∨ (buttonsUpdate s adc now).eng.stable ≠ k) :
    (keyLongPress s adc now k rpt rms thr c).1 = false := by
  unfold keyLongPress
  dsimp only
  by_cases hk : k = Key.None
  · rw [if_pos hk]
  · rw [if_neg hk]
    rcases h with h | h
    · exact absurd h hk
    · rw [if_pos h]

/-- One consuming `keyLongPress(k, ...)` call during a press of `k` with
recorded start `p`: the result, the latch and the repeat time afterwards, in
terms of the latch `longFired[k]` and the repeat time `lastRepeatAt[k]`
before the call. The stable key and the press start are kept. -/
theorem keyLongPress_step (s : Buttons) (adc : Int) (now : Nat) (k : Key) (rpt : Bool)
    (rms thr : Nat) (hk : k ≠ Key.None) (hst : s.eng.stable = k)
    (hps : s.eng.pressStart ≠ 0) (hu : (buttonsUpdate s adc now).eng.stable = k) :
    (keyLongPress s adc now k rpt rms thr true).1
      = (decide (thr ≤ sub32 now s.eng.pressStart)
          && (!s.eng.longFired (idx k)
              || (rpt && decide (rms ≤ sub32 now (s.eng.lastRepeatAt (idx k)))))) ∧
    (keyLongPress s adc now k rpt rms thr true).2.eng.longFired (idx k)
      = (s.eng.longFired (idx k) || decide (thr ≤ sub32 now s.eng.pressStart)) ∧
    (keyLongPress s adc now k rpt rms thr true).2.eng.lastRepeatAt (idx k)
      = (if (keyLongPress s adc now k rpt rms thr true).1 = true then now
         else s.eng.lastRepeatAt (idx k)) ∧
    (keyLongPress s adc now k rpt rms thr true).2.eng.stable = k ∧
    (keyLongPress s adc now k rpt rms thr true).2.eng.pressStart = s.eng.pressStart := by
  obtain ⟨e1, e2, e3⟩ := buttonsUpdate_hold s adc now (hu.trans hst.symm)
  have hps2 : (buttonsUpdate s adc now).eng.pressStart ≠ 0 := by rw [e1]; exact hps
  rw [keyLongPress_held s adc now k rpt rms thr hk hu hps2, e1, e2, e3]
  by_cases h1 : sub32 now s.eng.pressStart < thr
  · have h1n : ¬ thr ≤ sub32 now s.eng.pressStart := by omega
    simp only [if_pos h1, h1n, decide_False, Bool.false_and, Bool.or_false,
      Bool.false_eq_true, if_false, e1, e2, e3, hu, and_self]
  · have h1p : thr ≤ sub32 now s.eng.pressStart := by omega
    simp only [if_neg h1, h1p, decide_True, Bool.true_and, Bool.or_true]
    by_cases h2 : s.eng.longFired (idx k) = false
    · simp [h2, hu, e1, Function.update_same]
    · simp only [Bool.not_eq_false] at h2
      simp only [h2, Bool.true_eq_false, if_false, Bool.not_true, Bool.false_or]
      cases rpt
      · simp [hu, e1, e2, e3, h2]
      · by_cases h3 : rms ≤ sub32 now (s.eng.lastRepeatAt (idx k))
        · simp [h3, hu, e1, e2, h2, Function.update_same]
        · simp [h3, hu, e1, e2, e3, h2]

/-- Once the long-press latch of `k` is set, consuming `keyLongPress` calls
without repeat return false for the rest of the press. -/
theorem longPressCalls_latched (k : Key) (rms thr : Nat) (hk : k ≠ Key.None)
    (ps : List (Int × Nat)) :
    ∀ s : Buttons, s.eng.stable = k → s.eng.pressStart ≠ 0 →
      s.eng.longFired (idx k) = true → HeldThroughLongPress k false rms thr s ps →
      (longPressCalls s k false rms thr ps).1 = List.replicate ps.length false := by
  induction ps with
  | nil => intro s _ _ _ _; rfl
  | cons q ps ih =>
    intro s hst hps hlf hheld
    obtain ⟨hu, hrest⟩ := hheld
    obtain ⟨f1, f2, -, f4, f5⟩ := keyLongPress_step s q.1 q.2 k false rms thr hk hst hps hu
    rw [hlf] at f1 f2
    simp only [longPressCalls, List.length_cons, List.replicate_succ]
    rw [ih _ f4 (by rw [f5]; exact hps) (by rw [f2]; rfl) hrest, f1]
    simp

/-- Consuming `keyLongPress` calls made while the held time is below the
threshold return false. -/
theorem longPressCalls_early (k : Key) (rpt : Bool) (rms thr : Nat) (hk : k ≠ Key.None)
    (ps : List (Int × Nat)) :
    ∀ s : Buttons, s.eng.stable = k → s.eng.pressStart ≠ 0 →
      HeldThroughLongPress k rpt rms thr s ps →
      (∀ q ∈ ps, sub32 q.2 s.eng.pressStart < thr) →
      (longPressCalls s k rpt rms thr ps).1 = List.replicate ps.length false := by
  induction ps with
  | nil => intro s _ _ _ _; rfl
  | cons q ps ih =>
    intro s hst hps hheld hearly
    obtain ⟨hu, hrest⟩ := hheld
    obtain ⟨f1, -, -, f4, f5⟩ := keyLongPress_step s q.1 q.2 k rpt rms thr hk hst hps hu
    have hq := hearly q (List.mem_cons_self q ps)
    have hqn : ¬ thr ≤ sub32 q.2 s.eng.pressStart := by omega
    simp only [longPressCalls, List.length_cons, List.replicate_succ]
    rw [ih _ f4 (by rw [f5]; exact hps) hrest
      (fun x hx => by rw [f5]; exact hearly x (List.mem_cons_of_mem q hx)), f1]
    simp [hqn]

/-- Results of consuming `keyLongPress` calls without repeat over a press:
false while the held time is below the threshold, true at the first call at
or after the threshold, false afterwards. -/
theorem longPressCalls_once (k : Key) (rms thr : Nat) (hk : k ≠ Key.None)
    (p : Int × Nat) (after : List (Int × Nat)) (before : List (Int × Nat)) :
    ∀ s : Buttons, s.eng.stable = k → s.eng.pressStart ≠ 0 →
      s.eng.longFired (idx k) = false →
      HeldThroughLongPress k false rms thr s (before ++ p :: after) →
      (∀ q ∈ before, sub32 q.2 s.eng.pressStart < thr) →
      thr ≤ sub32 p.2 s.eng.pressStart →
      (longPressCalls s k false rms thr (before ++ p :: after)).1
        = List.replicate before.length false ++ true :: List.replicate after.length false := by
  induction before with
  | nil =>
    intro s hst hps hlf hheld _ hp
    obtain ⟨hu, hrest⟩ := hheld
    obtain ⟨f1, f2, -, f4, f5⟩ := keyLongPress_step s p.1 p.2 k false rms thr hk hst hps hu
    rw [hlf] at f1 f2
    simp only [List.nil_append, longPressCalls, List.length_nil, List.replicate_zero]
    rw [longPressCalls_latched k rms thr hk after _ f4 (by rw [f5]; exact hps)
      (by rw [f2]; simp [hp]) hrest, f1]
    simp [hp]
  | cons q before ih =>
    intro s hst hps hlf hheld hearly hp
    have hheld2 : HeldThroughLongPress k false rms thr s (q :: (before ++ p :: after)) :=
      hheld
    obtain ⟨hu, hrest⟩ := hheld2
    obtain ⟨f1, f2, -, f4, f5⟩ := keyLongPress_step s q.1 q.2 k false rms thr hk hst hps hu
    have hq := hearly q (List.mem_cons_self q before)
    have hqn : ¬ thr ≤ sub32 q.2 s.eng.pressStart := by omega
    rw [hlf] at f1 f2
    show (longPressCalls s k false rms thr (q :: (before ++ p :: after))).1
      = List.replicate (before.length + 1) false ++ true :: List.replicate after.length false
    simp only [longPressCalls, List.replicate_succ, List.cons_append]
    rw [ih _ f4 (by rw [f5]; exact hps) (by rw [f2]; simp [hqn]) hrest
      (fun x hx => by rw [f5]; exact hearly x (List.mem_cons_of_mem q hx))
      (by rw [f5]; exact hp), f1]
    simp [hqn]

/-- C6 (amended). Key `k` is the stable key of a press whose start is recorded
(`pressStart != 0`), its long-press latch is clear (as every press leaves it),
and `k` stays stable through consuming `keyLongPress(k, false, repeatMs,
thresholdMs)` calls. The calls made while the held time is below
`thresholdMs` return false, the first call made with the held time at or above
`thresholdMs` returns true, and every later call returns false; if all calls
are made below the threshold, all return false. `keyLongPress` returns false
for `Key::None` and for every key other than the stable key. A press clears
the latch of its key and records the counter value as press start. -/
theorem keyLongPress_fires_once (s : Buttons) (k : Key) (rms thr : Nat)
    (before after : List (Int × Nat)) (p : Int × Nat)
    (hk : k ≠ Key.None) (hst : s.eng.stable = k) (hps : s.eng.pressStart ≠ 0)
    (hlf : s.eng.longFired (idx k) = false) :
    (HeldThroughLongPress k false rms thr s (before ++ p :: after) →
      (∀ q ∈ before, sub32 q.2 s.eng.pressStart < thr) →
      thr ≤ sub32 p.2 s.eng.pressStart →
      (longPressCalls s k false rms thr (before ++ p :: after)).1
        = List.replicate before.length false ++ true :: List.replicate after.length false) ∧
    (HeldThroughLongPress k false rms thr s before →
      (∀ q ∈ before, sub32 q.2 s.eng.pressStart < thr) →
      (longPressCalls s k false rms thr before).1 = List.replicate before.length false) ∧
    (∀ (t : Buttons) (q : Int × Nat) (k2 : Key) (rpt c : Bool) (rms2 thr2 : Nat),
      k2 = Key.None ∨ (buttonsUpdate t q.1 q.2).eng.stable ≠ k2 →
      (keyLongPress t q.1 q.2 k2 rpt rms2 thr2 c).1 = false) ∧
    (∀ (s0 : Buttons) (press : Int × Nat),
      s0.eng.stable = Key.None → (buttonsUpdate s0 press.1 press.2).eng.stable = k →
      (buttonsUpdate s0 press.1 press.2).eng.pressStart = press.2 ∧
      (buttonsUpdate s0 press.1 press.2).eng.longFired (idx k) = false) :=
  ⟨fun hheld hearly hp =>
      longPressCalls_once k rms thr hk p after before s hst hps hlf hheld hearly hp,
    fun hheld hearly => longPressCalls_early k false rms thr hk before s hst hps hheld hearly,
    fun t q k2 rpt c rms2 thr2 h => keyLongPress_other_key t q.1 q.2 k2 rpt rms2 thr2 c h,
    fun s0 press h0 h1 => buttonsUpdate_press s0 press.1 press.2 k hk h0 h1⟩

/-- C6 at the example run: Left is stable since 131; `keyLongPress(Left,
false, 300, 800)` is called at 500 (held 369 ms), at 931 (held 800 ms) and at
1000. -/
theorem keyLongPress_fires_once_witness :
    (HeldThroughLongPress Key.Left false 300 800 pressedLeft
        ([(922, 500)] ++ (922, 931) :: [(922, 1000)]) →
      (∀ q ∈ [((922 : Int), 500)], sub32 q.2 pressedLeft.eng.pressStart < 800) →
      800 ≤ sub32 (((922 : Int), 931) : Int × Nat).2 pressedLeft.eng.pressStart →
      (longPressCalls pressedLeft Key.Left false 300 800
          ([(922, 500)] ++ (922, 931) :: [(922, 1000)])).1
        = List.replicate [((922 : Int), 500)].length false
            ++ true :: List.replicate [((922 : Int), 1000)].length false) ∧
    (HeldThroughLongPress Key.Left false 300 800 pressedLeft [(922, 500)] →
      (∀ q ∈ [((922 : Int), 500)], sub32 q.2 pressedLeft.eng.pressStart < 800) →
      (longPressCalls pressedLeft Key.Left false 300 800 [(922, 500)]).1
        = List.replicate [((922 : Int), 500)].length false) ∧
    (∀ (t : Buttons) (q : Int × Nat) (k2 : Key) (rpt c : Bool) (rms2 thr2 : Nat),
      k2 = Key.None ∨ (buttonsUpdate t q.1 q.2).eng.stable ≠ k2 →
      (keyLongPress t q.1 q.2 k2 rpt rms2 thr2 c).1 = false) ∧
    (∀ (s0 : Buttons) (press : Int × Nat),
      s0.eng.stable = Key.None → (buttonsUpdate s0 press.1 press.2).eng.stable = Key.Left →
      (buttonsUpdate s0 press.1 press.2).eng.pressStart = press.2 ∧
      (buttonsUpdate s0 press.1 press.2).eng.longFired (idx Key.Left) = false) :=
  keyLongPress_fires_once pressedLeft Key.Left 300 800 [(922, 500)] [(922, 1000)] (922, 931)
    (by decide) (by decide) (by decide) (by decide)

/-- C6 as stated fails when `buttonsConsumeAll` is called during the press.
Left becomes stable at 131 and stays stable; after `buttonsConsumeAll` the
consuming `keyLongPress(Left, false, 300, 800)` calls at 500, 931 and 1200
(held 369, 800 and 1069 ms) all return false. -/
theorem keyLongPress_after_consumeAll_counterexample :
    pressedLeft.eng.stable = Key.Left ∧ pressedLeft.eng.pressStart = 131 ∧
    (longPressCalls (buttonsConsumeAll pressedLeft) Key.Left false 300 800
        [(922, 500), (922, 931), (922, 1200)]).1 = [false, false, false] ∧
    (longPressCalls (buttonsConsumeAll pressedLeft) Key.Left false 300 800
        [(922, 500), (922, 931), (922, 1200)]).2.eng.stable = Key.Left := by
  decide

/-! ## Keypad: long-press auto-repeat -/

/-- Number of long-press events due after `m` one-millisecond polls of a press
(held times `0 .. m-1`): none up to the threshold, then the initial event and
one more per full repeat interval. -/
def firedCount (thr rms m : Nat) : Nat :=
  if m ≤ thr then 0 else (m - 1 - thr) / rms + 1

/-- Quotient of the successor. -/
theorem succ_div_cases (rms x : Nat) (h : 0 < rms) :
    (x % rms + 1 < rms → (x + 1) / rms = x / rms) ∧
    (x % rms + 1 = rms → (x + 1) / rms = x / rms + 1) := by
  have hdm := Nat.div_add_mod' x rms
  have hlt := Nat.mod_lt x h
  constructor
  · intro hr
    apply Nat.div_eq_of_lt_le
    · omega
    · rw [Nat.succ_mul]; omega
  · intro hr
    apply Nat.div_eq_of_lt_le
    · rw [Nat.succ_mul]; omega
    · rw [Nat.succ_mul, Nat.succ_mul]; omega

/-- Counter difference between the poll `j` ms after `t` and `t`. -/
theorem sub32_poll (t j : Nat) (hj : j < U32) : sub32 ((t + j) % U32) t = j := by
  unfold sub32 U32 at *
  omega

/-- Counter difference between two polls after `t`. -/
theorem sub32_polls (t i j : Nat) (hij : i ≤ j) (hj : j < U32) :
    sub32 ((t + j) % U32) ((t + i) % U32) = j - i := by
  unfold sub32 U32 at *
  omega

/-- State of a press of `k` with start `P` after `m` one-millisecond polls of
`keyLongPress(k, true, rms, thr)`: the latch is set exactly when the threshold
has been reached, and the repeat time is the time of the last event. -/
def RepeatInv (k : Key) (P thr rms m : Nat) (s : Buttons) : Prop :=
  s.eng.stable = k ∧ s.eng.pressStart = P ∧
  (m ≤ thr → s.eng.longFired (idx k) = false) ∧
  (thr < m → s.eng.longFired (idx k) = true ∧
    s.eng.lastRepeatAt (idx k) = (P + (thr + (m - 1 - thr) / rms * rms)) % U32)

/-- One poll of the repeating long press keeps the invariant and fires exactly
when the count of due events grows. -/
theorem repeat_step (s : Buttons) (a : Int) (k : Key) (P thr rms m : Nat)
    (hk : k ≠ Key.None) (hP : P ≠ 0) (hrms : 0 < rms) (hm : m < U32)
    (hI : RepeatInv k P thr rms m s)
    (hu : (buttonsUpdate s a ((P + m) % U32)).eng.stable = k) :
    RepeatInv k P thr rms (m + 1) (keyLongPress s a ((P + m) % U32) k true rms thr true).2 ∧
    firedCount thr rms m
      + (if (keyLongPress s a ((P + m) % U32) k true rms thr true).1 = true then 1 else 0)
      = firedCount thr rms (m + 1) := by
  obtain ⟨hst, hps, hlo, hhi⟩ := hI
  obtain ⟨f1, f2, f3, f4, f5⟩ :=
    keyLongPress_step s a ((P + m) % U32) k true rms thr hk hst (by rw [hps]; exact hP) hu
  rw [hps, sub32_poll P m hm] at f1 f2
  rw [hps] at f5
  rcases Nat.lt_trichotomy m thr with hlt | heq | hgt
  · have hlf := hlo (by omega)
    have hn : ¬ thr ≤ m := by omega
    have r1 : (keyLongPress s a ((P + m) % U32) k true rms thr true).1 = false := by
      rw [f1]; simp [hn]
    refine ⟨⟨f4, f5, fun _ => by rw [f2, hlf]; simp [hn], fun h => by omega⟩, ?_⟩
    rw [r1]
    simp only [firedCount, Bool.false_eq_true, if_false, Nat.add_zero]
    rw [if_pos (by omega), if_pos (by omega)]
  · subst heq
    have hlf := hlo (le_refl _)
    have r1 : (keyLongPress s a ((P + m) % U32) k true rms m true).1 = true := by
      rw [f1, hlf]; simp
    refine ⟨⟨f4, f5, fun h => by omega, fun _ => ⟨by rw [f2]; simp, ?_⟩⟩, ?_⟩
    · rw [f3, if_pos r1]
      have : m + 1 - 1 - m = 0 := by omega
      rw [this, Nat.zero_div, Nat.zero_mul, Nat.add_zero]
    · rw [r1]
      simp only [firedCount, if_true]
      rw [if_pos (le_refl _), if_neg (by omega)]
      have : m + 1 - 1 - m = 0 := by omega
      rw [this, Nat.zero_div]
  · obtain ⟨hlf, hlr⟩ := hhi hgt
    have hdm := Nat.div_add_mod' (m - 1 - thr) rms
    have hmod := Nat.mod_lt (m - 1 - thr) hrms
    obtain ⟨c1, c2⟩ := succ_div_cases rms (m - 1 - thr) hrms
    have hx : m + 1 - 1 - thr = (m - 1 - thr) + 1 := by omega
    have hd : sub32 ((P + m) % U32) (s.eng.lastRepeatAt (idx k))
        = (m - 1 - thr) % rms + 1 := by
      rw [hlr, sub32_polls P _ m (by omega) hm]
      omega
    rw [hlf, hd] at f1
    have hthr : thr ≤ m := by omega
    simp only [hthr, decide_True, Bool.not_true, Bool.true_and, Bool.false_or] at f1
    by_cases hfire : rms ≤ (m - 1 - thr) % rms + 1
    · have heq : (m - 1 - thr) % rms + 1 = rms := by omega
      have r1 : (keyLongPress s a ((P + m) % U32) k true rms thr true).1 = true := by
        rw [f1]; simp [hfire]
      refine ⟨⟨f4, f5, fun h => by omega, fun _ => ⟨by rw [f2, hlf]; rfl, ?_⟩⟩, ?_⟩
      · rw [f3, if_pos r1, hx, c2 heq, Nat.succ_mul]
        congr 1
        omega
      · rw [r1]
        simp only [firedCount, if_true]
        rw [if_neg (by omega), if_neg (by omega), hx, c2 heq]
    · have hltr : (m - 1 - thr) % rms + 1 < rms := by omega
      have r1 : (keyLongPress s a ((P + m) % U32) k true rms thr true).1 = false := by
        rw [f1]; simp [hfire]
      refine ⟨⟨f4, f5, fun h => by omega, fun _ => ⟨by rw [f2, hlf]; rfl, ?_⟩⟩, ?_⟩
      · rw [f3, if_neg (by rw [r1]; decide), hlr, hx, c1 hltr]
      · rw [r1]
        simp only [firedCount, Bool.false_eq_true, if_false, Nat.add_zero]
        rw [if_neg (by omega), if_neg (by omega), hx, c1 hltr]

/-- Along one-millisecond polls of a held press, the number of true results
is the growth of the count of due events. -/
theorem repeat_run (k : Key) (P thr rms : Nat) (hk : k ≠ Key.None) (hP : P ≠ 0)
    (hrms : 0 < rms) (as : List Int) :
    ∀ (m : Nat) (s : Buttons), RepeatInv k P thr rms m s → m + as.length ≤ U32 →
      HeldThroughLongPress k true rms thr s (msPolls (P + m) as) →
      firedCount thr rms m
        + ((longPressCalls s k true rms thr (msPolls (P + m) as)).1.count true)
        = firedCount thr rms (m + as.length) := by
  induction as with
  | nil => intro m s _ _ _; simp [msPolls, longPressCalls]
  | cons a as ih =>
    intro m s hI hlen hheld
    simp only [List.length_cons] at hlen
    obtain ⟨hu, hrest⟩ := hheld
    obtain ⟨i1, i2⟩ := repeat_step s a k P thr rms m hk hP hrms (by omega) hI hu
    have h := ih (m + 1) _ i1 (by omega) (by rw [← Nat.add_assoc]; exact hrest)
    simp only [msPolls, longPressCalls, List.length_cons]
    rw [show m + (as.length + 1) = m + 1 + as.length by omega, ← h, ← i2]
    rw [show P + m + 1 = P + (m + 1) by omega]
    by_cases hr : (keyLongPress s a ((P + m) % U32) k true rms thr true).1 = true
    · rw [hr, List.count_cons_self, if_pos rfl]; omega
    · simp only [Bool.not_eq_true] at hr
      rw [hr, List.count_cons_of_ne (by decide)]
      simp

/-- C7 (amended). Key `k` is the stable key of a press whose start is recorded
(`pressStart != 0`), with the long-press latch clear (as every press leaves
it). `keyLongPress(k, true, repeatMs, thresholdMs)` is called once per
millisecond from the press start on, `k` stays stable through
`thresholdMs + n * repeatMs + e` calls with `0 < e < repeatMs` (held times
`0, 1, ...`): exactly `n + 1` of the calls return true. -/
theorem keyLongPress_repeat_count (s : Buttons) (k : Key) (rms thr n e : Nat)
    (as : List Int) (hk : k ≠ Key.None) (hst : s.eng.stable = k)
    (hps : s.eng.pressStart ≠ 0) (hlf : s.eng.longFired (idx k) = false)
    (he0 : 0 < e) (he1 : e < rms) (hlen : as.length = thr + n * rms + e)
    (h32 : as.length ≤ U32)
    (hheld : HeldThroughLongPress k true rms thr s (msPolls s.eng.pressStart as)) :
    (longPressCalls s k true rms thr (msPolls s.eng.pressStart as)).1.count true = n + 1 := by
  have hI : RepeatInv k s.eng.pressStart thr rms 0 s :=
    ⟨hst, rfl, fun _ => hlf, fun h => absurd h (by omega)⟩
  have h := repeat_run k s.eng.pressStart thr rms hk hps (by omega) as 0 s hI (by omega)
    (by rw [Nat.add_zero]; exact hheld)
  rw [Nat.add_zero, Nat.zero_add] at h
  simp only [firedCount] at h
  rw [if_pos (Nat.zero_le _), Nat.zero_add, if_neg (by omega)] at h
  rw [h, hlen]
  have hx : thr + n * rms + e - 1 - thr = (e - 1) + n * rms := by omega
  rw [hx, Nat.add_mul_div_right _ _ (by omega : 0 < rms), Nat.div_eq_of_lt (by omega)]
  omega

/-- C7 at the example run: Left is stable since 131; `keyLongPress(Left, true,
2, 3)` is called once per millisecond at 131..138, that is for
3 + 2 * 2 + 1 = 8 ms. -/
theorem keyLongPress_repeat_count_witness :
    (longPressCalls pressedLeft Key.Left true 2 3
        (msPolls pressedLeft.eng.pressStart (List.replicate 8 922))).1.count true = 2 + 1 :=
  keyLongPress_repeat_count pressedLeft Key.Left 2 3 2 1 (List.replicate 8 922)
    (by decide) (by decide) (by decide) (by decide) (by decide) (by decide) (by decide)
    (by decide)
    (by simp only [HeldThroughLongPress, msPolls, List.replicate]; decide)

/-- C7 as stated fails when `buttonsConsumeAll` is called during the press.
Left becomes stable at 131 and stays stable; after `buttonsConsumeAll`,
`keyLongPress(Left, true, 2, 3)` called once per millisecond at 131..138 (8 =
3 + 2 * 2 + 1 ms) never returns true, although 2 + 1 events are due. -/
theorem keyLongPress_repeat_after_consumeAll_counterexample :
    pressedLeft.eng.stable = Key.Left ∧ pressedLeft.eng.pressStart = 131 ∧
    (longPressCalls (buttonsConsumeAll pressedLeft) Key.Left true 2 3
        (msPolls 131 (List.replicate 8 922))).1.count true = 0 ∧
    (longPressCalls (buttonsConsumeAll pressedLeft) Key.Left true 2 3
        (msPolls 131 (List.replicate 8 922))).2.eng.stable = Key.Left := by
  decide

/-! ## Joystick: `processAxis` -/

/-- `processAxis` is its second half applied to the sample, the corrected
calibration, the dead-zone and the expo of the axis. -/
theorem processAxis_eq_axisCurve (pow : ℚ → ℚ → ℚ) (j : Joystick) (raw : Int)
    (axisName : String) :
    processAxis pow j raw axisName =
      axisCurve pow (axisSample j raw axisName) (axisCenter j axisName) (axisMin j axisName)
        (axisMax j axisName) (axisDeadzone j axisName) (axisExpo j axisName) :=
  rfl

/-- The second half of `processAxis` in integer terms: zero inside the
dead-zone (or when the floored span on the sample's side does not exceed it),
else the signed curve value. -/
theorem axisCurve_eq (pow : ℚ → ℚ → ℚ) (r c mn mx dz : Int) (ex : ℚ) :
    axisCurve pow r c mn mx dz ex =
      if |r - c| ≤ dz
          ∨ (if r ≥ c then (if mx - c < 1 then 1 else mx - c)
             else (if c - mn < 1 then 1 else c - mn)) ≤ dz
      then 0
      else (if r ≥ c then 1 else -1)
        * curveMagnitude pow |r - c| dz
            (if r ≥ c then (if mx - c < 1 then 1 else mx - c)
             else (if c - mn < 1 then 1 else c - mn)) ex := by
  unfold axisCurve curveMagnitude
  dsimp only
  have hsign : ((r : ℚ) - (c : ℚ) ≥ 0) ↔ r ≥ c := by
    rw [ge_iff_le, sub_nonneg]; exact Int.cast_le
  have habs : |(r : ℚ) - (c : ℚ)| = ((|r - c| : Int) : ℚ) := by
    push_cast; rfl
  rw [habs]
  by_cases hrc : r ≥ c
  · have hq : (r : ℚ) - (c : ℚ) ≥ 0 := hsign.mpr hrc
    have hpos : ((1 : Int) ≥ 0) := by decide
    rw [if_pos hq, if_pos hpos, if_pos hrc, if_pos hrc]
    by_cases hsp : mx - c < 1
    · have hsq : ((mx - c : Int) : ℚ) < 1 := by exact_mod_cast hsp
      rw [if_pos hsq, if_pos hsp]
      simp only [Int.cast_le, Int.cast_one, Int.cast_ofNat]
      norm_cast
    · have hsq : ¬ ((mx - c : Int) : ℚ) < 1 := by exact_mod_cast hsp
      rw [if_neg hsq, if_neg hsp]
      simp only [Int.cast_le, Int.cast_ofNat]
  · have hq : ¬ ((r : ℚ) - (c : ℚ) ≥ 0) := fun h => hrc (hsign.mp h)
    have hneg : ¬ ((-1 : Int) ≥ 0) := by decide
    rw [if_neg hq, if_neg hneg, if_neg hrc, if_neg hrc]
    by_cases hsp : c - mn < 1
    · have hsq : ((c - mn : Int) : ℚ) < 1 := by exact_mod_cast hsp
      rw [if_pos hsq, if_pos hsp]
      simp only [Int.cast_le, Int.cast_one, Int.cast_ofNat]
      norm_cast
    · have hsq : ¬ ((c - mn : Int) : ℚ) < 1 := by exact_mod_cast hsp
      rw [if_neg hsq, if_neg hsp]
      simp only [Int.cast_le, Int.cast_ofNat]

/-- `processAxis` in terms of the sample, the corrected calibration, the
dead-zone and the curve: zero inside the dead-zone (or when the span on the
sample's side does not exceed it), else the signed curve value. -/
theorem processAxis_eq (pow : ℚ → ℚ → ℚ) (j : Joystick) (raw : Int) (axisName : String) :
    processAxis pow j raw axisName =
      if |axisSample j raw axisName - axisCenter j axisName| ≤ axisDeadzone j axisName
          ∨ sideSpan j axisName (axisSample j raw axisName) ≤ axisDeadzone j axisName
      then 0
      else (if axisSample j raw axisName ≥ axisCenter j axisName then 1 else -1)
        * curveMagnitude pow |axisSample j raw axisName - axisCenter j axisName|
            (axisDeadzone j axisName) (sideSpan j axisName (axisSample j raw axisName))
            (axisExpo j axisName) := by
  rw [processAxis_eq_axisCurve, axisCurve_eq]
  rfl

/-- The rounding of a non-negative value is non-negative. -/
theorem roundf_nonneg (q : ℚ) (h : 0 ≤ q) : 0 ≤ roundf q := by
  unfold roundf
  rw [if_pos h]
  exact Int.floor_nonneg.mpr (by linarith)

/-- Rounding of the full-scale value. -/
theorem roundf_full_scale : roundf ((32767 : ℚ) * 1) = 32767 := by
  unfold roundf
  norm_num [Int.floor_eq_iff]

/-- The curve value lies in [0, 32767] when `pow` is non-negative on bases in
[0,1] and the exponent `1 + expo` lies in [1,4]. -/
theorem curveMagnitude_range (pow : ℚ → ℚ → ℚ) (x dz xMax : Int) (ex : ℚ)
    (hpow0 : ∀ b e : ℚ, 0 ≤ b → b ≤ 1 → 1 ≤ e → e ≤ 4 → 0 ≤ pow b e)
    (hex : 0 ≤ ex ∧ ex ≤ 3) :
    0 ≤ curveMagnitude pow x dz xMax ex ∧ curveMagnitude pow x dz xMax ex ≤ 32767 := by
  unfold curveMagnitude
  dsimp only
  generalize (((x : ℚ) - dz) / ((xMax : ℚ) - dz)) = n0
  have hn : 0 ≤ (if (if n0 < 0 then 0 else n0) > 1 then (1 : ℚ)
      else (if n0 < 0 then 0 else n0)) ∧
      (if (if n0 < 0 then 0 else n0) > 1 then (1 : ℚ)
      else (if n0 < 0 then 0 else n0)) ≤ 1 := by
    split_ifs <;> constructor <;> linarith
  generalize (if (if n0 < 0 then 0 else n0) > 1 then (1 : ℚ)
      else (if n0 < 0 then 0 else n0)) = n at hn
  have hp := hpow0 n (1 + ex) hn.1 hn.2 (by linarith [hex.1]) (by linarith [hex.2])
  have hr := roundf_nonneg ((32767 : ℚ) * pow n (1 + ex)) (by positivity)
  split_ifs with h
  · exact ⟨by decide, le_refl _⟩
  · exact ⟨hr, by omega⟩

/-- The curve value is the full scale 32767 when the magnitude reaches the
span and `pow 1 e = 1`. -/
theorem curveMagnitude_saturated (pow : ℚ → ℚ → ℚ) (x dz xMax : Int) (ex : ℚ)
    (hpow1 : ∀ e : ℚ, 1 ≤ e → e ≤ 4 → pow 1 e = 1)
    (hex : 0 ≤ ex ∧ ex ≤ 3) (hspan : dz < xMax) (hx : xMax ≤ x) :
    curveMagnitude pow x dz xMax ex = 32767 := by
  unfold curveMagnitude
  dsimp only
  have hd : (0 : ℚ) < (xMax : ℚ) - dz := by
    have : (dz : ℚ) < xMax := by exact_mod_cast hspan
    linarith
  have hxq : (xMax : ℚ) ≤ x := by exact_mod_cast hx
  have h1 : 1 ≤ ((x : ℚ) - dz) / ((xMax : ℚ) - dz) := by
    rw [le_div_iff₀ hd]; linarith
  have hn : (if (if ((x : ℚ) - dz) / ((xMax : ℚ) - dz) < 0 then 0
      else ((x : ℚ) - dz) / ((xMax : ℚ) - dz)) > 1 then (1 : ℚ)
      else (if ((x : ℚ) - dz) / ((xMax : ℚ) - dz) < 0 then 0
      else ((x : ℚ) - dz) / ((xMax : ℚ) - dz))) = 1 := by
    have h0 : ¬ ((x : ℚ) - dz) / ((xMax : ℚ) - dz) < 0 := by linarith
    simp only [if_neg h0]
    split_ifs with h
    · rfl
    · linarith
  rw [hn, hpow1 (1 + ex) (by linarith [hex.1]) (by linarith [hex.2]), roundf_full_scale]
  decide

/-- C8. If the inverted, [0,1023]-constrained sample lies within the dead-zone
of the corrected centre, or the span from the corrected centre to the
calibration bound on the sample's side (floored at 1) does not exceed the
dead-zone, `processAxis` returns 0, whatever the expo and the `pow` function. -/
theorem processAxis_deadzone (pow : ℚ → ℚ → ℚ) (j : Joystick) (raw : Int)
    (axisName : String)
    (h : |axisSample j raw axisName - axisCenter j axisName| ≤ axisDeadzone j axisName
        ∨ sideSpan j axisName (axisSample j raw axisName) ≤ axisDeadzone j axisName) :
    processAxis pow j raw axisName = 0 := by
  rw [processAxis_eq, if_pos h]

/-- C9. With the dead-zone in [0,400], the expo in [0,3] and a `pow` that is
non-negative on bases in [0,1] and maps base 1 to 1 (exponents in [1,4]), the
result of `processAxis` lies in [-32767, 32767]; when the span from the
corrected centre to the upper bound exceeds the dead-zone, every sample at or
above that bound gives 32767, and when the span to the lower bound exceeds the
dead-zone, every sample at or below that bound gives -32767. -/
theorem processAxis_range_and_saturation (pow : ℚ → ℚ → ℚ) (j : Joystick) (raw : Int)
    (axisName : String)
    (hpow0 : ∀ b e : ℚ, 0 ≤ b → b ≤ 1 → 1 ≤ e → e ≤ 4 → 0 ≤ pow b e)
    (hpow1 : ∀ e : ℚ, 1 ≤ e → e ≤ 4 → pow 1 e = 1)
    (hdz : 0 ≤ axisDeadzone j axisName ∧ axisDeadzone j axisName ≤ 400)
    (hex : 0 ≤ axisExpo j axisName ∧ axisExpo j axisName ≤ 3) :
    (-32767 ≤ processAxis pow j raw axisName ∧ processAxis pow j raw axisName ≤ 32767) ∧
    (axisDeadzone j axisName < axisMax j axisName - axisCenter j axisName →
      axisMax j axisName ≤ axisSample j raw axisName →
      processAxis pow j raw axisName = 32767) ∧
    (axisDeadzone j axisName < axisCenter j axisName - axisMin j axisName →
      axisSample j raw axisName ≤ axisMin j axisName →
      processAxis pow j raw axisName = -32767) := by
  rw [processAxis_eq]
  generalize axisSample j raw axisName = r
  refine ⟨?_, ?_⟩
  · obtain ⟨a, b⟩ := curveMagnitude_range pow |r - axisCenter j axisName|
      (axisDeadzone j axisName) (sideSpan j axisName r) (axisExpo j axisName) hpow0 hex
    generalize curveMagnitude pow |r - axisCenter j axisName| (axisDeadzone j axisName)
      (sideSpan j axisName r) (axisExpo j axisName) = m at a b
    split_ifs with hdead hrc
    · exact ⟨by decide, by decide⟩
    · constructor <;> omega
    · constructor <;> omega
  unfold sideSpan
  generalize axisCenter j axisName = c
  generalize axisMax j axisName = mx
  generalize axisMin j axisName = mn
  generalize axisDeadzone j axisName = dz at hdz ⊢
  generalize axisExpo j axisName = ex at hex ⊢
  refine ⟨?_, ?_⟩
  · intro hspan hr
    have hrc : r ≥ c := by omega
    have habs : |r - c| = r - c := abs_of_nonneg (by omega)
    have hfl : (if mx - c < 1 then 1 else mx - c) = mx - c := if_neg (by omega)
    rw [if_pos hrc, habs, hfl, if_pos hrc, if_neg (by omega),
      curveMagnitude_saturated pow (r - c) dz (mx - c) ex hpow1 hex hspan (by omega)]
    rfl
  · intro hspan hr
    have hrc : ¬ r ≥ c := by omega
    have habs : |r - c| = c - r := by rw [abs_of_neg (by omega)]; omega
    have hfl : (if c - mn < 1 then 1 else c - mn) = c - mn := if_neg (by omega)
    rw [if_neg hrc, habs, hfl, if_neg hrc, if_neg (by omega),
      curveMagnitude_saturated pow (c - r) dz (c - mn) ex hpow1 hex hspan (by omega)]
    rfl

/-- C10. For a corrected calibration with equal spans on both sides of the
centre `c` (`max - c = c - min`), a non-negative dead-zone and any offset `x`
with `0 ≤ x ≤ span`: the result of `processAxis` at the sample `c + x` is the
negation of its result at the sample `c - x` (same dead-zone, expo and `pow`). -/
theorem processAxis_odd_symmetry (pow : ℚ → ℚ → ℚ) (j : Joystick) (raw1 raw2 : Int)
    (axisName : String) (x : Int)
    (hdz : 0 ≤ axisDeadzone j axisName)
    (hsym : axisMax j axisName - axisCenter j axisName
      = axisCenter j axisName - axisMin j axisName)
    (hx0 : 0 ≤ x) (hx1 : x ≤ axisMax j axisName - axisCenter j axisName)
    (h1 : axisSample j raw1 axisName = axisCenter j axisName + x)
    (h2 : axisSample j raw2 axisName = axisCenter j axisName - x) :
    processAxis pow j raw1 axisName = - processAxis pow j raw2 axisName := by
  rw [processAxis_eq, processAxis_eq, h1, h2]
  unfold sideSpan
  generalize axisCenter j axisName = c at hsym hx1 ⊢
  generalize axisMax j axisName = mx at hsym hx1 ⊢
  generalize axisMin j axisName = mn at hsym ⊢
  generalize axisDeadzone j axisName = dz at hdz ⊢
  generalize axisExpo j axisName = ex
  have e1 : c + x - c = x := by omega
  have e2 : c - x - c = -x := by omega
  rw [e1, e2, abs_neg, abs_of_nonneg hx0]
  rcases eq_or_lt_of_le hx0 with hz | hpos
  · subst hz
    rw [if_pos (Or.inl hdz), if_pos (Or.inl hdz)]
    rfl
  · have g1 : c + x ≥ c := by omega
    have g2 : ¬ c - x ≥ c := by omega
    rw [if_pos g1, if_pos g1, if_neg g2, if_neg g2, hsym]
    split_ifs <;> omega

/-- The literal "X" selects the X axis. -/
theorem isAxisX_X : isAxisX "X" = true := by decide

/-- C8 at the example joystick: the raw X sample 500 is inverted to 523, 11
counts from the centre 512, inside the dead-zone 40. -/
theorem processAxis_deadzone_witness : processAxis powExample joyExample 500 "X" = 0 :=
  processAxis_deadzone powExample joyExample 500 "X" (Or.inl (by decide))

/-- C9 at the example joystick and the raw X sample 5 (inverted to 1018,
above the upper bound 1012). -/
theorem processAxis_range_and_saturation_witness :
    (-32767 ≤ processAxis powExample joyExample 5 "X" ∧
      processAxis powExample joyExample 5 "X" ≤ 32767) ∧
    (axisDeadzone joyExample "X" < axisMax joyExample "X" - axisCenter joyExample "X" →
      axisMax joyExample "X" ≤ axisSample joyExample 5 "X" →
      processAxis powExample joyExample 5 "X" = 32767) ∧
    (axisDeadzone joyExample "X" < axisCenter joyExample "X" - axisMin joyExample "X" →
      axisSample joyExample 5 "X" ≤ axisMin joyExample "X" →
      processAxis powExample joyExample 5 "X" = -32767) :=
  processAxis_range_and_saturation powExample joyExample 5 "X"
    (fun _ _ hb _ _ _ => pow_nonneg hb _) (fun _ _ _ => one_pow _)
    (by decide)
    (by simp only [axisExpo, isAxisX_X, joyExample, if_true]; norm_num)

/-- C10 at the example joystick (spans 500 on both sides of 512): the raw X
samples 423 and 599 are inverted to 600 = 512 + 88 and 424 = 512 - 88. -/
theorem processAxis_odd_symmetry_witness :
    processAxis powExample joyExample 423 "X" = - processAxis powExample joyExample 599 "X" :=
  processAxis_odd_symmetry powExample joyExample 423 599 "X" 88
    (by decide) (by decide) (by decide) (by decide) (by decide) (by decide)

/-! ## Keypad: `buttonsConsumeAll` and the threshold accessors -/

/-- C19. After `buttonsConsumeAll` the stable key is unchanged; for every key
the release flag, the short-click flag and the long-press latch are false and
the release duration and the repeat time are 0; the press start (and the
change time) is 0, the last reading is `None`, `buttonsLastReleaseDuration()`
is 0, `buttonsLastReleaseKey()` is `Key::None`, and the five thresholds are
unchanged. -/
theorem buttonsConsumeAll_clears (s : Buttons) :
    (buttonsConsumeAll s).eng.stable = s.eng.stable ∧
    (∀ k : Key,
      (buttonsConsumeAll s).eng.releasedPending (idx k) = false ∧
      (buttonsConsumeAll s).eng.shortPending (idx k) = false ∧
      (buttonsConsumeAll s).eng.longFired (idx k) = false ∧
      (buttonsConsumeAll s).eng.releaseDur (idx k) = 0 ∧
      (buttonsConsumeAll s).eng.lastRepeatAt (idx k) = 0) ∧
    (buttonsConsumeAll s).eng.pressStart = 0 ∧
    (buttonsConsumeAll s).eng.lastChange = 0 ∧
    (buttonsConsumeAll s).eng.lastReading = Key.None ∧
    buttonsLastReleaseDuration (buttonsConsumeAll s) = 0 ∧
    buttonsLastReleaseKey (buttonsConsumeAll s) = Key.None ∧
    SameThresholds s (buttonsConsumeAll s) :=
  ⟨rfl, fun _ => ⟨rfl, rfl, rfl, rfl, rfl⟩, rfl, rfl, rfl, rfl, rfl, rfl, rfl, rfl, rfl, rfl⟩

/-- Result of a calibration session on one axis, for the list of samples that
were folded in: the bounds are the smallest and largest sample when these are
more than 2 apart and the full range otherwise; the centre is the floor of the
midpoint; the range is wider than 2 and contains the centre. -/
def SessionAxis (samples : List Int) (calMin calMax center : Int) : Prop :=
  (∃ lo hi, lo ∈ samples ∧ hi ∈ samples ∧ (∀ v ∈ samples, lo ≤ v ∧ v ≤ hi) ∧
    (hi - lo > 2 → calMin = lo ∧ calMax = hi) ∧
    (¬ hi - lo > 2 → calMin = 0 ∧ calMax = 1023)) ∧
  center = (calMin + calMax) / 2 ∧ calMax > calMin + 2 ∧ calMin ≤ center ∧ center ≤ calMax

/-- Inversion maps [0,1023] into itself. -/
theorem applyInvert_range (j : Joystick) (raw : Int) (isX : Bool)
    (h : 0 ≤ raw ∧ raw ≤ 1023) :
    0 ≤ applyInvert j raw isX ∧ applyInvert j raw isX ≤ 1023 := by
  unfold applyInvert
  split_ifs <;> constructor <;> omega

/-- Inversion depends on the two inversion flags only. -/
theorem applyInvert_congr (j j2 : Joystick) (raw : Int) (isX : Bool)
    (hx : j2.invertX = j.invertX) (hy : j2.invertY = j.invertY) :
    applyInvert j2 raw isX = applyInvert j raw isX := by
  unfold applyInvert
  rw [hx, hy]

/-- One sample: the inversion flags are kept, the lower bounds become the
minimum of the old bound and the sample, the upper bounds the maximum. -/
theorem updateCalibrationSample_fields (j : Joystick) (rawX rawY : Int) :
    (updateCalibrationSample j rawX rawY).invertX = j.invertX ∧
    (updateCalibrationSample j rawX rawY).invertY = j.invertY ∧
    (updateCalibrationSample j rawX rawY).calMinX = min j.calMinX (applyInvert j rawX true) ∧
    (updateCalibrationSample j rawX rawY).calMaxX = max j.calMaxX (applyInvert j rawX true) ∧
    (updateCalibrationSample j rawX rawY).calMinY = min j.calMinY (applyInvert j rawY false) ∧
    (updateCalibrationSample j rawX rawY).calMaxY
      = max j.calMaxY (applyInvert j rawY false) := by
  unfold updateCalibrationSample
  generalize applyInvert j rawX true = rx
  generalize applyInvert j rawY false = ry
  dsimp only
  by_cases h1 : rx < j.calMinX <;> by_cases h2 : rx > j.calMaxX <;>
    by_cases h3 : ry < j.calMinY <;> by_cases h4 : ry > j.calMaxY <;>
    simp only [h1, h2, h3, h4, if_true, if_false, true_and] <;>
    refine ⟨?_, ?_, ?_, ?_⟩ <;> omega

/-- Running extrema after folding a list of samples: each bound is either the
starting bound or a folded sample, and bounds every folded sample. -/
theorem calibrationSamples_fields (j0 : Joystick) (xs : List (Int × Int)) :
    ∀ j : Joystick, j.invertX = j0.invertX → j.invertY = j0.invertY →
      ((calibrationSamples j xs).calMinX ≤ j.calMinX ∧
        (∀ p ∈ xs, (calibrationSamples j xs).calMinX ≤ applyInvert j0 p.1 true) ∧
        ((calibrationSamples j xs).calMinX = j.calMinX ∨
          ∃ p ∈ xs, (calibrationSamples j xs).calMinX = applyInvert j0 p.1 true)) ∧
      (j.calMaxX ≤ (calibrationSamples j xs).calMaxX ∧
        (∀ p ∈ xs, applyInvert j0 p.1 true ≤ (calibrationSamples j xs).calMaxX) ∧
        ((calibrationSamples j xs).calMaxX = j.calMaxX ∨
          ∃ p ∈ xs, (calibrationSamples j xs).calMaxX = applyInvert j0 p.1 true)) ∧
      ((calibrationSamples j xs).calMinY ≤ j.calMinY ∧
        (∀ p ∈ xs, (calibrationSamples j xs).calMinY ≤ applyInvert j0 p.2 false) ∧
        ((calibrationSamples j xs).calMinY = j.calMinY ∨
          ∃ p ∈ xs, (calibrationSamples j xs).calMinY = applyInvert j0 p.2 false)) ∧
      (j.calMaxY ≤ (calibrationSamples j xs).calMaxY ∧
        (∀ p ∈ xs, applyInvert j0 p.2 false ≤ (calibrationSamples j xs).calMaxY) ∧
        ((calibrationSamples j xs).calMaxY = j.calMaxY ∨
          ∃ p ∈ xs, (calibrationSamples j xs).calMaxY = applyInvert j0 p.2 false)) := by
  induction xs with
  | nil =>
    intro j _ _
    simp [calibrationSamples]
  | cons q xs ih =>
    intro j hx hy
    obtain ⟨f1, f2, f3, f4, f5, f6⟩ := updateCalibrationSample_fields j q.1 q.2
    rw [applyInvert_congr j0 j _ _ hx hy] at f3 f4 f5 f6
    obtain ⟨⟨a1, a2, a3⟩, ⟨b1, b2, b3⟩, ⟨c1, c2, c3⟩, ⟨d1, d2, d3⟩⟩ :=
      ih (updateCalibrationSample j q.1 q.2) (f1.trans hx) (f2.trans hy)
    have hfold : calibrationSamples j (q :: xs)
        = calibrationSamples (updateCalibrationSample j q.1 q.2) xs := rfl
    rw [hfold]
    rw [f3] at a1 a3
    rw [f4] at b1 b3
    rw [f5] at c1 c3
    rw [f6] at d1 d3
    refine ⟨⟨?_, ?_, ?_⟩, ⟨?_, ?_, ?_⟩, ⟨?_, ?_, ?_⟩, ⟨?_, ?_, ?_⟩⟩
    · exact le_trans a1 (min_le_left _ _)
    · intro p hp
      rcases List.mem_cons.mp hp with rfl | hp
      · exact le_trans a1 (min_le_right _ _)
      · exact a2 p hp
    · rcases a3 with h | ⟨p, hp, h⟩
      · rcases le_total j.calMinX (applyInvert j0 q.1 true) with hle | hle
        · left; rw [h, min_eq_left hle]
        · right; exact ⟨q, List.mem_cons_self q xs, by rw [h, min_eq_right hle]⟩
      · right; exact ⟨p, List.mem_cons_of_mem q hp, h⟩
    · exact le_trans (le_max_left _ _) b1
    · intro p hp
      rcases List.mem_cons.mp hp with rfl | hp
      · exact le_trans (le_max_right _ _) b1
      · exact b2 p hp
    · rcases b3 with h | ⟨p, hp, h⟩
      · rcases le_total j.calMaxX (applyInvert j0 q.1 true) with hle | hle
        · right; exact ⟨q, List.mem_cons_self q xs, by rw [h, max_eq_right hle]⟩
        · left; rw [h, max_eq_left hle]
      · right; exact ⟨p, List.mem_cons_of_mem q hp, h⟩
    · exact le_trans c1 (min_le_left _ _)
    · intro p hp
      rcases List.mem_cons.mp hp with rfl | hp
      · exact le_trans c1 (min_le_right _ _)
      · exact c2 p hp
    · rcases c3 with h | ⟨p, hp, h⟩
      · rcases le_total j.calMinY (applyInvert j0 q.2 false) with hle | hle
        · left; rw [h, min_eq_left hle]
        · right; exact ⟨q, List.mem_cons_self q xs, by rw [h, min_eq_right hle]⟩
      · right; exact ⟨p, List.mem_cons_of_mem q hp, h⟩
    · exact le_trans (le_max_left _ _) d1
    · intro p hp
      rcases List.mem_cons.mp hp with rfl | hp
      · exact le_trans (le_max_right _ _) d1
      · exact d2 p hp
    · rcases d3 with h | ⟨p, hp, h⟩
      · rcases le_total j.calMaxY (applyInvert j0 q.2 false) with hle | hle
        · right; exact ⟨q, List.mem_cons_self q xs, by rw [h, max_eq_right hle]⟩
        · left; rw [h, max_eq_left hle]
      · right; exact ⟨p, List.mem_cons_of_mem q hp, h⟩

/-- Bounds and centres after `finishCalibration`. -/
theorem finishCalibration_fields (j : Joystick) :
    (finishCalibration j).calMinX = (if j.calMaxX ≤ j.calMinX + 2 then 0 else j.calMinX) ∧
    (finishCalibration j).calMaxX = (if j.calMaxX ≤ j.calMinX + 2 then 1023 else j.calMaxX) ∧
    (finishCalibration j).calMinY = (if j.calMaxY ≤ j.calMinY + 2 then 0 else j.calMinY) ∧
    (finishCalibration j).calMaxY = (if j.calMaxY ≤ j.calMinY + 2 then 1023 else j.calMaxY) ∧
    (finishCalibration j).centerX
      = Int.tdiv ((finishCalibration j).calMinX + (finishCalibration j).calMaxX) 2 ∧
    (finishCalibration j).centerY
      = Int.tdiv ((finishCalibration j).calMinY + (finishCalibration j).calMaxY) 2 := by
  unfold finishCalibration
  by_cases hx : j.calMaxX ≤ j.calMinX + 2 <;> by_cases hy : j.calMaxY ≤ j.calMinY + 2 <;>
    simp only [hx, hy, if_true, if_false, and_self]

/-- The session result on one axis, from the running extrema `mn`, `mx` left
by the samples. -/
theorem sessionAxis_of_extrema (samples : List Int) (hne : samples ≠ [])
    (hr : ∀ v ∈ samples, 0 ≤ v ∧ v ≤ 1023) (mn mx : Int)
    (hmn : (∀ v ∈ samples, mn ≤ v) ∧ (mn = 1023 ∨ mn ∈ samples))
    (hmx : (∀ v ∈ samples, v ≤ mx) ∧ (mx = 0 ∨ mx ∈ samples)) :
    SessionAxis samples (if mx ≤ mn + 2 then 0 else mn) (if mx ≤ mn + 2 then 1023 else mx)
      (Int.tdiv ((if mx ≤ mn + 2 then 0 else mn) + (if mx ≤ mn + 2 then 1023 else mx)) 2) := by
  obtain ⟨v0, hv0⟩ := List.exists_mem_of_ne_nil samples hne
  have hv0r := hr v0 hv0
  have hmnv := hmn.1 v0 hv0
  have hmxv := hmx.1 v0 hv0
  have hmn_mem : mn ∈ samples := by
    rcases hmn.2 with h | h
    · have : v0 = mn := by omega
      rw [← this]; exact hv0
    · exact h
  have hmx_mem : mx ∈ samples := by
    rcases hmx.2 with h | h
    · have : v0 = mx := by omega
      rw [← this]; exact hv0
    · exact h
  have hmnr := hr mn hmn_mem
  have hmxr := hr mx hmx_mem
  refine ⟨⟨mn, mx, hmn_mem, hmx_mem, fun v hv => ⟨hmn.1 v hv, hmx.1 v hv⟩, ?_, ?_⟩, ?_⟩
  · intro h
    rw [if_neg (by omega), if_neg (by omega)]
    exact ⟨rfl, rfl⟩
  · intro h
    rw [if_pos (by omega), if_pos (by omega)]
    exact ⟨rfl, rfl⟩
  · by_cases h : mx ≤ mn + 2
    · simp only [if_pos h]
      rw [Int.tdiv_eq_ediv (by omega) (by omega)]
      refine ⟨rfl, ?_, ?_, ?_⟩ <;> omega
    · simp only [if_neg h]
      rw [Int.tdiv_eq_ediv (by omega) (by omega)]
      refine ⟨rfl, ?_, ?_, ?_⟩ <;> omega

/-- C11. After `startCalibration`, then one `updateCalibrationSample` for each
of `n ≥ 1` pairs of raw readings in [0,1023], then `finishCalibration`: on
each axis, if the largest folded (inverted) sample exceeds the smallest by
more than 2, `calMin` is the smallest and `calMax` the largest sample,
otherwise `calMin = 0` and `calMax = 1023`; the centre is
`floor((calMin + calMax) / 2)`, `calMax > calMin + 2` and
`calMin ≤ centre ≤ calMax`. -/
theorem calibrationSession_result (j : Joystick) (xs : List (Int × Int)) (hne : xs ≠ [])
    (hr : ∀ p ∈ xs, (0 ≤ p.1 ∧ p.1 ≤ 1023) ∧ (0 ≤ p.2 ∧ p.2 ≤ 1023)) :
    SessionAxis (xs.map (fun p => applyInvert j p.1 true))
      (calibrationSession j xs).calMinX (calibrationSession j xs).calMaxX
      (calibrationSession j xs).centerX ∧
    SessionAxis (xs.map (fun p => applyInvert j p.2 false))
      (calibrationSession j xs).calMinY (calibrationSession j xs).calMaxY
      (calibrationSession j xs).centerY := by
  obtain ⟨⟨-, a2, a3⟩, ⟨-, b2, b3⟩, ⟨-, c2, c3⟩, ⟨-, d2, d3⟩⟩ :=
    calibrationSamples_fields j xs (startCalibration j) rfl rfl
  obtain ⟨f1, f2, f3, f4, f5, f6⟩ :=
    finishCalibration_fields (calibrationSamples (startCalibration j) xs)
  have hmapne : ∀ f : Int × Int → Int, xs.map f ≠ [] := by
    intro f h
    exact hne (List.map_eq_nil_iff.mp h)
  unfold calibrationSession
  rw [f5, f6, f1, f2, f3, f4]
  constructor
  · apply sessionAxis_of_extrema _ (hmapne _)
    · intro v hv
      obtain ⟨p, hp, rfl⟩ := List.mem_map.mp hv
      exact applyInvert_range j p.1 true (hr p hp).1
    · refine ⟨?_, ?_⟩
      · intro v hv
        obtain ⟨p, hp, rfl⟩ := List.mem_map.mp hv
        exact a2 p hp
      · rcases a3 with h | ⟨p, hp, h⟩
        · left; rw [h]; rfl
        · right; rw [h]; exact List.mem_map.mpr ⟨p, hp, rfl⟩
    · refine ⟨?_, ?_⟩
      · intro v hv
        obtain ⟨p, hp, rfl⟩ := List.mem_map.mp hv
        exact b2 p hp
      · rcases b3 with h | ⟨p, hp, h⟩
        · left; rw [h]; rfl
        · right; rw [h]; exact List.mem_map.mpr ⟨p, hp, rfl⟩
  · apply sessionAxis_of_extrema _ (hmapne _)
    · intro v hv
      obtain ⟨p, hp, rfl⟩ := List.mem_map.mp hv
      exact applyInvert_range j p.2 false (hr p hp).2
    · refine ⟨?_, ?_⟩
      · intro v hv
        obtain ⟨p, hp, rfl⟩ := List.mem_map.mp hv
        exact c2 p hp
      · rcases c3 with h | ⟨p, hp, h⟩
        · left; rw [h]; rfl
        · right; rw [h]; exact List.mem_map.mpr ⟨p, hp, rfl⟩
    · refine ⟨?_, ?_⟩
      · intro v hv
        obtain ⟨p, hp, rfl⟩ := List.mem_map.mp hv
        exact d2 p hp
      · rcases d3 with h | ⟨p, hp, h⟩
        · left; rw [h]; rfl
        · right; rw [h]; exact List.mem_map.mpr ⟨p, hp, rfl⟩

/-- C11 at the example joystick with three pairs of raw readings. -/
theorem calibrationSession_result_witness :
    SessionAxis ([(100, 500), (900, 501), (512, 499)].map
        (fun p : Int × Int => applyInvert joyExample p.1 true))
      (calibrationSession joyExample [(100, 500), (900, 501), (512, 499)]).calMinX
      (calibrationSession joyExample [(100, 500), (900, 501), (512, 499)]).calMaxX
      (calibrationSession joyExample [(100, 500), (900, 501), (512, 499)]).centerX ∧
    SessionAxis ([(100, 500), (900, 501), (512, 499)].map
        (fun p : Int × Int => applyInvert joyExample p.2 false))
      (calibrationSession joyExample [(100, 500), (900, 501), (512, 499)]).calMinY
      (calibrationSession joyExample [(100, 500), (900, 501), (512, 499)]).calMaxY
      (calibrationSession joyExample [(100, 500), (900, 501), (512, 499)]).centerY :=
  calibrationSession_result joyExample [(100, 500), (900, 501), (512, 499)]
    (by decide) (by decide)

/-! ## Joystick: persisted calibration -/

/-- All fields of a record fit in 16 bits. -/
def CalData.Fits (d : CalData) : Prop :=
  d.magic < 65536 ∧ d.minX < 65536 ∧ d.maxX < 65536 ∧ d.centerX < 65536 ∧
  d.minY < 65536 ∧ d.maxY < 65536 ∧ d.centerY < 65536 ∧ d.crc < 65536

/-- A 16-bit value read back from where it was written. -/
theorem eepromReadU16_write_same (ee : Nat → Nat) (a v : Nat) (hv : v < 65536) :
    eepromReadU16 (eepromWriteU16 ee a v) a = v := by
  unfold eepromReadU16 eepromWriteU16
  rw [Function.update_same, Function.update_noteq (by omega), Function.update_same]
  omega

/-- A write does not change what is read at a disjoint address. -/
theorem eepromReadU16_write_other (ee : Nat → Nat) (a b v : Nat)
    (h : a + 2 ≤ b ∨ b + 2 ≤ a) :
    eepromReadU16 (eepromWriteU16 ee a v) b = eepromReadU16 ee b := by
  unfold eepromReadU16 eepromWriteU16
  rw [Function.update_noteq (by omega), Function.update_noteq (by omega),
    Function.update_noteq (by omega), Function.update_noteq (by omega)]

/-- Reading back a record written at the same address gives the record. -/
theorem eepromGetCal_putCal (ee : Nat → Nat) (addr : Nat) (d : CalData) (h : d.Fits) :
    eepromGetCal (eepromPutCal ee addr d) addr = d := by
  obtain ⟨h1, h2, h3, h4, h5, h6, h7, h8⟩ := h
  cases d
  simp only at h1 h2 h3 h4 h5 h6 h7 h8
  simp only [eepromGetCal, eepromPutCal, CalData.mk.injEq]
  refine ⟨?_, ?_, ?_, ?_, ?_, ?_, ?_, ?_⟩ <;>
    simp (disch := omega) only [eepromReadU16_write_other, eepromReadU16_write_same]

/-- A value read from the EEPROM fits in 16 bits. -/
theorem eepromReadU16_lt (ee : Nat → Nat) (a : Nat) : eepromReadU16 ee a < 65536 := by
  unfold eepromReadU16
  omega

/-- Conversion to `int` of a value below 32768. -/
theorem u16ToInt_small (n : Nat) (h : n < 32768) : u16ToInt n = (n : Int) := by
  unfold u16ToInt
  rw [Nat.mod_eq_of_lt (by omega), if_pos h]

/-- The stored record is valid: magic and checksum match. -/
def ValidRecord (d : CalData) : Prop :=
  d.magic = CAL_MAGIC ∧ d.crc = crcCal d

/-- The geometry test of `loadCalibration`: `min < max` on both axes and no
maximum above 1023. -/
def AcceptedGeometry (d : CalData) : Prop :=
  d.minX < d.maxX ∧ d.minY < d.maxY ∧ d.maxX ≤ 1023 ∧ d.maxY ≤ 1023

/-- The centre `loadCalibration` installs on an axis: the stored centre when
it lies in `[min, max]`, the midpoint otherwise. -/
def loadedCenter (mn mx c : Nat) : Int :=
  if mn ≤ c ∧ c ≤ mx then (c : Int) else ((mn : Int) + (mx : Int)) / 2

/-- A record that fails the magic or checksum test is not applied. -/
theorem loadCalibration_invalid (j : Joystick) (ee : Nat → Nat) (addr : Nat)
    (h : ¬ ValidRecord (eepromGetCal ee addr)) : loadCalibration j ee addr = (false, j) := by
  unfold loadCalibration
  dsimp only
  rw [if_pos]
  unfold ValidRecord at h
  by_cases hm : (eepromGetCal ee addr).magic = CAL_MAGIC
  · right
    exact fun hc => h ⟨hm, hc⟩
  · left
    exact hm

/-- A valid record that fails the geometry test is not applied. -/
theorem loadCalibration_rejected (j : Joystick) (ee : Nat → Nat) (addr : Nat)
    (hg : ¬ AcceptedGeometry (eepromGetCal ee addr)) :
    loadCalibration j ee addr = (false, j) := by
  unfold loadCalibration
  dsimp only
  unfold AcceptedGeometry at hg
  generalize eepromGetCal ee addr = d at hg ⊢
  by_cases h1 : d.magic ≠ CAL_MAGIC ∨ d.crc ≠ crcCal d
  · rw [if_pos h1]
  · rw [if_neg h1]
    by_cases h2 : d.minX ≥ d.maxX ∨ d.minY ≥ d.maxY
    · rw [if_pos h2]
    · rw [if_neg h2]
      have h3 : d.maxX > 1023 ∨ d.maxY > 1023 := by omega
      rw [if_pos h3]

/-- A valid record that passes the geometry test is applied: bounds as
stored, centres as stored or corrected to the midpoint, the other members
untouched. -/
theorem loadCalibration_accepted (j : Joystick) (ee : Nat → Nat) (addr : Nat)
    (hv : ValidRecord (eepromGetCal ee addr))
    (hg : AcceptedGeometry (eepromGetCal ee addr)) :
    loadCalibration j ee addr =
      (true, { j with
        calMinX := ((eepromGetCal ee addr).minX : Int),
        calMaxX := ((eepromGetCal ee addr).maxX : Int),
        calMinY := ((eepromGetCal ee addr).minY : Int),
        calMaxY := ((eepromGetCal ee addr).maxY : Int),
        centerX := loadedCenter (eepromGetCal ee addr).minX (eepromGetCal ee addr).maxX
          (eepromGetCal ee addr).centerX,
        centerY := loadedCenter (eepromGetCal ee addr).minY (eepromGetCal ee addr).maxY
          (eepromGetCal ee addr).centerY }) := by
  have hcx : (eepromGetCal ee addr).centerX < 65536 := eepromReadU16_lt _ _
  have hcy : (eepromGetCal ee addr).centerY < 65536 := eepromReadU16_lt _ _
  obtain ⟨hm, hc⟩ := hv
  obtain ⟨g1, g2, g3, g4⟩ := hg
  unfold loadCalibration
  dsimp only
  generalize eepromGetCal ee addr = d at *
  rw [if_neg (by rintro (h | h); exact h hm; exact h hc), if_neg (by omega), if_neg (by omega)]
  rw [u16ToInt_small d.minX (by omega), u16ToInt_small d.maxX (by omega),
    u16ToInt_small d.minY (by omega), u16ToInt_small d.maxY (by omega)]
  have hmidx : Int.tdiv ((d.minX : Int) + (d.maxX : Int)) 2
      = ((d.minX : Int) + (d.maxX : Int)) / 2 := Int.tdiv_eq_ediv (by omega) (by omega)
  have hmidy : Int.tdiv ((d.minY : Int) + (d.maxY : Int)) 2
      = ((d.minY : Int) + (d.maxY : Int)) / 2 := Int.tdiv_eq_ediv (by omega) (by omega)
  rw [hmidx, hmidy]
  have hx : (u16ToInt d.centerX < (d.minX : Int) ∨ u16ToInt d.centerX > (d.maxX : Int))
      ↔ ¬ (d.minX ≤ d.centerX ∧ d.centerX ≤ d.maxX) := by
    unfold u16ToInt
    rw [Nat.mod_eq_of_lt hcx]
    split_ifs <;> omega
  have hy : (u16ToInt d.centerY < (d.minY : Int) ∨ u16ToInt d.centerY > (d.maxY : Int))
      ↔ ¬ (d.minY ≤ d.centerY ∧ d.centerY ≤ d.maxY) := by
    unfold u16ToInt
    rw [Nat.mod_eq_of_lt hcy]
    split_ifs <;> omega
  unfold loadedCenter
  by_cases kx : d.minX ≤ d.centerX ∧ d.centerX ≤ d.maxX
  · have ex : u16ToInt d.centerX = (d.centerX : Int) := u16ToInt_small _ (by omega)
    have cx : ¬ (u16ToInt d.centerX < (d.minX : Int) ∨ u16ToInt d.centerX > (d.maxX : Int)) :=
      fun h => (hx.mp h) kx
    rw [if_neg cx, if_pos kx]
    dsimp only
    by_cases ky : d.minY ≤ d.centerY ∧ d.centerY ≤ d.maxY
    · have ey : u16ToInt d.centerY = (d.centerY : Int) := u16ToInt_small _ (by omega)
      have cy : ¬ (u16ToInt d.centerY < (d.minY : Int)
          ∨ u16ToInt d.centerY > (d.maxY : Int)) := fun h => (hy.mp h) ky
      rw [if_neg cy, if_pos ky, ex, ey]
    · have cy : u16ToInt d.centerY < (d.minY : Int)
          ∨ u16ToInt d.centerY > (d.maxY : Int) := hy.mpr ky
      rw [if_pos cy, if_neg ky, ex]
  · have cx : u16ToInt d.centerX < (d.minX : Int) ∨ u16ToInt d.centerX > (d.maxX : Int) :=
      hx.mpr kx
    rw [if_pos cx, if_neg kx]
    dsimp only
    by_cases ky : d.minY ≤ d.centerY ∧ d.centerY ≤ d.maxY
    · have ey : u16ToInt d.centerY = (d.centerY : Int) := u16ToInt_small _ (by omega)
      have cy : ¬ (u16ToInt d.centerY < (d.minY : Int)
          ∨ u16ToInt d.centerY > (d.maxY : Int)) := fun h => (hy.mp h) ky
      rw [if_neg cy, if_pos ky, ey]
    · have cy : u16ToInt d.centerY < (d.minY : Int)
          ∨ u16ToInt d.centerY > (d.maxY : Int) := hy.mpr ky
      rw [if_pos cy, if_neg ky]

/-- The joystick is calibrated to the full range with the centre at its
midpoint. -/
def FullRange (j : Joystick) : Prop :=
  j.calMinX = 0 ∧ j.calMaxX = 1023 ∧ j.calMinY = 0 ∧ j.calMaxY = 1023 ∧
  j.centerX = (0 + 1023) / 2 ∧ j.centerY = (0 + 1023) / 2

/-- The calibration bounds are the compiled-in defaults `[0, 1023]`. -/
def DefaultBounds (j : Joystick) : Prop :=
  j.calMinX = 0 ∧ j.calMaxX = 1023 ∧ j.calMinY = 0 ∧ j.calMaxY = 1023

/-- `finishCalibration` on the default bounds gives the full range. -/
theorem finishCalibration_default (j : Joystick) (h : DefaultBounds j) :
    FullRange (finishCalibration j) := by
  obtain ⟨h1, h2, h3, h4⟩ := h
  obtain ⟨f1, f2, f3, f4, f5, f6⟩ := finishCalibration_fields j
  rw [h1, h2] at f1 f2
  rw [h3, h4] at f3 f4
  rw [f1, f2] at f5
  rw [f3, f4] at f6
  simp only [show ¬ ((1023 : Int) ≤ 0 + 2) by decide, if_false] at f1 f2 f3 f4 f5 f6
  exact ⟨f1, f2, f3, f4, by rw [f5]; decide, by rw [f6]; decide⟩

/-- C13. A stored record whose magic is wrong or whose checksum differs from
`crcCal` (the XOR of the magic, the six fields and 0xA55A) is never applied:
`loadCalibration` returns false and leaves the joystick as it is; and
`joysticksLoadCalibration`, for a joystick that holds the compiled-in default
bounds, then leaves it calibrated to min 0, max 1023 on both axes with both
centres at the midpoint `(0 + 1023) / 2 = 511`. -/
theorem invalid_record_never_applied (joyL joyR : Joystick) (ee : Nat → Nat) :
    (∀ (j : Joystick) (addr : Nat), ¬ ValidRecord (eepromGetCal ee addr) →
      loadCalibration j ee addr = (false, j)) ∧
    (¬ ValidRecord (eepromGetCal ee EEPROM_ADDR_L) → DefaultBounds joyL →
      FullRange (joysticksLoadCalibration joyL joyR ee).1) ∧
    (¬ ValidRecord (eepromGetCal ee EEPROM_ADDR_R) → DefaultBounds joyR →
      FullRange (joysticksLoadCalibration joyL joyR ee).2) := by
  refine ⟨fun j addr h => loadCalibration_invalid j ee addr h, ?_, ?_⟩
  · intro h hd
    unfold joysticksLoadCalibration
    dsimp only
    rw [loadCalibration_invalid joyL ee EEPROM_ADDR_L h]
    exact finishCalibration_default joyL hd
  · intro h hd
    unfold joysticksLoadCalibration
    dsimp only
    rw [loadCalibration_invalid joyR ee EEPROM_ADDR_R h]
    exact finishCalibration_default joyR hd

/-- C13 on an erased EEPROM (every record reads magic 0xFFFF) and two
joysticks as constructed. -/
theorem invalid_record_never_applied_witness :
    loadCalibration Joystick.default blankEeprom EEPROM_ADDR_L = (false, Joystick.default) ∧
    FullRange (joysticksLoadCalibration Joystick.default Joystick.default blankEeprom).1 ∧
    FullRange (joysticksLoadCalibration Joystick.default Joystick.default blankEeprom).2 :=
  ⟨(invalid_record_never_applied Joystick.default Joystick.default blankEeprom).1
      Joystick.default EEPROM_ADDR_L (fun h => absurd h.1 (by decide)),
    (invalid_record_never_applied Joystick.default Joystick.default blankEeprom).2.1
      (fun h => absurd h.1 (by decide)) ⟨rfl, rfl, rfl, rfl⟩,
    (invalid_record_never_applied Joystick.default Joystick.default blankEeprom).2.2
      (fun h => absurd h.1 (by decide)) ⟨rfl, rfl, rfl, rfl⟩⟩

/-- C14 (amended). For a stored record with valid magic and checksum,
`loadCalibration` returns true exactly when `min < max` on both axes and both
maxima are at most 1023. A record failing this test is rejected: the function
returns false and leaves the joystick as it is. An accepted record installs
the stored bounds unchanged; only a centre outside `[min, max]` is corrected,
to the midpoint of the stored bounds. -/
theorem loadCalibration_geometry (j : Joystick) (ee : Nat → Nat) (addr : Nat)
    (hv : ValidRecord (eepromGetCal ee addr)) :
    ((loadCalibration j ee addr).1 = true ↔ AcceptedGeometry (eepromGetCal ee addr)) ∧
    (¬ AcceptedGeometry (eepromGetCal ee addr) → loadCalibration j ee addr = (false, j)) ∧
    (AcceptedGeometry (eepromGetCal ee addr) →
      loadCalibration j ee addr =
        (true, { j with
          calMinX := ((eepromGetCal ee addr).minX : Int),
          calMaxX := ((eepromGetCal ee addr).maxX : Int),
          calMinY := ((eepromGetCal ee addr).minY : Int),
          calMaxY := ((eepromGetCal ee addr).maxY : Int),
          centerX := loadedCenter (eepromGetCal ee addr).minX (eepromGetCal ee addr).maxX
            (eepromGetCal ee addr).centerX,
          centerY := loadedCenter (eepromGetCal ee addr).minY (eepromGetCal ee addr).maxY
            (eepromGetCal ee addr).centerY })) := by
  refine ⟨?_, fun hg => loadCalibration_rejected j ee addr hg,
    fun hg => loadCalibration_accepted j ee addr hv hg⟩
  by_cases hg : AcceptedGeometry (eepromGetCal ee addr)
  · rw [loadCalibration_accepted j ee addr hv hg]
    exact ⟨fun _ => hg, fun _ => rfl⟩
  · rw [loadCalibration_rejected j ee addr hg]
    exact ⟨fun h => absurd h Bool.false_ne_true, fun h => absurd h hg⟩

/-- Example EEPROM: the example joystick with its X centre set to 5, outside
its X bounds [12, 1012], saved at address 0 of an erased EEPROM. -/
def offCentreEeprom : Nat → Nat :=
  saveCalibration (setCenter joyExample 5 512) blankEeprom 0

/-- C14 at `offCentreEeprom`: the record is valid and accepted, and the X
centre 5 is replaced by the midpoint of [12, 1012]. -/
theorem loadCalibration_geometry_witness :
    ((loadCalibration joyExample offCentreEeprom 0).1 = true
      ↔ AcceptedGeometry (eepromGetCal offCentreEeprom 0)) ∧
    (¬ AcceptedGeometry (eepromGetCal offCentreEeprom 0) →
      loadCalibration joyExample offCentreEeprom 0 = (false, joyExample)) ∧
    (AcceptedGeometry (eepromGetCal offCentreEeprom 0) →
      loadCalibration joyExample offCentreEeprom 0 =
        (true, { joyExample with
          calMinX := ((eepromGetCal offCentreEeprom 0).minX : Int),
          calMaxX := ((eepromGetCal offCentreEeprom 0).maxX : Int),
          calMinY := ((eepromGetCal offCentreEeprom 0).minY : Int),
          calMaxY := ((eepromGetCal offCentreEeprom 0).maxY : Int),
          centerX := loadedCenter (eepromGetCal offCentreEeprom 0).minX
            (eepromGetCal offCentreEeprom 0).maxX (eepromGetCal offCentreEeprom 0).centerX,
          centerY := loadedCenter (eepromGetCal offCentreEeprom 0).minY
            (eepromGetCal offCentreEeprom 0).maxY
            (eepromGetCal offCentreEeprom 0).centerY })) :=
  loadCalibration_geometry joyExample offCentreEeprom 0 ⟨by decide, by decide⟩

/-- C14 as stated fails: a record with valid magic and checksum whose X
maximum (400) is not above its X minimum (600) is rejected. `loadCalibration`
returns false and the joystick keeps its bounds and centre. -/
theorem loadCalibration_rejects_swapped_counterexample :
    (eepromGetCal swappedEeprom 0).magic = CAL_MAGIC ∧
    (eepromGetCal swappedEeprom 0).crc = crcCal (eepromGetCal swappedEeprom 0) ∧
    (eepromGetCal swappedEeprom 0).minX = 600 ∧ (eepromGetCal swappedEeprom 0).maxX = 400 ∧
    (loadCalibration joyExample swappedEeprom 0).1 = false ∧
    (loadCalibration joyExample swappedEeprom 0).2.calMinX = 12 ∧
    (loadCalibration joyExample swappedEeprom 0).2.calMaxX = 1012 ∧
    (loadCalibration joyExample swappedEeprom 0).2.centerX = 512 := by
  decide

/-- The calibration of `j` passes the tests of `loadCalibration` and needs no
correction: on both axes `0 ≤ min < max ≤ 1023` and `min ≤ centre ≤ max`. -/
def SavedGeometry (j : Joystick) : Prop :=
  (0 ≤ j.calMinX ∧ j.calMinX < j.calMaxX ∧ j.calMaxX ≤ 1023 ∧
    j.calMinX ≤ j.centerX ∧ j.centerX ≤ j.calMaxX) ∧
  (0 ≤ j.calMinY ∧ j.calMinY < j.calMaxY ∧ j.calMaxY ≤ 1023 ∧
    j.calMinY ≤ j.centerY ∧ j.centerY ≤ j.calMaxY)

/-- Conversion to `uint16_t` and back of a value in [0, 65535]. -/
theorem toU16_cast (x : Int) (h0 : 0 ≤ x) (h1 : x < 65536) : ((toU16 x : Nat) : Int) = x := by
  unfold toU16
  rw [Int.toNat_of_nonneg (Int.emod_nonneg _ (by decide)), Int.emod_eq_of_lt h0 h1]

/-- A converted value fits in 16 bits. -/
theorem toU16_lt (x : Int) : toU16 x < 65536 := by
  unfold toU16
  have h1 := Int.emod_nonneg x (show (65536 : Int) ≠ 0 by decide)
  have h2 := Int.emod_lt_of_pos x (show (0 : Int) < 65536 by decide)
  omega

/-- The record built by `saveCalibration` fits in 16-bit fields and carries a
valid magic and checksum. -/
theorem calDataOf_valid (j : Joystick) : (calDataOf j).Fits ∧ ValidRecord (calDataOf j) := by
  refine ⟨⟨(by decide : CAL_MAGIC < 65536), toU16_lt _, toU16_lt _, toU16_lt _, toU16_lt _, toU16_lt _, toU16_lt _,
    ?_⟩, rfl, rfl⟩
  show crcCal _ < 65536
  unfold crcCal
  omega

/-- C12 (amended). For calibration values that satisfy, on both axes,
`0 ≤ min < max ≤ 1023` and `min ≤ centre ≤ max`: after `saveCalibration` to an
address, the record read at that address has a valid magic and checksum, and
`loadCalibration` from that address returns true and installs identical min,
max and centre values on both axes (in any joystick object, the other members
being untouched). -/
theorem calibration_round_trip (j j0 : Joystick) (ee : Nat → Nat) (addr : Nat)
    (h : SavedGeometry j) :
    ValidRecord (eepromGetCal (saveCalibration j ee addr) addr) ∧
    loadCalibration j0 (saveCalibration j ee addr) addr =
      (true, { j0 with calMinX := j.calMinX, calMaxX := j.calMaxX, calMinY := j.calMinY,
                       calMaxY := j.calMaxY, centerX := j.centerX, centerY := j.centerY }) ∧
    loadCalibration j (saveCalibration j ee addr) addr = (true, j) := by
  obtain ⟨⟨x0, x1, x2, x3, x4⟩, ⟨y0, y1, y2, y3, y4⟩⟩ := h
  obtain ⟨hfit, hval⟩ := calDataOf_valid j
  have hget : eepromGetCal (saveCalibration j ee addr) addr = calDataOf j :=
    eepromGetCal_putCal ee addr (calDataOf j) hfit
  have e1 : ((toU16 j.calMinX : Nat) : Int) = j.calMinX := toU16_cast _ (by omega) (by omega)
  have e2 : ((toU16 j.calMaxX : Nat) : Int) = j.calMaxX := toU16_cast _ (by omega) (by omega)
  have e3 : ((toU16 j.centerX : Nat) : Int) = j.centerX := toU16_cast _ (by omega) (by omega)
  have e4 : ((toU16 j.calMinY : Nat) : Int) = j.calMinY := toU16_cast _ (by omega) (by omega)
  have e5 : ((toU16 j.calMaxY : Nat) : Int) = j.calMaxY := toU16_cast _ (by omega) (by omega)
  have e6 : ((toU16 j.centerY : Nat) : Int) = j.centerY := toU16_cast _ (by omega) (by omega)
  have hgeo : AcceptedGeometry (calDataOf j) := by
    show toU16 j.calMinX < toU16 j.calMaxX ∧ toU16 j.calMinY < toU16 j.calMaxY ∧
      toU16 j.calMaxX ≤ 1023 ∧ toU16 j.calMaxY ≤ 1023
    omega
  have cx : loadedCenter (toU16 j.calMinX) (toU16 j.calMaxX) (toU16 j.centerX) = j.centerX := by
    unfold loadedCenter
    rw [if_pos (by omega), e3]
  have cy : loadedCenter (toU16 j.calMinY) (toU16 j.calMaxY) (toU16 j.centerY) = j.centerY := by
    unfold loadedCenter
    rw [if_pos (by omega), e6]
  have hload : ∀ t : Joystick, loadCalibration t (saveCalibration j ee addr) addr =
      (true, { t with calMinX := j.calMinX, calMaxX := j.calMaxX, calMinY := j.calMinY,
                      calMaxY := j.calMaxY, centerX := j.centerX, centerY := j.centerY }) := by
    intro t
    rw [loadCalibration_accepted t _ addr (by rw [hget]; exact hval) (by rw [hget]; exact hgeo),
      hget]
    show (true, { t with
        calMinX := ((toU16 j.calMinX : Nat) : Int), calMaxX := ((toU16 j.calMaxX : Nat) : Int),
        calMinY := ((toU16 j.calMinY : Nat) : Int), calMaxY := ((toU16 j.calMaxY : Nat) : Int),
        centerX := loadedCenter (toU16 j.calMinX) (toU16 j.calMaxX) (toU16 j.centerX),
        centerY := loadedCenter (toU16 j.calMinY) (toU16 j.calMaxY) (toU16 j.centerY) }) = _
    rw [e1, e2, e4, e5, cx, cy]
  exact ⟨by rw [hget]; exact hval, hload j0, hload j⟩

/-- C12 at the example joystick, saved at address 16 of an erased EEPROM and
loaded into a joystick as constructed. -/
theorem calibration_round_trip_witness :
    ValidRecord (eepromGetCal (saveCalibration joyExample blankEeprom 16) 16) ∧
    loadCalibration Joystick.default (saveCalibration joyExample blankEeprom 16) 16 =
      (true, { Joystick.default with
        calMinX := joyExample.calMinX, calMaxX := joyExample.calMaxX,
        calMinY := joyExample.calMinY, calMaxY := joyExample.calMaxY,
        centerX := joyExample.centerX, centerY := joyExample.centerY }) ∧
    loadCalibration joyExample (saveCalibration joyExample blankEeprom 16) 16
      = (true, joyExample) :=
  calibration_round_trip joyExample Joystick.default blankEeprom 16
    ⟨by decide, by decide⟩

/-- C12 as stated fails for saved values that `loadCalibration` rejects or
corrects. The values of a session in progress (`startCalibration`: min 1023,
max 0), saved at address 0, are not loaded: `loadCalibration` returns false.
The example calibration with its X centre set to 5 (outside [12, 1012]) is
loaded with X centre 512. -/
theorem calibration_round_trip_counterexample :
    (startCalibration joyExample).calMinX = 1023 ∧ (startCalibration joyExample).calMaxX = 0 ∧
    (loadCalibration joyExample
      (saveCalibration (startCalibration joyExample) blankEeprom 0) 0).1 = false ∧
    (setCenter joyExample 5 512).centerX = 5 ∧
    (loadCalibration joyExample offCentreEeprom 0).1 = true ∧
    (loadCalibration joyExample offCentreEeprom 0).2.centerX = 512 := by
  decide

/-! ## Telemetry shaping: `clampAndSnap`, `median3`, `updateLed` -/

/-- C15 (amended). For every raw value `v`, `clampAndSnap(v)` is `v` limited to
100: it is 0 only for `v = 0`, it is 100 exactly for `v ≥ 100`, it is `v`
itself for `1 ≤ v ≤ 99`, and it always lies in [0,100]. -/
theorem clampAndSnap_spec (v : Nat) :
    clampAndSnap v = min v 100 ∧ clampAndSnap v ≤ 100 ∧
    (clampAndSnap v = 0 ↔ v = 0) ∧ (clampAndSnap v = 100 ↔ 100 ≤ v) := by
  have h : clampAndSnap v = min v 100 := by
    unfold clampAndSnap AUX_SNAP_LOW AUX_SNAP_HIGH
    dsimp only
    by_cases h1 : v > 100
    · simp only [if_pos h1, show ¬ (100 < 1) by decide, if_false,
        show (100 : Nat) > 99 by decide, if_true]
      omega
    · simp only [if_neg h1]
      by_cases h2 : v < 1
      · simp only [if_pos h2, show ¬ ((0 : Nat) > 99) by decide, if_false]
        omega
      · simp only [if_neg h2]
        by_cases h3 : v > 99
        · rw [if_pos h3]; omega
        · rw [if_neg h3]; omega
  rw [h]
  refine ⟨rfl, ?_, ?_, ?_⟩ <;> omega

/-- C15 as stated fails at the values 1 and 99: `clampAndSnap` leaves both
unchanged (the comparisons are `v < 1` and `v > 99`). -/
theorem clampAndSnap_one_and_99_counterexample :
    clampAndSnap 1 = 1 ∧ clampAndSnap 99 = 99 := by
  decide

/-! ## Telemetry link: median filter, failsafe and transmit rate -/

/-- What `updateLed` keeps: the transmit and acknowledgment times, the median
history and its flag. -/
theorem updateLed_keeps (st : Receiver) (now : Nat) :
    (updateLed st now).lastTxMs = st.lastTxMs ∧
    (updateLed st now).lastRxOkMs = st.lastRxOkMs ∧
    (updateLed st now).s0 = st.s0 ∧ (updateLed st now).s1 = st.s1 ∧
    (updateLed st now).s2 = st.s2 ∧ (updateLed st now).samplesInit = st.samplesInit := by
  unfold updateLed
  dsimp only
  split_ifs <;> exact ⟨rfl, rfl, rfl, rfl, rfl, rfl⟩

/-- An `updateLed` call inside the LED period changes nothing. -/
theorem updateLed_idle (st : Receiver) (now : Nat)
    (h : sub32 now st.lastLedMs < LED_TICK_MS) : updateLed st now = st := by
  unfold updateLed
  rw [if_pos h]

/-- The target after `updateLed`: forced to 0 when the update runs with the
last acknowledgment more than `RX_TIMEOUT_MS` old, unchanged otherwise. -/
theorem updateLed_target (st : Receiver) (now : Nat) :
    (updateLed st now).auxTarget =
      if LED_TICK_MS ≤ sub32 now st.lastLedMs ∧ sub32 now st.lastRxOkMs > RX_TIMEOUT_MS
      then 0 else st.auxTarget := by
  by_cases h1 : sub32 now st.lastLedMs < LED_TICK_MS
  · rw [updateLed_idle st now h1, if_neg (fun h => absurd h.1 (by omega))]
  · unfold updateLed
    dsimp only
    by_cases h2 : sub32 now st.lastRxOkMs > RX_TIMEOUT_MS
    · rw [if_pos (⟨by omega, h2⟩ :
        LED_TICK_MS ≤ sub32 now st.lastLedMs ∧ sub32 now st.lastRxOkMs > RX_TIMEOUT_MS)]
      simp only [h1, h2, if_true, if_false]
    · rw [if_neg (fun h => h2 h.2 :
        ¬ (LED_TICK_MS ≤ sub32 now st.lastLedMs ∧ sub32 now st.lastRxOkMs > RX_TIMEOUT_MS))]
      simp only [h1, h2, if_true, if_false]

/-- The counter difference of a value with itself is 0. -/
theorem sub32_self (t : Nat) : sub32 t t = 0 := by
  unfold sub32 U32
  omega

/-- With an acknowledgment received at this very counter value, `updateLed`
leaves the target alone. -/
theorem updateLed_target_fresh (st : Receiver) (now : Nat) (h : st.lastRxOkMs = now) :
    (updateLed st now).auxTarget = st.auxTarget := by
  rw [updateLed_target, h, sub32_self]
  exact if_neg (fun h => absurd h.2 (by decide))

/-- The transmit block when the period has not elapsed: nothing happens. -/
theorem transmitStep_idle (st : Receiver) (now : Nat) (f : CommFrame) (radio : RadioOutcome)
    (h : sub32 now st.lastTxMs < TX_TICK_MS) :
    transmitStep st now f radio = (st, none, false) := by
  unfold transmitStep
  rw [if_neg (by omega)]

/-- The transmit block when the period has elapsed and the send is not
acknowledged: only `lastTxMs` moves. -/
theorem transmitStep_unacked (st : Receiver) (now : Nat) (f : CommFrame) (radio : RadioOutcome)
    (hdue : sub32 now st.lastTxMs ≥ TX_TICK_MS)
    (hno : (commSendFrame radio f (some CommFrame.zero)).1 = false) :
    transmitStep st now f radio = ({ st with lastTxMs := now }, none, true) := by
  unfold transmitStep
  rw [if_pos hdue]
  dsimp only
  rw [if_neg (by rw [hno]; exact Bool.false_ne_true)]

/-- The flag of `receiverLoop` is the test of the transmit period. -/
theorem receiverLoop_sent_iff (st : Receiver) (now : Nat) (f : CommFrame) (radio : RadioOutcome) :
    (receiverLoop st now f radio).2 = true ↔ sub32 now st.lastTxMs ≥ TX_TICK_MS := by
  unfold receiverLoop transmitStep
  dsimp only
  by_cases h : sub32 now st.lastTxMs ≥ TX_TICK_MS
  · rw [if_pos h]
    by_cases h2 : (commSendFrame radio f (some CommFrame.zero)).1 = true
    · rw [if_pos h2]
      exact ⟨fun _ => h, fun _ => rfl⟩
    · rw [if_neg h2]
      exact ⟨fun _ => h, fun _ => rfl⟩
  · rw [if_neg h]
    exact ⟨fun k => absurd k Bool.false_ne_true, fun k => absurd k h⟩

/-- A pass of `receiverLoop` inside the transmit period is `updateLed` alone. -/
theorem receiverLoop_idle (st : Receiver) (now : Nat) (f : CommFrame) (radio : RadioOutcome)
    (h : sub32 now st.lastTxMs < TX_TICK_MS) :
    receiverLoop st now f radio = (updateLed st now, false) := by
  unfold receiverLoop
  dsimp only
  rw [transmitStep_idle st now f radio h]

/-- A pass of `receiverLoop` whose send is due and not acknowledged. -/
theorem receiverLoop_unacked (st : Receiver) (now : Nat) (f : CommFrame) (radio : RadioOutcome)
    (hdue : sub32 now st.lastTxMs ≥ TX_TICK_MS)
    (hno : (commSendFrame radio f (some CommFrame.zero)).1 = false) :
    receiverLoop st now f radio = (updateLed { st with lastTxMs := now } now, true) := by
  unfold receiverLoop
  dsimp only
  rw [transmitStep_unacked st now f radio hdue hno]

/-- A pass of `receiverLoop` that is due and acknowledged with telemetry byte
`x`: the sample `clampAndSnap(x)` enters the median history and the target is
the median of the new history. -/
theorem receiverLoop_ack (st : Receiver) (now : Nat) (f : CommFrame) (x : Nat)
    (hdue : sub32 now st.lastTxMs ≥ TX_TICK_MS) :
    (receiverLoop st now f (ackWith x)).1.lastTxMs = now ∧
    (receiverLoop st now f (ackWith x)).1.samplesInit = true ∧
    (receiverLoop st now f (ackWith x)).1.s1
      = (if st.samplesInit = false then clampAndSnap (x % 256) else st.s2) ∧
    (receiverLoop st now f (ackWith x)).1.s2 = clampAndSnap (x % 256) ∧
    (receiverLoop st now f (ackWith x)).1.auxTarget
      = median3 (if st.samplesInit = false then clampAndSnap (x % 256) else st.s1)
          (if st.samplesInit = false then clampAndSnap (x % 256) else st.s2)
          (clampAndSnap (x % 256)) := by
  have ht : transmitStep st now f (ackWith x)
      = ({ st with lastTxMs := now, lastRxOkMs := now }, some (clampAndSnap (x % 256)), true) := by
    unfold transmitStep
    rw [if_pos hdue]
    rfl
  unfold receiverLoop
  dsimp only
  rw [ht]
  dsimp only
  obtain ⟨k1, -, -, k4, k5, k6⟩ := updateLed_keeps
    (pushSample { st with lastTxMs := now, lastRxOkMs := now } (clampAndSnap (x % 256))) now
  have hfresh : (pushSample { st with lastTxMs := now, lastRxOkMs := now }
      (clampAndSnap (x % 256))).lastRxOkMs = now := by
    unfold pushSample
    dsimp only
    split_ifs <;> rfl
  rw [updateLed_target_fresh _ now hfresh, k1, k4, k5, k6]
  unfold pushSample
  dsimp only
  by_cases hi : st.samplesInit = false
  · simp only [hi, if_true, and_self]
  · have hi2 : st.samplesInit = true := by simpa using hi
    simp only [hi2, Bool.true_eq_false, if_false, and_self]

/-- A sample below the two others of its window: the median is the smaller of
the two others, whatever the position of the low sample. -/
theorem median3_low (a b x : Nat) (ha : x < a) (hb : x < b) :
    median3 a b x = min a b ∧ median3 a x b = min a b ∧ median3 x a b = min a b := by
  unfold median3
  dsimp only
  refine ⟨?_, ?_, ?_⟩ <;> split_ifs <;> omega

/-- A sample above the two others of its window: the median is the larger of
the two others, whatever the position of the high sample. -/
theorem median3_high (a b x : Nat) (ha : a < x) (hb : b < x) :
    median3 a b x = max a b ∧ median3 a x b = max a b ∧ median3 x a b = max a b := by
  unfold median3
  dsimp only
  refine ⟨?_, ?_, ?_⟩ <;> split_ifs <;> omega

/-- Five acknowledged transmitting passes from an empty median history: each
target is the median of the window of the last three samples, the first sample
filling the window. -/
theorem five_acks (st : Receiver) (u1 u2 u3 u4 u5 : Nat) (g1 g2 g3 g4 g5 : CommFrame)
    (a b c d e : Nat)
    (hi : st.samplesInit = false)
    (k1 : sub32 u1 st.lastTxMs ≥ TX_TICK_MS) (k2 : sub32 u2 u1 ≥ TX_TICK_MS)
    (k3 : sub32 u3 u2 ≥ TX_TICK_MS) (k4 : sub32 u4 u3 ≥ TX_TICK_MS)
    (k5 : sub32 u5 u4 ≥ TX_TICK_MS) :
    receiverTargets st
        [(u1, g1, ackWith a), (u2, g2, ackWith b), (u3, g3, ackWith c), (u4, g4, ackWith d),
         (u5, g5, ackWith e)]
      = [median3 (clampAndSnap (a % 256)) (clampAndSnap (a % 256)) (clampAndSnap (a % 256)),
         median3 (clampAndSnap (a % 256)) (clampAndSnap (a % 256)) (clampAndSnap (b % 256)),
         median3 (clampAndSnap (a % 256)) (clampAndSnap (b % 256)) (clampAndSnap (c % 256)),
         median3 (clampAndSnap (b % 256)) (clampAndSnap (c % 256)) (clampAndSnap (d % 256)),
         median3 (clampAndSnap (c % 256)) (clampAndSnap (d % 256)) (clampAndSnap (e % 256))] := by
  simp only [receiverTargets, receiverGetLastAux]
  have i1 := receiverLoop_ack st u1 g1 a k1
  simp only [hi, if_true] at i1
  obtain ⟨p1, p2, p3, p4, p5⟩ := i1
  generalize (receiverLoop st u1 g1 (ackWith a)).1 = A at *
  have i2 := receiverLoop_ack A u2 g2 b (by rw [p1]; exact k2)
  simp only [p2, p3, p4, Bool.true_eq_false, if_false] at i2
  obtain ⟨q1, q2, q3, q4, q5⟩ := i2
  generalize (receiverLoop A u2 g2 (ackWith b)).1 = B at *
  have i3 := receiverLoop_ack B u3 g3 c (by rw [q1]; exact k3)
  simp only [q2, q3, q4, Bool.true_eq_false, if_false] at i3
  obtain ⟨r1, r2, r3, r4, r5⟩ := i3
  generalize (receiverLoop B u3 g3 (ackWith c)).1 = C at *
  have i4 := receiverLoop_ack C u4 g4 d (by rw [r1]; exact k4)
  simp only [r2, r3, r4, Bool.true_eq_false, if_false] at i4
  obtain ⟨w1, w2, w3, w4, w5⟩ := i4
  generalize (receiverLoop C u4 g4 (ackWith d)).1 = D at *
  have i5 := receiverLoop_ack D u5 g5 e (by rw [w1]; exact k5)
  simp only [w2, w3, w4, Bool.true_eq_false, if_false] at i5
  rw [p5, q5, r5, w5, i5.2.2.2.2]

/-- C16. Glitch rejection in `receiverLoop`. From a state with a filled median
history, three passes that each transmit and are acknowledged with the bytes
`x`, `c`, `d`: when the sample of `x` is strictly below the two samples before
it (`s1`, `s2`) and the two after it, the three targets produced while it is in
the history are the minimum of its neighbours and none of them is the outlier;
when it is strictly above, they are the maximum and again none is the outlier.
After `receiverInit`, five acknowledged transmitting passes with the bytes
50, 52, 4, 51, 50 give the targets 50, 50, 50, 51, 50. -/
theorem median_rejects_single_outlier (st : Receiver) (t1 t2 t3 : Nat) (f1 f2 f3 : CommFrame)
    (x c d : Nat) (n0 u1 u2 u3 u4 u5 : Nat) (g1 g2 g3 g4 g5 : CommFrame)
    (hinit : st.samplesInit = true)
    (h1 : sub32 t1 st.lastTxMs ≥ TX_TICK_MS) (h2 : sub32 t2 t1 ≥ TX_TICK_MS)
    (h3 : sub32 t3 t2 ≥ TX_TICK_MS)
    (k1 : sub32 u1 (receiverInit n0).lastTxMs ≥ TX_TICK_MS) (k2 : sub32 u2 u1 ≥ TX_TICK_MS)
    (k3 : sub32 u3 u2 ≥ TX_TICK_MS) (k4 : sub32 u4 u3 ≥ TX_TICK_MS)
    (k5 : sub32 u5 u4 ≥ TX_TICK_MS) :
    (clampAndSnap (x % 256) < st.s1 → clampAndSnap (x % 256) < st.s2 →
      clampAndSnap (x % 256) < clampAndSnap (c % 256) →
      clampAndSnap (x % 256) < clampAndSnap (d % 256) →
      receiverTargets st [(t1, f1, ackWith x), (t2, f2, ackWith c), (t3, f3, ackWith d)]
        = [min st.s1 st.s2, min st.s2 (clampAndSnap (c % 256)),
           min (clampAndSnap (c % 256)) (clampAndSnap (d % 256))] ∧
      clampAndSnap (x % 256) ∉
        receiverTargets st [(t1, f1, ackWith x), (t2, f2, ackWith c), (t3, f3, ackWith d)]) ∧
    (st.s1 < clampAndSnap (x % 256) → st.s2 < clampAndSnap (x % 256) →
      clampAndSnap (c % 256) < clampAndSnap (x % 256) →
      clampAndSnap (d % 256) < clampAndSnap (x % 256) →
      receiverTargets st [(t1, f1, ackWith x), (t2, f2, ackWith c), (t3, f3, ackWith d)]
        = [max st.s1 st.s2, max st.s2 (clampAndSnap (c % 256)),
           max (clampAndSnap (c % 256)) (clampAndSnap (d % 256))] ∧
      clampAndSnap (x % 256) ∉
        receiverTargets st [(t1, f1, ackWith x), (t2, f2, ackWith c), (t3, f3, ackWith d)]) ∧
    receiverTargets (receiverInit n0)
        [(u1, g1, ackWith 50), (u2, g2, ackWith 52), (u3, g3, ackWith 4), (u4, g4, ackWith 51),
         (u5, g5, ackWith 50)]
      = [50, 50, 50, 51, 50] := by
  have e1 := receiverLoop_ack st t1 f1 x h1
  simp only [hinit, Bool.true_eq_false, if_false] at e1
  obtain ⟨a1, a2, a3, a4, a5⟩ := e1
  have e2 := receiverLoop_ack (receiverLoop st t1 f1 (ackWith x)).1 t2 f2 c
    (by rw [a1]; exact h2)
  simp only [a2, a3, a4, Bool.true_eq_false, if_false] at e2
  obtain ⟨b1, b2, b3, b4, b5⟩ := e2
  have e3 := receiverLoop_ack
    (receiverLoop (receiverLoop st t1 f1 (ackWith x)).1 t2 f2 (ackWith c)).1 t3 f3 d
    (by rw [b1]; exact h3)
  simp only [b2, b3, b4, Bool.true_eq_false, if_false] at e3
  have hT : receiverTargets st [(t1, f1, ackWith x), (t2, f2, ackWith c), (t3, f3, ackWith d)]
      = [median3 st.s1 st.s2 (clampAndSnap (x % 256)),
         median3 st.s2 (clampAndSnap (x % 256)) (clampAndSnap (c % 256)),
         median3 (clampAndSnap (x % 256)) (clampAndSnap (c % 256)) (clampAndSnap (d % 256))] := by
    simp only [receiverTargets, receiverGetLastAux, a5, b5, e3.2.2.2.2]
  refine ⟨?_, ?_, ?_⟩
  · intro l1 l2 l3 l4
    have m : receiverTargets st [(t1, f1, ackWith x), (t2, f2, ackWith c), (t3, f3, ackWith d)]
        = [min st.s1 st.s2, min st.s2 (clampAndSnap (c % 256)),
           min (clampAndSnap (c % 256)) (clampAndSnap (d % 256))] := by
      rw [hT, (median3_low st.s1 st.s2 _ l1 l2).1, (median3_low st.s2 _ _ l2 l3).2.1,
        (median3_low _ _ _ l3 l4).2.2]
    refine ⟨m, ?_⟩
    rw [m]
    intro hmem
    simp only [List.mem_cons, List.mem_singleton, List.not_mem_nil, or_false] at hmem
    omega
  · intro l1 l2 l3 l4
    have m : receiverTargets st [(t1, f1, ackWith x), (t2, f2, ackWith c), (t3, f3, ackWith d)]
        = [max st.s1 st.s2, max st.s2 (clampAndSnap (c % 256)),
           max (clampAndSnap (c % 256)) (clampAndSnap (d % 256))] := by
      rw [hT, (median3_high st.s1 st.s2 _ l1 l2).1, (median3_high st.s2 _ _ l2 l3).2.1,
        (median3_high _ _ _ l3 l4).2.2]
    refine ⟨m, ?_⟩
    rw [m]
    intro hmem
    simp only [List.mem_cons, List.mem_singleton, List.not_mem_nil, or_false] at hmem
    omega
  · exact (five_acks (receiverInit n0) u1 u2 u3 u4 u5 g1 g2 g3 g4 g5 50 52 4 51 50 rfl
      k1 k2 k3 k4 k5).trans (by decide)

theorem median_rejects_single_outlier_witness :
    receiverTargets { receiverInit 0 with s1 := 50, s2 := 52, samplesInit := true }
        [(20, CommFrame.zero, ackWith 4), (40, CommFrame.zero, ackWith 51),
         (60, CommFrame.zero, ackWith 50)] = [50, 51, 50] ∧
    receiverTargets { receiverInit 0 with s1 := 50, s2 := 52, samplesInit := true }
        [(20, CommFrame.zero, ackWith 200), (40, CommFrame.zero, ackWith 51),
         (60, CommFrame.zero, ackWith 50)] = [52, 52, 51] ∧
    receiverTargets (receiverInit 0)
        [(20, CommFrame.zero, ackWith 50), (40, CommFrame.zero, ackWith 52),
         (60, CommFrame.zero, ackWith 4), (80, CommFrame.zero, ackWith 51),
         (100, CommFrame.zero, ackWith 50)] = [50, 50, 50, 51, 50] :=
  ⟨((median_rejects_single_outlier
      { receiverInit 0 with s1 := 50, s2 := 52, samplesInit := true } 20 40 60
      CommFrame.zero CommFrame.zero CommFrame.zero 4 51 50 0 20 40 60 80 100
      CommFrame.zero CommFrame.zero CommFrame.zero CommFrame.zero CommFrame.zero
      rfl (by decide) (by decide) (by decide) (by decide) (by decide) (by decide) (by decide)
      (by decide)).1 (by decide) (by decide) (by decide) (by decide)).1,
   ((median_rejects_single_outlier
      { receiverInit 0 with s1 := 50, s2 := 52, samplesInit := true } 20 40 60
      CommFrame.zero CommFrame.zero CommFrame.zero 200 51 50 0 20 40 60 80 100
      CommFrame.zero CommFrame.zero CommFrame.zero CommFrame.zero CommFrame.zero
      rfl (by decide) (by decide) (by decide) (by decide) (by decide) (by decide) (by decide)
      (by decide)).2.1 (by decide) (by decide) (by decide) (by decide)).1,
   (median_rejects_single_outlier
      { receiverInit 0 with s1 := 50, s2 := 52, samplesInit := true } 20 40 60
      CommFrame.zero CommFrame.zero CommFrame.zero 4 51 50 0 20 40 60 80 100
      CommFrame.zero CommFrame.zero CommFrame.zero CommFrame.zero CommFrame.zero
      rfl (by decide) (by decide) (by decide) (by decide) (by decide) (by decide) (by decide)
      (by decide)).2.2⟩

/-- One step of the moving average of `updateLed` toward target 0:
`s + ((0 - s) >> 2)` for `s` in `[0,100]`. -/
def emaTowardZero (s : Nat) : Nat := s - (s + 3) / 4

/-- Link loss over a run of passes, seen from the last acknowledgment time
`lastRxOk`: no pass has its send acknowledged and at every pass more than
`RX_TIMEOUT_MS` have elapsed on the counter since `lastRxOk`. -/
def LinkLost (lastRxOk : Nat) (run : List (Nat × CommFrame × RadioOutcome)) : Prop :=
  ∀ c ∈ run, (commSendFrame c.2.2 c.2.1 (some CommFrame.zero)).1 = false ∧
    sub32 c.1 lastRxOk > RX_TIMEOUT_MS

/-- The signed shift of `updateLed` with target 0 on a value in `[0,100]`. -/
theorem ema_zero_target (s : Nat) (hs : s ≤ 100) :
    (((s : Int) + (((0 : Nat) : Int) - (s : Int)) >>> EMA_SHIFT) % 65536).toNat
      = emaTowardZero s := by
  rw [Int.shiftRight_eq_div_pow]
  unfold EMA_SHIFT emaTowardZero
  norm_num
  have h1 : 0 ≤ (s : Int) + (-(s : Int)) / 4 := by omega
  rw [Int.emod_eq_of_lt h1 (by omega)]
  omega

/-- An `updateLed` call that runs while the link is lost: the target is forced
to 0 and the smoothed value makes one step toward 0. -/
theorem updateLed_failsafe (st : Receiver) (now : Nat)
    (hled : LED_TICK_MS ≤ sub32 now st.lastLedMs)
    (hstale : sub32 now st.lastRxOkMs > RX_TIMEOUT_MS) (hs : st.auxSmooth ≤ 100) :
    (updateLed st now).auxTarget = 0 ∧
    (updateLed st now).auxSmooth = emaTowardZero st.auxSmooth := by
  have h1 : ¬ sub32 now st.lastLedMs < LED_TICK_MS := by omega
  have h2 : ¬ emaTowardZero st.auxSmooth > 100 := by
    unfold emaTowardZero
    omega
  unfold updateLed
  dsimp only
  simp only [h1, hstale, if_true, if_false, ema_zero_target _ hs, h2, and_self]

/-- The smoothed value never leaves `[0,100]`. -/
theorem updateLed_smooth_le (st : Receiver) (now : Nat) (hs : st.auxSmooth ≤ 100) :
    (updateLed st now).auxSmooth ≤ 100 := by
  have clamp : ∀ n : Nat, (if n > 100 then 100 else n) ≤ 100 := by
    intro n
    split_ifs <;> omega
  unfold updateLed
  dsimp only
  by_cases h1 : sub32 now st.lastLedMs < LED_TICK_MS
  · rw [if_pos h1]
    exact hs
  · rw [if_neg h1]
    exact clamp _


/-- A pass of `receiverLoop` whose send, if any, is not acknowledged is an
`updateLed` call on a state that differs from the old one in `lastTxMs` at
most. -/
theorem receiverLoop_lost (st : Receiver) (now : Nat) (f : CommFrame) (radio : RadioOutcome)
    (hno : (commSendFrame radio f (some CommFrame.zero)).1 = false) :
    ∃ st1 : Receiver, (receiverLoop st now f radio).1 = updateLed st1 now ∧
      st1.lastLedMs = st.lastLedMs ∧ st1.lastRxOkMs = st.lastRxOkMs ∧
      st1.auxSmooth = st.auxSmooth ∧ st1.auxTarget = st.auxTarget := by
  by_cases hdue : sub32 now st.lastTxMs ≥ TX_TICK_MS
  · exact ⟨{ st with lastTxMs := now }, by rw [receiverLoop_unacked st now f radio hdue hno],
      rfl, rfl, rfl, rfl⟩
  · exact ⟨st, by rw [receiverLoop_idle st now f radio (by omega)], rfl, rfl, rfl, rfl⟩

/-- One pass of `receiverLoop` while the link is lost. -/
theorem receiverLoop_failsafe (st : Receiver) (now : Nat) (f : CommFrame) (radio : RadioOutcome)
    (hno : (commSendFrame radio f (some CommFrame.zero)).1 = false)
    (hstale : sub32 now st.lastRxOkMs > RX_TIMEOUT_MS) (hs : st.auxSmooth ≤ 100) :
    (receiverLoop st now f radio).1.lastRxOkMs = st.lastRxOkMs ∧
    (receiverLoop st now f radio).1.auxSmooth ≤ 100 ∧
    (sub32 now st.lastLedMs < LED_TICK_MS →
      (receiverLoop st now f radio).1.auxSmooth = st.auxSmooth) ∧
    (LED_TICK_MS ≤ sub32 now st.lastLedMs →
      (receiverLoop st now f radio).1.auxTarget = 0 ∧
      (receiverLoop st now f radio).1.auxSmooth = emaTowardZero st.auxSmooth) := by
  obtain ⟨st1, e, e1, e2, e3, e4⟩ := receiverLoop_lost st now f radio hno
  rw [e]
  refine ⟨?_, ?_, ?_, ?_⟩
  · rw [(updateLed_keeps st1 now).2.1, e2]
  · exact updateLed_smooth_le st1 now (by rw [e3]; exact hs)
  · intro h
    rw [updateLed_idle st1 now (by rw [e1]; exact h), e3]
  · intro h
    have k := updateLed_failsafe st1 now (by rw [e1]; exact h) (by rw [e2]; exact hstale)
      (by rw [e3]; exact hs)
    rw [e3] at k
    exact k

/-- The step toward 0 is monotone. -/
theorem emaTowardZero_mono (a b : Nat) (h : a ≤ b) : emaTowardZero a ≤ emaTowardZero b := by
  unfold emaTowardZero
  omega

/-- Iterated steps toward 0 are monotone in the start value. -/
theorem emaTowardZero_iterate_mono (n : Nat) :
    ∀ a b : Nat, a ≤ b → emaTowardZero^[n] a ≤ emaTowardZero^[n] b := by
  induction n with
  | zero => intro a b h; exact h
  | succ n ih =>
    intro a b h
    rw [Function.iterate_succ_apply, Function.iterate_succ_apply]
    exact ih _ _ (emaTowardZero_mono a b h)

/-- Steps toward 0 from 0 stay at 0. -/
theorem emaTowardZero_iterate_zero (n : Nat) : emaTowardZero^[n] 0 = 0 := by
  induction n with
  | zero => rfl
  | succ n ih =>
    rw [Function.iterate_succ_apply]
    exact ih

/-- Fourteen steps toward 0 bring every value of `[0,100]` to 0, and so do
more. -/
theorem emaTowardZero_iterate_14 (s n : Nat) (hs : s ≤ 100) (hn : 14 ≤ n) :
    emaTowardZero^[n] s = 0 := by
  obtain ⟨j, rfl⟩ : ∃ j, n = j + 14 := ⟨n - 14, by omega⟩
  have h14 : emaTowardZero^[14] s = 0 := by
    have h := emaTowardZero_iterate_mono 14 s 100 hs
    have h100 : emaTowardZero^[14] 100 = 0 := by decide
    omega
  rw [Function.iterate_add_apply, h14, emaTowardZero_iterate_zero]

/-- A run of passes while the link is lost: the smoothed value has made one
step toward 0 per LED update, and the acknowledgment time has not moved. -/
theorem receiverRun_failsafe (run : List (Nat × CommFrame × RadioOutcome)) :
    ∀ st : Receiver, LinkLost st.lastRxOkMs run → st.auxSmooth ≤ 100 →
      (receiverRun st run).auxSmooth = emaTowardZero^[ledUpdates st run] st.auxSmooth ∧
      (receiverRun st run).lastRxOkMs = st.lastRxOkMs ∧
      (receiverRun st run).auxSmooth ≤ 100 := by
  induction run with
  | nil => intro st _ hs; exact ⟨rfl, rfl, hs⟩
  | cons c cs ih =>
    intro st hl hs
    obtain ⟨hno, hstale⟩ := hl c (List.mem_cons_self c cs)
    obtain ⟨r1, r2, r3, r4⟩ := receiverLoop_failsafe st c.1 c.2.1 c.2.2 hno hstale hs
    have hl2 : LinkLost (receiverLoop st c.1 c.2.1 c.2.2).1.lastRxOkMs cs := by
      rw [r1]
      exact fun d hd => hl d (List.mem_cons_of_mem c hd)
    obtain ⟨i1, i2, i3⟩ := ih (receiverLoop st c.1 c.2.1 c.2.2).1 hl2 r2
    simp only [receiverRun, ledUpdates]
    refine ⟨?_, by rw [i2, r1], i3⟩
    rw [i1]
    by_cases hled : sub32 c.1 st.lastLedMs < LED_TICK_MS
    · rw [if_pos hled, r3 hled, Nat.zero_add]
    · rw [if_neg hled, (r4 (by omega)).2, Nat.add_comm, Function.iterate_succ_apply]

/-- C17. Failsafe of `receiverLoop`. Along passes during which no send is
acknowledged and more than 120 ms have elapsed on the counter since the last
acknowledgment, with the smoothed value starting in `[0,100]`: every pass at
which the LED update runs leaves `auxTarget` at 0 whatever it and the median
history were, makes `auxSmooth` strictly smaller while it is positive and keeps
it at 0 once it is 0; a pass without LED update leaves `auxSmooth` as it is;
and after a run containing at least 14 LED updates `auxSmooth` is 0. -/
theorem failsafe_decay (st : Receiver) (run : List (Nat × CommFrame × RadioOutcome))
    (now : Nat) (f : CommFrame) (radio : RadioOutcome)
    (hlost : LinkLost st.lastRxOkMs (run ++ [(now, f, radio)]))
    (hs : st.auxSmooth ≤ 100) :
    (LED_TICK_MS ≤ sub32 now (receiverRun st run).lastLedMs →
      (receiverLoop (receiverRun st run) now f radio).1.auxTarget = 0 ∧
      (0 < (receiverRun st run).auxSmooth →
        (receiverLoop (receiverRun st run) now f radio).1.auxSmooth
          < (receiverRun st run).auxSmooth) ∧
      ((receiverRun st run).auxSmooth = 0 →
        (receiverLoop (receiverRun st run) now f radio).1.auxSmooth = 0)) ∧
    (sub32 now (receiverRun st run).lastLedMs < LED_TICK_MS →
      (receiverLoop (receiverRun st run) now f radio).1.auxSmooth
        = (receiverRun st run).auxSmooth) ∧
    (14 ≤ ledUpdates st run → (receiverRun st run).auxSmooth = 0) := by
  have hl1 : LinkLost st.lastRxOkMs run :=
    fun d hd => hlost d (List.mem_append_left _ hd)
  obtain ⟨hno, hstale⟩ := hlost (now, f, radio)
    (List.mem_append_right _ (List.mem_singleton_self _))
  obtain ⟨i1, i2, i3⟩ := receiverRun_failsafe run st hl1 hs
  obtain ⟨-, -, r3, r4⟩ := receiverLoop_failsafe (receiverRun st run) now f radio hno
    (by rw [i2]; exact hstale) i3
  refine ⟨?_, r3, ?_⟩
  · intro hled
    obtain ⟨t1, t2⟩ := r4 hled
    refine ⟨t1, ?_, ?_⟩
    · intro hpos
      rw [t2]
      unfold emaTowardZero
      omega
    · intro hz
      rw [t2, hz]
      rfl
  · intro h14
    rw [i1]
    exact emaTowardZero_iterate_14 _ _ hs h14

set_option maxRecDepth 100000 in
theorem failsafe_decay_witness :
    LinkLost lostStart.lastRxOkMs (lostRun ++ [(340, CommFrame.zero, noAck)]) ∧
    lostStart.auxSmooth ≤ 100 ∧ 14 ≤ ledUpdates lostStart lostRun ∧
    (receiverRun lostStart lostRun).auxSmooth = 0 ∧
    (receiverLoop (receiverRun lostStart lostRun) 340 CommFrame.zero noAck).1.auxTarget = 0 ∧
    (receiverLoop (receiverRun lostStart lostRun) 340 CommFrame.zero noAck).1.auxSmooth = 0 ∧
    (receiverLoop lostStart 200 CommFrame.zero noAck).1.auxSmooth < lostStart.auxSmooth :=
  ⟨by unfold LinkLost; decide, by decide, by decide,
   (failsafe_decay lostStart lostRun 340 CommFrame.zero noAck (by unfold LinkLost; decide)
      (by decide)).2.2 (by decide),
   ((failsafe_decay lostStart lostRun 340 CommFrame.zero noAck (by unfold LinkLost; decide)
      (by decide)).1 (by decide)).1,
   ((failsafe_decay lostStart lostRun 340 CommFrame.zero noAck (by unfold LinkLost; decide)
      (by decide)).1 (by decide)).2.2 (by decide),
   ((failsafe_decay lostStart [] 200 CommFrame.zero noAck (by unfold LinkLost; decide)
      (by decide)).1 (by decide)).2.1 (by decide)⟩

/-- The median block keeps the transmit time. -/
theorem pushSample_lastTxMs (st : Receiver) (v : Nat) :
    (pushSample st v).lastTxMs = st.lastTxMs := by
  unfold pushSample
  dsimp only
  split_ifs <;> rfl

/-- The transmit time after a pass of `receiverLoop`: the counter value of the
pass when the period had elapsed, the old one otherwise. -/
theorem receiverLoop_lastTxMs (st : Receiver) (now : Nat) (f : CommFrame) (radio : RadioOutcome) :
    (receiverLoop st now f radio).1.lastTxMs
      = if sub32 now st.lastTxMs ≥ TX_TICK_MS then now else st.lastTxMs := by
  by_cases hdue : sub32 now st.lastTxMs ≥ TX_TICK_MS
  · rw [if_pos hdue]
    unfold receiverLoop transmitStep
    dsimp only
    rw [if_pos hdue]
    by_cases hack : (commSendFrame radio f (some CommFrame.zero)).1 = true
    · rw [if_pos hack]
      dsimp only
      rw [(updateLed_keeps _ now).1, pushSample_lastTxMs]
    · rw [if_neg hack]
      dsimp only
      rw [(updateLed_keeps _ now).1]
  · rw [if_neg hdue, receiverLoop_idle st now f radio (by omega)]
    exact (updateLed_keeps st now).1

/-- Passes none of which transmits keep the transmit time. -/
theorem receiverRun_no_send (run : List (Nat × CommFrame × RadioOutcome)) :
    ∀ st : Receiver, (∀ b ∈ receiverSends st run, b = false) →
      (receiverRun st run).lastTxMs = st.lastTxMs := by
  induction run with
  | nil => intro st _; rfl
  | cons c cs ih =>
    intro st h
    simp only [receiverSends, List.mem_cons, forall_eq_or_imp] at h
    obtain ⟨h1, h2⟩ := h
    have hnd : ¬ sub32 c.1 st.lastTxMs ≥ TX_TICK_MS := by
      intro hd
      rw [(receiverLoop_sent_iff st c.1 c.2.1 c.2.2).2 hd] at h1
      exact absurd h1 (by decide)
    simp only [receiverRun]
    rw [ih _ h2, receiverLoop_lastTxMs, if_neg hnd]

/-- C18. Transmit rate limit of `receiverLoop`. A pass invokes `commSendFrame`
exactly when `(now - lastTxMs) mod 2^32 >= 20`, and `lastTxMs` is then `now`;
a pass made less than 20 ms after the last transmission transmits nothing and
leaves `s0`, `s1`, `s2`, `lastTxMs` and `lastRxOkMs` unchanged; and when a
transmitting pass at `now` is followed by passes that do not transmit and then
by a transmitting pass at `t2`, the two are at least 20 ms apart on the
counter. -/
theorem transmit_rate_limit (st : Receiver) (now : Nat) (f : CommFrame) (radio : RadioOutcome)
    (mid : List (Nat × CommFrame × RadioOutcome)) (t2 : Nat) (f2 : CommFrame)
    (radio2 : RadioOutcome) :
    ((receiverLoop st now f radio).2 = true ↔ sub32 now st.lastTxMs ≥ TX_TICK_MS) ∧
    ((receiverLoop st now f radio).2 = true → (receiverLoop st now f radio).1.lastTxMs = now) ∧
    (sub32 now st.lastTxMs < TX_TICK_MS →
      (receiverLoop st now f radio).2 = false ∧
      (receiverLoop st now f radio).1.s0 = st.s0 ∧
      (receiverLoop st now f radio).1.s1 = st.s1 ∧
      (receiverLoop st now f radio).1.s2 = st.s2 ∧
      (receiverLoop st now f radio).1.lastTxMs = st.lastTxMs ∧
      (receiverLoop st now f radio).1.lastRxOkMs = st.lastRxOkMs) ∧
    ((receiverLoop st now f radio).2 = true →
      (∀ b ∈ receiverSends (receiverLoop st now f radio).1 mid, b = false) →
      (receiverLoop (receiverRun (receiverLoop st now f radio).1 mid) t2 f2 radio2).2 = true →
      sub32 t2 now ≥ TX_TICK_MS) := by
  refine ⟨receiverLoop_sent_iff st now f radio, ?_, ?_, ?_⟩
  · intro h
    rw [receiverLoop_lastTxMs, if_pos ((receiverLoop_sent_iff st now f radio).1 h)]
  · intro h
    rw [receiverLoop_idle st now f radio h]
    obtain ⟨k1, k2, k3, k4, k5, -⟩ := updateLed_keeps st now
    exact ⟨rfl, k3, k4, k5, k1, k2⟩
  · intro h hmid h2
    have e := (receiverLoop_sent_iff _ t2 f2 radio2).1 h2
    rw [receiverRun_no_send mid _ hmid, receiverLoop_lastTxMs,
      if_pos ((receiverLoop_sent_iff st now f radio).1 h)] at e
    exact e

theorem transmit_rate_limit_witness :
    (receiverLoop (receiverInit 0) 20 CommFrame.zero (ackWith 50)).2 = true ∧
    (receiverLoop (receiverInit 0) 20 CommFrame.zero (ackWith 50)).1.lastTxMs = 20 ∧
    sub32 40 20 ≥ TX_TICK_MS ∧
    (receiverLoop (receiverLoop (receiverInit 0) 20 CommFrame.zero (ackWith 50)).1 39
      CommFrame.zero (ackWith 7)).2 = false ∧
    (receiverLoop (receiverLoop (receiverInit 0) 20 CommFrame.zero (ackWith 50)).1 39
      CommFrame.zero (ackWith 7)).1.s2 = 50 :=
  ⟨(transmit_rate_limit (receiverInit 0) 20 CommFrame.zero (ackWith 50)
      [(25, CommFrame.zero, ackWith 7), (39, CommFrame.zero, noAck)] 40 CommFrame.zero
      noAck).1.2 (by decide),
   (transmit_rate_limit (receiverInit 0) 20 CommFrame.zero (ackWith 50)
      [(25, CommFrame.zero, ackWith 7), (39, CommFrame.zero, noAck)] 40 CommFrame.zero
      noAck).2.1 (by decide),
   (transmit_rate_limit (receiverInit 0) 20 CommFrame.zero (ackWith 50)
      [(25, CommFrame.zero, ackWith 7), (39, CommFrame.zero, noAck)] 40 CommFrame.zero
      noAck).2.2.2 (by decide) (by decide) (by decide),
   ((transmit_rate_limit (receiverLoop (receiverInit 0) 20 CommFrame.zero (ackWith 50)).1 39
      CommFrame.zero (ackWith 7) [] 0 CommFrame.zero noAck).2.2.1 (by decide)).1,
   ((transmit_rate_limit (receiverLoop (receiverInit 0) 20 CommFrame.zero (ackWith 50)).1 39
      CommFrame.zero (ackWith 7) [] 0 CommFrame.zero noAck).2.2.1 (by decide)).2.2.2.1⟩

/-! ## Joystick: `recenterAround` -/

/-- C21 (amended). `recenterAround` with a new centre whose window needs no
clamping: on an axis whose span `max - min` is at least 4 and for which
`c - span/2 >= 0` and `c + span/2 <= 1023`, the new bounds are `c - span/2` and
`c + span/2` and the new centre is `c`, so the span afterwards is the old span
rounded down to an even number: the same for an even span, one less for an odd
span. -/
theorem recenterAround_span (j : Joystick) (cx cy : Int) :
    (4 ≤ j.calMaxX - j.calMinX → 0 ≤ cx - (j.calMaxX - j.calMinX) / 2 →
      cx + (j.calMaxX - j.calMinX) / 2 ≤ 1023 →
      (recenterAround j cx cy).calMinX = cx - (j.calMaxX - j.calMinX) / 2 ∧
      (recenterAround j cx cy).calMaxX = cx + (j.calMaxX - j.calMinX) / 2 ∧
      (recenterAround j cx cy).centerX = cx ∧
      (recenterAround j cx cy).calMaxX - (recenterAround j cx cy).calMinX
        = (j.calMaxX - j.calMinX) - (j.calMaxX - j.calMinX) % 2) ∧
    (4 ≤ j.calMaxY - j.calMinY → 0 ≤ cy - (j.calMaxY - j.calMinY) / 2 →
      cy + (j.calMaxY - j.calMinY) / 2 ≤ 1023 →
      (recenterAround j cx cy).calMinY = cy - (j.calMaxY - j.calMinY) / 2 ∧
      (recenterAround j cx cy).calMaxY = cy + (j.calMaxY - j.calMinY) / 2 ∧
      (recenterAround j cx cy).centerY = cy ∧
      (recenterAround j cx cy).calMaxY - (recenterAround j cx cy).calMinY
        = (j.calMaxY - j.calMinY) - (j.calMaxY - j.calMinY) % 2) := by
  have half : ∀ d : Int, 4 ≤ d → Int.tdiv (if d < 2 then 1023 else d) 2 = d / 2 := by
    intro d hd
    rw [if_neg (by omega), Int.tdiv_eq_ediv (by omega) (by decide)]
  have axis : ∀ c d : Int, 4 ≤ d → 0 ≤ c - d / 2 → c + d / 2 ≤ 1023 →
      ¬ (c - d / 2 < 0) ∧ ¬ (c + d / 2 > 1023) ∧ ¬ (c + d / 2 ≤ c - d / 2 + 2) ∧
      ¬ (c < c - d / 2) ∧ ¬ (c > c + d / 2) ∧
      (c + d / 2) - (c - d / 2) = d - d % 2 := by
    intro c d h1 h2 h3
    refine ⟨?_, ?_, ?_, ?_, ?_, ?_⟩ <;> omega
  constructor
  · intro h1 h2 h3
    obtain ⟨a1, a2, a3, a4, a5, a6⟩ := axis cx _ h1 h2 h3
    simp only [recenterAround, half _ h1, a1, a2, a3, a4, a5, a6, if_false, decide_False,
      Bool.false_eq_true, and_self]
  · intro h1 h2 h3
    obtain ⟨a1, a2, a3, a4, a5, a6⟩ := axis cy _ h1 h2 h3
    simp only [recenterAround, half _ h1, a1, a2, a3, a4, a5, a6, if_false, decide_False,
      Bool.false_eq_true, and_self]

theorem recenterAround_span_witness :
    (recenterAround joyExample 512 511).calMaxX - (recenterAround joyExample 512 511).calMinX
      = 1000 ∧
    (recenterAround Joystick.default 512 511).calMaxY
        - (recenterAround Joystick.default 512 511).calMinY = 1022 :=
  ⟨((recenterAround_span joyExample 512 511).1 (by decide) (by decide) (by decide)).2.2.2,
   ((recenterAround_span Joystick.default 512 511).2 (by decide) (by decide)
      (by decide)).2.2.2⟩

/-- The span is not always preserved: the default full range 0..1023 (odd span
1023) re-centred at 512 needs no clamping and becomes 1..1023, span 1022; the
window [500, 502] (span 2) re-centred at 501 becomes the full range. -/
theorem recenterAround_odd_span_counterexample :
    Joystick.default.calMaxX - Joystick.default.calMinX = 1023 ∧
    (0 : Int) ≤ 512 - 1023 / 2 ∧ (512 : Int) + 1023 / 2 ≤ 1023 ∧
    (recenterAround Joystick.default 512 512).calMinX = 1 ∧
    (recenterAround Joystick.default 512 512).calMaxX = 1023 ∧
    joyNarrow.calMaxX - joyNarrow.calMinX = 2 ∧
    (recenterAround joyNarrow 501 512).calMinX = 0 ∧
    (recenterAround joyNarrow 501 512).calMaxX = 1023 := by
  decide

/-! ## Periodic trigger: `everyMs` -/

/-- Calls of `everyMs` that all return false leave `lastTick` as it is. -/
theorem everyMsCalls_all_false (interval : Nat) (ts : List Nat) :
    ∀ lastTick : Nat, (∀ b ∈ (everyMsCalls interval lastTick ts).1, b = false) →
      (everyMsCalls interval lastTick ts).2 = lastTick := by
  induction ts with
  | nil => intro _ _; rfl
  | cons t ts ih =>
    intro lastTick h
    simp only [everyMsCalls, List.mem_cons, forall_eq_or_imp] at h
    obtain ⟨h1, h2⟩ := h
    have e : everyMs interval lastTick t = (false, lastTick) := by
      unfold everyMs at h1 ⊢
      by_cases hc : sub32 t lastTick ≥ interval
      · rw [if_pos hc] at h1
        exact absurd h1.symm Bool.false_ne_true
      · rw [if_neg hc]
    simp only [everyMsCalls]
    rw [e] at h2 ⊢
    exact ih lastTick h2

/-- The counter difference of two readings of a wrapped counter does not exceed
the real time between them. -/
theorem sub32_le_elapsed (t1 t2 : Nat) (h : t1 ≤ t2) :
    sub32 (t2 % U32) (t1 % U32) ≤ t2 - t1 := by
  unfold sub32 U32
  omega

/-- C22. `everyMs(interval, lastTick)` at counter value `now` returns true
exactly when `(now - lastTick) mod 2^32 >= interval`; it then sets `lastTick`
to `now`, and leaves it unchanged when it returns false. When `lastTick` was
stored at real time `t0` and the call is made `e < 2^32` ms later, the counter
showing the real time modulo 2^32, the result is `e >= interval`. When a call
at real time `t1` returns true, the calls after it return false, and a call at
real time `t2 >= t1` returns true again, then `t2 - t1 >= interval`. -/
theorem everyMs_spec (interval lastTick now t0 e t1 t2 : Nat) (mid : List Nat) :
    ((everyMs interval lastTick now).1 = true ↔ sub32 now lastTick ≥ interval) ∧
    ((everyMs interval lastTick now).1 = true → (everyMs interval lastTick now).2 = now) ∧
    ((everyMs interval lastTick now).1 = false →
      (everyMs interval lastTick now).2 = lastTick) ∧
    (e < U32 →
      (everyMs interval (t0 % U32) ((t0 + e) % U32)).1 = decide (e ≥ interval)) ∧
    (t1 ≤ t2 → (everyMs interval lastTick (t1 % U32)).1 = true →
      (∀ b ∈ (everyMsCalls interval (everyMs interval lastTick (t1 % U32)).2 mid).1,
        b = false) →
      (everyMs interval
        (everyMsCalls interval (everyMs interval lastTick (t1 % U32)).2 mid).2
        (t2 % U32)).1 = true →
      t2 - t1 ≥ interval) := by
  have iff : ∀ l n : Nat, (everyMs interval l n).1 = true ↔ sub32 n l ≥ interval := by
    intro l n
    unfold everyMs
    by_cases hc : sub32 n l ≥ interval
    · rw [if_pos hc]
      exact ⟨fun _ => hc, fun _ => rfl⟩
    · rw [if_neg hc]
      exact ⟨fun h => absurd h Bool.false_ne_true, fun h => absurd h hc⟩
  have set : ∀ l n : Nat, (everyMs interval l n).1 = true → (everyMs interval l n).2 = n := by
    intro l n h
    have hc := (iff l n).1 h
    unfold everyMs
    rw [if_pos hc]
  refine ⟨iff lastTick now, set lastTick now, ?_, ?_, ?_⟩
  · intro h
    unfold everyMs at h ⊢
    by_cases hc : sub32 now lastTick ≥ interval
    · rw [if_pos hc] at h
      exact absurd h.symm Bool.false_ne_true
    · rw [if_neg hc]
  · intro he
    unfold everyMs
    rw [sub32_add t0 e he]
    by_cases hc : e ≥ interval
    · rw [if_pos hc, decide_eq_true hc]
    · rw [if_neg hc, decide_eq_false hc]
  · intro h12 h1 hmid h2
    rw [everyMsCalls_all_false interval mid _ hmid, set _ _ h1] at h2
    have := (iff _ _).1 h2
    have := sub32_le_elapsed t1 t2 h12
    omega

theorem everyMs_spec_witness :
    (everyMs 100 4294967290 150).1 = true ∧ (everyMs 100 4294967290 150).2 = 150 ∧
    (everyMs 100 4294967290 4).2 = 4294967290 ∧
    (everyMs 100 (4294967290 % U32) ((4294967290 + 150) % U32)).1 = decide (150 ≥ 100) ∧
    4294967446 - 4294967290 ≥ 100 :=
  ⟨(everyMs_spec 100 4294967290 150 0 0 0 0 []).1.2 (by decide),
   (everyMs_spec 100 4294967290 150 0 0 0 0 []).2.1 (by decide),
   (everyMs_spec 100 4294967290 4 0 0 0 0 []).2.2.1 (by decide),
   (everyMs_spec 100 0 0 4294967290 150 0 0 []).2.2.2.1 (by decide),
   (everyMs_spec 100 4294967000 0 0 0 4294967290 4294967446 [4294967295, 10, 50]).2.2.2.2
     (by decide) (by decide) (by decide) (by decide)⟩

/-! ## Telemetry shaping: `median3` -/

/-- C24. `median3(a, b, c)` is the middle value of its arguments: it is the
second element of the sorted triple, one of the arguments, the same under every
permutation of the arguments, between their minimum and maximum, and equal to
`x` when two arguments are `x`. -/
theorem median3_middle (a b c x : Nat) :
    (List.insertionSort (· ≤ ·) [a, b, c])[1]? = some (median3 a b c) ∧
    (median3 a b c = a ∨ median3 a b c = b ∨ median3 a b c = c) ∧
    (median3 a c b = median3 a b c ∧ median3 b a c = median3 a b c ∧
      median3 b c a = median3 a b c ∧ median3 c a b = median3 a b c ∧
      median3 c b a = median3 a b c) ∧
    (min a (min b c) ≤ median3 a b c ∧ median3 a b c ≤ max a (max b c)) ∧
    (median3 x x c = x ∧ median3 x b x = x ∧ median3 a x x = x) := by
  refine ⟨?_, ?_, ⟨?_, ?_, ?_, ?_, ?_⟩, ⟨?_, ?_⟩, ?_, ?_, ?_⟩
  · simp only [List.insertionSort, List.orderedInsert]
    by_cases h1 : b ≤ c <;> by_cases h2 : a ≤ b <;> by_cases h3 : a ≤ c <;>
      simp only [h1, h2, h3, if_true, if_false, List.orderedInsert, List.getElem?_cons_succ,
        List.getElem?_cons_zero, Option.some.injEq] <;>
      unfold median3 <;> dsimp only <;> split_ifs <;> omega
  all_goals (unfold median3; dsimp only; split_ifs <;> omega)

/-! ## Telemetry shaping: the moving average of `updateLed` -/

/-- The smoothing assignment of `updateLed` for target `t` and smoothed value
`s`: `s + ((t - s) >> EMA_SHIFT)` in signed arithmetic, converted to
`uint16_t`, then limited to 100. -/
def emaStep (t s : Nat) : Nat :=
  if (((s : Int) + ((t : Int) - (s : Int)) >>> EMA_SHIFT) % 65536).toNat > 100 then 100
  else (((s : Int) + ((t : Int) - (s : Int)) >>> EMA_SHIFT) % 65536).toNat

/-- An `updateLed` call that runs applies `emaStep` with the target it leaves
in `auxTarget`; a call inside the LED period keeps the smoothed value. -/
theorem updateLed_smooth (st : Receiver) (now : Nat) :
    (updateLed st now).auxSmooth =
      if sub32 now st.lastLedMs < LED_TICK_MS then st.auxSmooth
      else emaStep (updateLed st now).auxTarget st.auxSmooth := by
  by_cases h1 : sub32 now st.lastLedMs < LED_TICK_MS
  · rw [updateLed_idle st now h1, if_pos h1]
  · rw [if_neg h1]
    unfold updateLed emaStep
    dsimp only
    by_cases h2 : sub32 now st.lastRxOkMs > RX_TIMEOUT_MS
    · simp only [h1, h2, if_true, if_false]
    · simp only [h1, h2, if_true, if_false]

/-- The value of `emaStep` on `[0,100]`: no wrap-around and no clamping
occurs. -/
theorem emaStep_int (t s : Nat) (ht : t ≤ 100) (hs : s ≤ 100) :
    ((emaStep t s : Nat) : Int) = (s : Int) + ((t : Int) - (s : Int)) / 4 := by
  have e : ((t : Int) - (s : Int)) >>> EMA_SHIFT = ((t : Int) - (s : Int)) / 4 := by
    rw [Int.shiftRight_eq_div_pow]
    unfold EMA_SHIFT
    norm_num
  have h1 : 0 ≤ (s : Int) + ((t : Int) - (s : Int)) / 4 := by omega
  have h2 : (s : Int) + ((t : Int) - (s : Int)) / 4 ≤ 100 := by omega
  unfold emaStep
  rw [e, Int.emod_eq_of_lt h1 (by omega), if_neg (by omega)]
  omega

/-- The value of `emaStep` on `[0,100]` in unsigned terms. -/
theorem emaStep_nat (t s : Nat) (ht : t ≤ 100) (hs : s ≤ 100) :
    emaStep t s = if s ≤ t then s + (t - s) / 4 else s - (s - t + 3) / 4 := by
  have h := emaStep_int t s ht hs
  split_ifs <;> omega

/-- C25. The moving-average step of `updateLed`. For a call that passes the
LED period test, with `auxTarget` and `auxSmooth` in `[0,100]`, and `t` the
target the call leaves in `auxTarget` (the old target, or 0 when the failsafe
applies): the new `auxSmooth` is `s + floor((t - s) / 4)` as a signed number,
lies in `[0,100]` and lies between `s` and `t` inclusive; `t` is the old target
when no more than 120 ms have elapsed since the last acknowledgment. -/
theorem updateLed_ema_step (st : Receiver) (now : Nat)
    (hled : LED_TICK_MS ≤ sub32 now st.lastLedMs)
    (ht : st.auxTarget ≤ 100) (hs : st.auxSmooth ≤ 100) :
    (((updateLed st now).auxSmooth : Nat) : Int)
      = (st.auxSmooth : Int)
        + ⌊(((updateLed st now).auxTarget : ℚ) - (st.auxSmooth : ℚ)) / 4⌋ ∧
    (updateLed st now).auxSmooth ≤ 100 ∧
    min st.auxSmooth (updateLed st now).auxTarget ≤ (updateLed st now).auxSmooth ∧
    (updateLed st now).auxSmooth ≤ max st.auxSmooth (updateLed st now).auxTarget ∧
    (sub32 now st.lastRxOkMs ≤ RX_TIMEOUT_MS → (updateLed st now).auxTarget = st.auxTarget) := by
  have htar := updateLed_target st now
  have ht2 : (updateLed st now).auxTarget ≤ 100 := by
    rw [htar]
    split_ifs <;> omega
  have hsm := updateLed_smooth st now
  rw [if_neg (by omega)] at hsm
  have hi := emaStep_int _ _ ht2 hs
  have hn := emaStep_nat _ _ ht2 hs
  have hfloor : ∀ t s : Nat, ⌊((t : ℚ) - (s : ℚ)) / 4⌋ = ((t : Int) - (s : Int)) / 4 := by
    intro t s
    have h := Rat.floor_intCast_div_natCast ((t : Int) - (s : Int)) 4
    push_cast at h
    exact h
  rw [hfloor, hsm]
  refine ⟨hi, ?_, ?_, ?_, ?_⟩
  · rw [hn]; split_ifs <;> omega
  · rw [hn]; split_ifs <;> omega
  · rw [hn]; split_ifs <;> omega
  · intro hfresh
    rw [htar, if_neg (fun h => absurd h.2 (by omega))]

theorem updateLed_ema_step_witness :
    (((updateLed { receiverInit 0 with auxTarget := 10, auxSmooth := 80 } 20).auxSmooth : Nat)
        : Int)
      = ((80 : Nat) : Int) + ⌊(((10 : Nat) : ℚ) - ((80 : Nat) : ℚ)) / 4⌋ ∧
    (updateLed { receiverInit 0 with auxTarget := 10, auxSmooth := 80 } 20).auxSmooth ≤ 100 ∧
    (updateLed { receiverInit 0 with auxTarget := 10, auxSmooth := 80 } 20).auxTarget = 10 :=
  ⟨(updateLed_ema_step { receiverInit 0 with auxTarget := 10, auxSmooth := 80 } 20
      (by decide) (by decide) (by decide)).1,
   (updateLed_ema_step { receiverInit 0 with auxTarget := 10, auxSmooth := 80 } 20
      (by decide) (by decide) (by decide)).2.1,
   (updateLed_ema_step { receiverInit 0 with auxTarget := 10, auxSmooth := 80 } 20
      (by decide) (by decide) (by decide)).2.2.2.2 (by decide)⟩

/-- The target is held at `t` over a run of passes of `receiverLoop`: `t` is
the value of `auxTarget` after every pass. -/
def TargetHeld (t : Nat) (st : Receiver) (run : List (Nat × CommFrame × RadioOutcome)) : Prop :=
  ∀ x ∈ receiverTargets st run, x = t

/-- The transmit and median blocks of `receiverLoop` leave the LED time and
the smoothed value to `updateLed`. -/
theorem receiverLoop_before_led (st : Receiver) (now : Nat) (f : CommFrame)
    (radio : RadioOutcome) :
    ∃ st2 : Receiver, (receiverLoop st now f radio).1 = updateLed st2 now ∧
      st2.lastLedMs = st.lastLedMs ∧ st2.auxSmooth = st.auxSmooth := by
  unfold receiverLoop transmitStep
  dsimp only
  by_cases hdue : sub32 now st.lastTxMs ≥ TX_TICK_MS
  · rw [if_pos hdue]
    by_cases hack : (commSendFrame radio f (some CommFrame.zero)).1 = true
    · rw [if_pos hack]
      refine ⟨_, rfl, ?_, ?_⟩
      · unfold pushSample
        dsimp only
        split_ifs <;> rfl
      · unfold pushSample
        dsimp only
        split_ifs <;> rfl
    · rw [if_neg hack]
      exact ⟨_, rfl, rfl, rfl⟩
  · rw [if_neg hdue]
    exact ⟨_, rfl, rfl, rfl⟩

/-- The smoothed value after a pass of `receiverLoop`: one `emaStep` toward
the target the pass leaves, when the LED update runs. -/
theorem receiverLoop_smooth (st : Receiver) (now : Nat) (f : CommFrame) (radio : RadioOutcome) :
    (receiverLoop st now f radio).1.auxSmooth =
      if sub32 now st.lastLedMs < LED_TICK_MS then st.auxSmooth
      else emaStep (receiverLoop st now f radio).1.auxTarget st.auxSmooth := by
  obtain ⟨st2, e, e1, e2⟩ := receiverLoop_before_led st now f radio
  rw [e, updateLed_smooth, e1, e2]

/-- The targets of a run extended by one pass. -/
theorem receiverTargets_append (run : List (Nat × CommFrame × RadioOutcome))
    (c : Nat × CommFrame × RadioOutcome) :
    ∀ st : Receiver, receiverTargets st (run ++ [c])
      = receiverTargets st run
        ++ [(receiverLoop (receiverRun st run) c.1 c.2.1 c.2.2).1.auxTarget] := by
  induction run with
  | nil => intro st; rfl
  | cons d ds ih =>
    intro st
    simp only [List.cons_append, receiverTargets, receiverRun]
    exact congrArg _ (ih _)

/-- Iterated `emaStep` stays in `[0,100]`. -/
theorem emaStep_iterate_le (t : Nat) (ht : t ≤ 100) (n : Nat) :
    ∀ s : Nat, s ≤ 100 → (emaStep t)^[n] s ≤ 100 := by
  induction n with
  | zero => intro s hs; exact hs
  | succ n ih =>
    intro s hs
    rw [Function.iterate_succ_apply]
    apply ih
    rw [emaStep_nat t s ht hs]
    split_ifs <;> omega

/-- Over a run with the target held at `t`, the smoothed value makes one
`emaStep` toward `t` per LED update. -/
theorem receiverRun_smooth (t : Nat) (run : List (Nat × CommFrame × RadioOutcome)) :
    ∀ st : Receiver, TargetHeld t st run →
      (receiverRun st run).auxSmooth = (emaStep t)^[ledUpdates st run] st.auxSmooth := by
  induction run with
  | nil => intro st _; rfl
  | cons c cs ih =>
    intro st h
    simp only [TargetHeld, receiverTargets, receiverGetLastAux, List.mem_cons,
      forall_eq_or_imp] at h
    obtain ⟨h1, h2⟩ := h
    simp only [receiverRun, ledUpdates]
    rw [ih _ h2, receiverLoop_smooth, h1]
    by_cases hled : sub32 c.1 st.lastLedMs < LED_TICK_MS
    · rw [if_pos hled, if_pos hled, Nat.zero_add]
    · rw [if_neg hled, if_neg hled, Nat.add_comm, Function.iterate_succ_apply]

/-- Rising toward 100 from at most 97, the smoothed value stays at most 97. -/
theorem emaStep_rise_le (n : Nat) : ∀ s : Nat, s ≤ 97 → (emaStep 100)^[n] s ≤ 97 := by
  induction n with
  | zero => intro s hs; exact hs
  | succ n ih =>
    intro s hs
    rw [Function.iterate_succ_apply]
    apply ih
    rw [emaStep_nat 100 s (by decide) (by omega)]
    split_ifs <;> omega

/-- Rising toward 100, the value 97 is a fixed point. -/
theorem emaStep_stall (n : Nat) : (emaStep 100)^[n] 97 = 97 := by
  induction n with
  | zero => rfl
  | succ n ih =>
    rw [Function.iterate_succ_apply, emaStep_nat 100 97 (by decide) (by decide)]
    exact ih

set_option maxRecDepth 100000 in
/-- Rising toward 100 from 0, the smoothed value is 97 after 14 steps. -/
theorem emaStep_rise_14 : (emaStep 100)^[14] 0 = 97 := by
  decide

/-- Falling toward `t`, the smoothed value loses at least 1 per step until it
is `t`. -/
theorem emaStep_fall (t : Nat) (ht : t ≤ 100) (n : Nat) :
    ∀ s : Nat, s ≤ 100 → t ≤ s → t ≤ (emaStep t)^[n] s ∧ (emaStep t)^[n] s ≤ max t (s - n) := by
  induction n with
  | zero => intro s _ hts; exact ⟨hts, by simp⟩
  | succ n ih =>
    intro s hs hts
    rw [Function.iterate_succ_apply]
    have e := emaStep_nat t s ht hs
    have h1 : t ≤ emaStep t s := by
      rw [e]; split_ifs <;> omega
    have h2 : emaStep t s ≤ max t (s - 1) := by
      rw [e]; split_ifs <;> omega
    obtain ⟨i1, i2⟩ := ih (emaStep t s) (by omega) h1
    exact ⟨i1, by omega⟩

/-- C28. Rising and falling behaviour of the moving average, over passes of
`receiverLoop` that all leave `auxTarget` at `t`, with `t` and the starting
`auxSmooth` in `[0,100]`. A pass made when `0 < t - auxSmooth <= 3` leaves
`auxSmooth` unchanged. A pass whose LED update runs when `auxSmooth > t` makes
`auxSmooth` strictly smaller and not below `t`. Starting at 0 with `t = 100`,
`auxSmooth` never exceeds 97 and is 97 after 14 LED updates or more. Starting
above `t`, `auxSmooth` is exactly `t` once the run contains as many LED updates
as the starting distance. -/
theorem ema_rising_stalls (st : Receiver) (run : List (Nat × CommFrame × RadioOutcome))
    (now : Nat) (f : CommFrame) (radio : RadioOutcome) (t : Nat)
    (hheld : TargetHeld t st (run ++ [(now, f, radio)]))
    (ht : t ≤ 100) (hs : st.auxSmooth ≤ 100) :
    ((receiverRun st run).auxSmooth < t → t - (receiverRun st run).auxSmooth ≤ 3 →
      (receiverLoop (receiverRun st run) now f radio).1.auxSmooth
        = (receiverRun st run).auxSmooth) ∧
    (LED_TICK_MS ≤ sub32 now (receiverRun st run).lastLedMs →
      t < (receiverRun st run).auxSmooth →
      t ≤ (receiverLoop (receiverRun st run) now f radio).1.auxSmooth ∧
      (receiverLoop (receiverRun st run) now f radio).1.auxSmooth
        < (receiverRun st run).auxSmooth) ∧
    (st.auxSmooth = 0 → t = 100 →
      (receiverRun st run).auxSmooth ≤ 97 ∧
      (14 ≤ ledUpdates st run → (receiverRun st run).auxSmooth = 97)) ∧
    (t < st.auxSmooth → st.auxSmooth - t ≤ ledUpdates st run →
      (receiverRun st run).auxSmooth = t) := by
  have hsplit : TargetHeld t st run ∧
      (receiverLoop (receiverRun st run) now f radio).1.auxTarget = t := by
    unfold TargetHeld at hheld ⊢
    rw [receiverTargets_append] at hheld
    exact ⟨fun x hx => hheld x (List.mem_append_left _ hx),
      hheld _ (List.mem_append_right _ (List.mem_singleton_self _))⟩
  obtain ⟨hrun, hlast⟩ := hsplit
  have hsm := receiverRun_smooth t run st hrun
  have hle : (receiverRun st run).auxSmooth ≤ 100 := by
    rw [hsm]
    exact emaStep_iterate_le t ht _ _ hs
  have hpass := receiverLoop_smooth (receiverRun st run) now f radio
  rw [hlast] at hpass
  have hstep := emaStep_nat t _ ht hle
  refine ⟨?_, ?_, ?_, ?_⟩
  · intro h1 h2
    rw [hpass]
    split_ifs
    · rfl
    · rw [hstep, if_pos (by omega)]
      omega
  · intro hled h1
    rw [hpass, if_neg (by omega), hstep, if_neg (by omega)]
    omega
  · intro h0 h100
    subst h100
    rw [hsm, h0]
    refine ⟨emaStep_rise_le _ 0 (by decide), ?_⟩
    intro h14
    obtain ⟨j, hj⟩ : ∃ j, ledUpdates st run = j + 14 := ⟨ledUpdates st run - 14, by omega⟩
    rw [hj, Function.iterate_add_apply]
    rw [emaStep_rise_14]
    exact emaStep_stall j
  · intro h1 h2
    rw [hsm]
    obtain ⟨i1, i2⟩ := emaStep_fall t ht (ledUpdates st run) st.auxSmooth hs (by omega)
    omega

set_option maxRecDepth 100000 in
theorem ema_rising_stalls_witness :
    (receiverLoop (receiverRun (receiverInit 0) risingRun) 300 CommFrame.zero
        (ackWith 100)).1.auxSmooth = (receiverRun (receiverInit 0) risingRun).auxSmooth ∧
    (receiverRun (receiverInit 0) risingRun).auxSmooth = 97 ∧
    (10 ≤ (receiverLoop (receiverRun fallingStart []) 20 CommFrame.zero (ackWith 10)).1.auxSmooth ∧
      (receiverLoop (receiverRun fallingStart []) 20 CommFrame.zero (ackWith 10)).1.auxSmooth
        < (receiverRun fallingStart []).auxSmooth) ∧
    (receiverRun fallingStart fallingRun).auxSmooth = 10 :=
  ⟨(ema_rising_stalls (receiverInit 0) risingRun 300 CommFrame.zero (ackWith 100) 100
      (by unfold TargetHeld; decide) (by decide) (by decide)).1 (by decide) (by decide),
   ((ema_rising_stalls (receiverInit 0) risingRun 300 CommFrame.zero (ackWith 100) 100
      (by unfold TargetHeld; decide) (by decide) (by decide)).2.2.1 rfl rfl).2 (by decide),
   (ema_rising_stalls fallingStart [] 20 CommFrame.zero (ackWith 10) 10
      (by unfold TargetHeld; decide) (by decide) (by decide)).2.1 (by decide) (by decide),
   (ema_rising_stalls fallingStart fallingRun 220 CommFrame.zero (ackWith 10) 10
      (by unfold TargetHeld; decide) (by decide) (by decide)).2.2.2 (by decide) (by decide)⟩

/-! ## Telemetry link: acknowledgment without payload, history across a link loss -/

/-- The acknowledgment time and the oldest history entry after a pass of
`receiverLoop` that is due and acknowledged with telemetry byte `x`. -/
theorem receiverLoop_ack_time (st : Receiver) (now : Nat) (f : CommFrame) (x : Nat)
    (hdue : sub32 now st.lastTxMs ≥ TX_TICK_MS) :
    (receiverLoop st now f (ackWith x)).1.lastRxOkMs = now ∧
    (receiverLoop st now f (ackWith x)).1.s0
      = (if st.samplesInit = false then clampAndSnap (x % 256) else st.s1) := by
  have ht : transmitStep st now f (ackWith x)
      = ({ st with lastTxMs := now, lastRxOkMs := now }, some (clampAndSnap (x % 256)), true) := by
    unfold transmitStep
    rw [if_pos hdue]
    rfl
  unfold receiverLoop
  dsimp only
  rw [ht]
  dsimp only
  obtain ⟨-, k2, k3, -, -, -⟩ := updateLed_keeps
    (pushSample { st with lastTxMs := now, lastRxOkMs := now } (clampAndSnap (x % 256))) now
  rw [k2, k3]
  unfold pushSample
  dsimp only
  by_cases hi : st.samplesInit = false
  · simp only [hi, if_true, and_self]
  · have hi2 : st.samplesInit = true := by simpa using hi
    simp only [hi2, Bool.true_eq_false, if_false, and_self]

/-- C29. An acknowledged send without acknowledgment payload counts as the
telemetry sample 0: `commSendFrame` returns true and leaves `rx.aux` at 0, and
the pass of `receiverLoop` is the pass with an acknowledgment carrying the
byte 0; when the send is due, 0 enters the median history, `auxTarget` is the
median of the new history and `lastRxOkMs` is the counter value of the pass. -/
theorem ack_without_payload_is_sample_zero (st : Receiver) (now : Nat) (f : CommFrame) :
    commSendFrame ackNoPayload f (some CommFrame.zero) = (true, some CommFrame.zero) ∧
    receiverLoop st now f ackNoPayload = receiverLoop st now f (ackWith 0) ∧
    (sub32 now st.lastTxMs ≥ TX_TICK_MS →
      (receiverLoop st now f ackNoPayload).2 = true ∧
      (receiverLoop st now f ackNoPayload).1.lastRxOkMs = now ∧
      (receiverLoop st now f ackNoPayload).1.samplesInit = true ∧
      (receiverLoop st now f ackNoPayload).1.s0 = (if st.samplesInit = false then 0 else st.s1) ∧
      (receiverLoop st now f ackNoPayload).1.s1 = (if st.samplesInit = false then 0 else st.s2) ∧
      (receiverLoop st now f ackNoPayload).1.s2 = 0 ∧
      (receiverLoop st now f ackNoPayload).1.auxTarget
        = median3 (if st.samplesInit = false then 0 else st.s1)
            (if st.samplesInit = false then 0 else st.s2) 0) := by
  have e : receiverLoop st now f ackNoPayload = receiverLoop st now f (ackWith 0) := by
    have hc : commSendFrame ackNoPayload f (some CommFrame.zero)
        = commSendFrame (ackWith 0) f (some CommFrame.zero) := rfl
    unfold receiverLoop transmitStep
    rw [hc]
  refine ⟨rfl, e, ?_⟩
  intro hdue
  rw [e]
  obtain ⟨-, a2, a3, a4, a5⟩ := receiverLoop_ack st now f 0 hdue
  obtain ⟨b1, b2⟩ := receiverLoop_ack_time st now f 0 hdue
  have z : clampAndSnap (0 % 256) = 0 := by decide
  rw [z] at a3 a4 a5 b2
  exact ⟨(receiverLoop_sent_iff st now f (ackWith 0)).2 hdue, b1, a2, b2, a3, a4, a5⟩

theorem ack_without_payload_is_sample_zero_witness :
    (receiverLoop lostStart 340 CommFrame.zero ackNoPayload).2 = true ∧
    (receiverLoop lostStart 340 CommFrame.zero ackNoPayload).1.lastRxOkMs = 340 ∧
    (receiverLoop lostStart 340 CommFrame.zero ackNoPayload).1.s2 = 0 :=
  ⟨((ack_without_payload_is_sample_zero lostStart 340 CommFrame.zero).2.2 (by decide)).1,
   ((ack_without_payload_is_sample_zero lostStart 340 CommFrame.zero).2.2 (by decide)).2.1,
   ((ack_without_payload_is_sample_zero lostStart 340 CommFrame.zero).2.2
      (by decide)).2.2.2.2.2.1⟩

/-- What a pass of `receiverLoop` without acknowledgment does to the median
history and the target: the history is kept, and the target is kept unless the
LED update runs with the link lost. -/
theorem receiverLoop_lost_history (st : Receiver) (now : Nat) (f : CommFrame)
    (radio : RadioOutcome)
    (hno : (commSendFrame radio f (some CommFrame.zero)).1 = false) :
    (receiverLoop st now f radio).1.s1 = st.s1 ∧
    (receiverLoop st now f radio).1.s2 = st.s2 ∧
    (receiverLoop st now f radio).1.samplesInit = st.samplesInit ∧
    (receiverLoop st now f radio).1.auxTarget
      = (if LED_TICK_MS ≤ sub32 now st.lastLedMs ∧ sub32 now st.lastRxOkMs > RX_TIMEOUT_MS
         then 0 else st.auxTarget) := by
  by_cases hdue : sub32 now st.lastTxMs ≥ TX_TICK_MS
  · rw [receiverLoop_unacked st now f radio hdue hno]
    obtain ⟨-, -, -, k4, k5, k6⟩ := updateLed_keeps { st with lastTxMs := now } now
    exact ⟨k4, k5, k6, updateLed_target _ now⟩
  · rw [receiverLoop_idle st now f radio (by omega)]
    obtain ⟨-, -, -, k4, k5, k6⟩ := updateLed_keeps st now
    exact ⟨k4, k5, k6, updateLed_target st now⟩

/-- A run of passes while the link is lost keeps the median history, and the
target is 0 once an LED update has run. -/
theorem receiverRun_lost_history (run : List (Nat × CommFrame × RadioOutcome)) :
    ∀ st : Receiver, LinkLost st.lastRxOkMs run →
      (receiverRun st run).s1 = st.s1 ∧ (receiverRun st run).s2 = st.s2 ∧
      (receiverRun st run).samplesInit = st.samplesInit ∧
      (receiverRun st run).auxTarget = (if ledUpdates st run = 0 then st.auxTarget else 0) := by
  induction run with
  | nil => intro st _; exact ⟨rfl, rfl, rfl, rfl⟩
  | cons c cs ih =>
    intro st hl
    obtain ⟨hno, hstale⟩ := hl c (List.mem_cons_self c cs)
    obtain ⟨r1, r2, r3, r4⟩ := receiverLoop_lost_history st c.1 c.2.1 c.2.2 hno
    obtain ⟨st1, e, -, e2, -, -⟩ := receiverLoop_lost st c.1 c.2.1 c.2.2 hno
    have hrx : (receiverLoop st c.1 c.2.1 c.2.2).1.lastRxOkMs = st.lastRxOkMs := by
      rw [e, (updateLed_keeps st1 c.1).2.1, e2]
    have hl2 : LinkLost (receiverLoop st c.1 c.2.1 c.2.2).1.lastRxOkMs cs := by
      rw [hrx]
      exact fun d hd => hl d (List.mem_cons_of_mem c hd)
    obtain ⟨i1, i2, i3, i4⟩ := ih _ hl2
    simp only [receiverRun, ledUpdates]
    refine ⟨i1.trans r1, i2.trans r2, i3.trans r3, ?_⟩
    rw [i4, r4]
    by_cases hled : sub32 c.1 st.lastLedMs < LED_TICK_MS
    · have hn : ¬ (LED_TICK_MS ≤ sub32 c.1 st.lastLedMs ∧
          sub32 c.1 st.lastRxOkMs > RX_TIMEOUT_MS) := fun h => absurd h.1 (by omega)
      simp only [hled, hn, if_true, if_false, Nat.zero_add]
    · have hy : LED_TICK_MS ≤ sub32 c.1 st.lastLedMs ∧
          sub32 c.1 st.lastRxOkMs > RX_TIMEOUT_MS := ⟨by omega, hstale⟩
      have h1 : ¬ (1 + ledUpdates (receiverLoop st c.1 c.2.1 c.2.2).1 cs = 0) := by omega
      rw [if_pos hy]
      simp only [hled, h1, if_true, if_false, ite_self]

/-- C30. The failsafe zeroes `auxTarget` and not the median history. From a
state with a filled history, after a run of passes during which the link is
lost and at least one LED update runs, `auxTarget` is 0 while `s1` and `s2`
still hold the last two samples from before the loss; the next transmitting
pass acknowledged with byte `x` sets `auxTarget` to
`median3(s1, s2, clampAndSnap(x))`. -/
theorem failsafe_keeps_median_history (st : Receiver)
    (run : List (Nat × CommFrame × RadioOutcome)) (now : Nat) (f : CommFrame) (x : Nat)
    (hinit : st.samplesInit = true)
    (hlost : LinkLost st.lastRxOkMs run) (hled : 1 ≤ ledUpdates st run)
    (hdue : sub32 now (receiverRun st run).lastTxMs ≥ TX_TICK_MS) :
    (receiverRun st run).auxTarget = 0 ∧
    (receiverRun st run).s1 = st.s1 ∧ (receiverRun st run).s2 = st.s2 ∧
    (receiverLoop (receiverRun st run) now f (ackWith x)).1.auxTarget
      = median3 st.s1 st.s2 (clampAndSnap (x % 256)) := by
  obtain ⟨i1, i2, i3, i4⟩ := receiverRun_lost_history run st hlost
  obtain ⟨-, -, -, -, a5⟩ := receiverLoop_ack (receiverRun st run) now f x hdue
  rw [i3, hinit] at a5
  simp only [Bool.true_eq_false, if_false] at a5
  rw [i1, i2] at a5
  refine ⟨?_, i1, i2, a5⟩
  rw [i4, if_neg (by omega)]

set_option maxRecDepth 100000 in
theorem failsafe_keeps_median_history_witness :
    (receiverRun lostStart lostRun).auxTarget = 0 ∧
    (receiverRun lostStart lostRun).s1 = 80 ∧ (receiverRun lostStart lostRun).s2 = 80 ∧
    (receiverLoop (receiverRun lostStart lostRun) 340 CommFrame.zero (ackWith 10)).1.auxTarget
      = 80 :=
  failsafe_keeps_median_history lostStart lostRun 340 CommFrame.zero 10 rfl
    (by unfold LinkLost; decide) (by decide) (by decide)

/-! ## Keypad: decoder ties and the anti-chatter rule -/

/-- Position of a key in the scan order of `decodeKeyFromAdc`: Down, Up,
Right, Center, Left. -/
def scanPos : Key → Nat
  | Key.Down => 0
  | Key.Up => 1
  | Key.Right => 2
  | Key.Center => 3
  | Key.Left => 4
  | Key.None => 0

/-- A scan step keeps the accumulated threshold at or below `T` when the entry,
if accepted, is at or below `T`. -/
theorem decodeStep_le (adc T : Int) (acc e : Key × Int) (h : acc.2 ≤ T)
    (he : 0 ≤ e.2 → e.2 ≤ 1023 → e.2 ≤ adc → e.2 ≤ T) : (decodeStep adc acc e).2 ≤ T := by
  unfold decodeStep
  split_ifs with hc
  · exact he hc.2.1 hc.2.2.1 hc.1
  · exact h

/-- A scan step on an accepted entry at or above the accumulated threshold
takes the entry. -/
theorem decodeStep_take (adc T : Int) (acc : Key × Int) (k : Key) (h : acc.2 ≤ T)
    (h0 : 0 ≤ T) (h1 : T ≤ 1023) (h2 : T ≤ adc) : decodeStep adc acc (k, T) = (k, T) := by
  unfold decodeStep
  rw [if_pos ⟨h2, h0, h1, h⟩]

/-- A scan step on an entry that, if accepted, is strictly below the
accumulated threshold keeps the accumulator. -/
theorem decodeStep_skip (adc : Int) (acc e : Key × Int)
    (he : 0 ≤ e.2 → e.2 ≤ 1023 → e.2 ≤ adc → e.2 < acc.2) : decodeStep adc acc e = acc := by
  unfold decodeStep
  rw [if_neg]
  rintro ⟨c1, c2, c3, c4⟩
  have := he c2 c3 c1
  omega

/-- C23 (amended). Decode tie-break. A key `k` whose threshold is accepted
(within `[0,1023]` and not above the sample), is the highest accepted threshold
and is shared only with keys scanned before `k` is the decoded key: among keys
tied at the highest accepted threshold the one scanned last wins, that is, the
priority for equal thresholds is Left > Center > Right > Up > Down. -/
theorem decodeKeyFromAdc_tie_break (s : Buttons) (adc : Int) (k : Key) (hk : k ≠ Key.None)
    (hacc : 0 ≤ buttonsGetThreshold s k ∧ buttonsGetThreshold s k ≤ 1023 ∧
      buttonsGetThreshold s k ≤ adc)
    (hmax : ∀ q, q ≠ Key.None → 0 ≤ buttonsGetThreshold s q → buttonsGetThreshold s q ≤ 1023 →
      buttonsGetThreshold s q ≤ adc → buttonsGetThreshold s q ≤ buttonsGetThreshold s k)
    (hlast : ∀ q, q ≠ Key.None → buttonsGetThreshold s q = buttonsGetThreshold s k →
      scanPos q ≤ scanPos k) :
    decodeKeyFromAdc s adc = k := by
  have mD := hmax Key.Down (by decide)
  have mU := hmax Key.Up (by decide)
  have mR := hmax Key.Right (by decide)
  have mC := hmax Key.Center (by decide)
  have mL := hmax Key.Left (by decide)
  have lD := hlast Key.Down (by decide)
  have lU := hlast Key.Up (by decide)
  have lR := hlast Key.Right (by decide)
  have lC := hlast Key.Center (by decide)
  have lL := hlast Key.Left (by decide)
  obtain ⟨a1, a2, a3⟩ := hacc
  have q0 : ∀ T : Int, 0 ≤ T → ((Key.None, (-1 : Int)) : Key × Int).2 ≤ T := by
    intro T hT
    show (-1 : Int) ≤ T
    omega
  cases k
  · exact absurd rfl hk
  all_goals
    simp only [buttonsGetThreshold, scanPos] at mD mU mR mC mL lD lU lR lC lL a1 a2 a3
    simp only [decodeKeyFromAdc, entries, List.foldl]
  · -- Left: last entry
    have p1 := decodeStep_le adc s.TH_LEFT _ (Key.Down, s.TH_DOWN) (q0 _ a1) mD
    have p2 := decodeStep_le adc s.TH_LEFT _ (Key.Up, s.TH_UP) p1 mU
    have p3 := decodeStep_le adc s.TH_LEFT _ (Key.Right, s.TH_RIGHT) p2 mR
    have p4 := decodeStep_le adc s.TH_LEFT _ (Key.Center, s.TH_CENTER) p3 mC
    rw [decodeStep_take adc s.TH_LEFT _ Key.Left p4 a1 a2 a3]
  · -- Right: third entry
    have p1 := decodeStep_le adc s.TH_RIGHT _ (Key.Down, s.TH_DOWN) (q0 _ a1) mD
    have p2 := decodeStep_le adc s.TH_RIGHT _ (Key.Up, s.TH_UP) p1 mU
    rw [decodeStep_take adc s.TH_RIGHT _ Key.Right p2 a1 a2 a3,
      decodeStep_skip adc (Key.Right, s.TH_RIGHT) (Key.Center, s.TH_CENTER)
        (fun c1 c2 c3 => by have := mC c1 c2 c3; show s.TH_CENTER < s.TH_RIGHT; omega),
      decodeStep_skip adc (Key.Right, s.TH_RIGHT) (Key.Left, s.TH_LEFT)
        (fun c1 c2 c3 => by have := mL c1 c2 c3; show s.TH_LEFT < s.TH_RIGHT; omega)]
  · -- Up: second entry
    have p1 := decodeStep_le adc s.TH_UP _ (Key.Down, s.TH_DOWN) (q0 _ a1) mD
    rw [decodeStep_take adc s.TH_UP _ Key.Up p1 a1 a2 a3,
      decodeStep_skip adc (Key.Up, s.TH_UP) (Key.Right, s.TH_RIGHT)
        (fun c1 c2 c3 => by have := mR c1 c2 c3; show s.TH_RIGHT < s.TH_UP; omega),
      decodeStep_skip adc (Key.Up, s.TH_UP) (Key.Center, s.TH_CENTER)
        (fun c1 c2 c3 => by have := mC c1 c2 c3; show s.TH_CENTER < s.TH_UP; omega),
      decodeStep_skip adc (Key.Up, s.TH_UP) (Key.Left, s.TH_LEFT)
        (fun c1 c2 c3 => by have := mL c1 c2 c3; show s.TH_LEFT < s.TH_UP; omega)]
  · -- Down: first entry
    rw [decodeStep_take adc s.TH_DOWN _ Key.Down (q0 _ a1) a1 a2 a3,
      decodeStep_skip adc (Key.Down, s.TH_DOWN) (Key.Up, s.TH_UP)
        (fun c1 c2 c3 => by have := mU c1 c2 c3; show s.TH_UP < s.TH_DOWN; omega),
      decodeStep_skip adc (Key.Down, s.TH_DOWN) (Key.Right, s.TH_RIGHT)
        (fun c1 c2 c3 => by have := mR c1 c2 c3; show s.TH_RIGHT < s.TH_DOWN; omega),
      decodeStep_skip adc (Key.Down, s.TH_DOWN) (Key.Center, s.TH_CENTER)
        (fun c1 c2 c3 => by have := mC c1 c2 c3; show s.TH_CENTER < s.TH_DOWN; omega),
      decodeStep_skip adc (Key.Down, s.TH_DOWN) (Key.Left, s.TH_LEFT)
        (fun c1 c2 c3 => by have := mL c1 c2 c3; show s.TH_LEFT < s.TH_DOWN; omega)]
  · -- Center: fourth entry
    have p1 := decodeStep_le adc s.TH_CENTER _ (Key.Down, s.TH_DOWN) (q0 _ a1) mD
    have p2 := decodeStep_le adc s.TH_CENTER _ (Key.Up, s.TH_UP) p1 mU
    have p3 := decodeStep_le adc s.TH_CENTER _ (Key.Right, s.TH_RIGHT) p2 mR
    rw [decodeStep_take adc s.TH_CENTER _ Key.Center p3 a1 a2 a3,
      decodeStep_skip adc (Key.Center, s.TH_CENTER) (Key.Left, s.TH_LEFT)
        (fun c1 c2 c3 => by have := mL c1 c2 c3; show s.TH_LEFT < s.TH_CENTER; omega)]

theorem decodeKeyFromAdc_tie_break_witness :
    decodeKeyFromAdc tiedDownLeft 650 = Key.Left :=
  decodeKeyFromAdc_tie_break tiedDownLeft 650 Key.Left (by decide) (by decide)
    (by intro q; cases q <;> decide) (by intro q; cases q <;> decide)

/-- With `TH_DOWN = TH_LEFT = 600` the highest threshold not above the sample
650, the decoder returns `Key::Left`, not `Key::Down`. -/
theorem decodeKeyFromAdc_tie_counterexample :
    buttonsGetThreshold tiedDownLeft Key.Down = buttonsGetThreshold tiedDownLeft Key.Left ∧
    (∀ q, q ≠ Key.None → buttonsGetThreshold tiedDownLeft q ≤ 650 →
      buttonsGetThreshold tiedDownLeft q ≤ buttonsGetThreshold tiedDownLeft Key.Down) ∧
    decodeKeyFromAdc tiedDownLeft 650 = Key.Left ∧
    decodeKeyFromAdc tiedDownLeft 650 ≠ Key.Down := by
  refine ⟨by decide, ?_, by decide, by decide⟩
  intro q
  cases q <;> decide

/-- The result of the scan is the starting accumulator or an entry of the
table that the sample has reached. -/
theorem decode_foldl_reached (adc : Int) (l : List (Key × Int)) :
    ∀ acc : Key × Int, l.foldl (decodeStep adc) acc = acc ∨
      (l.foldl (decodeStep adc) acc ∈ l ∧ (l.foldl (decodeStep adc) acc).2 ≤ adc) := by
  induction l with
  | nil => intro acc; exact Or.inl rfl
  | cons e l ih =>
    intro acc
    simp only [List.foldl]
    rcases ih (decodeStep adc acc e) with h | ⟨h1, h2⟩
    · rw [h]
      unfold decodeStep
      split_ifs with hc
      · exact Or.inr ⟨List.mem_cons_self _ _, hc.1⟩
      · exact Or.inl rfl
    · exact Or.inr ⟨List.mem_cons_of_mem e h1, h2⟩

/-- The local `minThr` of `buttonsUpdate` is at or below every threshold. -/
theorem minThr_le (s : Buttons) (k : Key) (hk : k ≠ Key.None) :
    minThr s ≤ buttonsGetThreshold s k := by
  unfold minThr
  dsimp only
  cases k
  · exact absurd rfl hk
  all_goals (simp only [buttonsGetThreshold]; split_ifs <;> omega)

/-- A sample that decodes to a key has reached the lowest threshold. -/
theorem decode_reaches_minThr (s : Buttons) (adc : Int)
    (h : decodeKeyFromAdc s adc ≠ Key.None) : adc ≥ minThr s := by
  unfold decodeKeyFromAdc at h
  rcases decode_foldl_reached adc (entries s) (Key.None, -1) with e | ⟨e1, e2⟩
  · rw [e] at h
    exact absurd rfl h
  · obtain ⟨m1, m2⟩ := (mem_entries s _).mp e1
    have := minThr_le s _ m1
    omega

/-- C26. The stable key never changes from one key to a different key. When
the stable key is not `None` and the sample decodes to a different key other
than `None`, the sample has reached `minThr`, so the anti-chatter rule applies:
the reading used by `buttonsUpdate` is the stable key or `None`, the condition
of the `k1 -> k2` branch never holds, and every change of the stable key has
`Key::None` as its old or its new value. -/
theorem stable_key_changes_through_none (s : Buttons) (adc : Int) (now : Nat) :
    (s.eng.stable ≠ Key.None → decodeKeyFromAdc s adc ≠ Key.None →
      decodeKeyFromAdc s adc ≠ s.eng.stable → adc ≥ minThr s) ∧
    (s.eng.stable ≠ Key.None →
      filteredReading s adc = s.eng.stable ∨ filteredReading s adc = Key.None) ∧
    ¬ (filteredReading s adc ≠ s.eng.stable ∧ s.eng.stable ≠ Key.None ∧
        filteredReading s adc ≠ Key.None) ∧
    ((buttonsUpdate s adc now).eng.stable ≠ s.eng.stable →
      s.eng.stable = Key.None ∨ (buttonsUpdate s adc now).eng.stable = Key.None) := by
  have hf : s.eng.stable ≠ Key.None →
      filteredReading s adc = s.eng.stable ∨ filteredReading s adc = Key.None := by
    intro hs
    unfold filteredReading
    dsimp only
    by_cases hd : decodeKeyFromAdc s adc = Key.None
    · rw [if_neg (fun h => h.2.1 hd)]
      exact Or.inr hd
    · by_cases he : decodeKeyFromAdc s adc = s.eng.stable
      · rw [if_neg (fun h => h.2.2.1 he)]
        exact Or.inl he
      · rw [if_pos ⟨hs, hd, he, decode_reaches_minThr s adc hd⟩]
        exact Or.inl rfl
  refine ⟨fun _ hd _ => decode_reaches_minThr s adc hd, hf, ?_, ?_⟩
  · rintro ⟨h1, h2, h3⟩
    rcases hf h2 with h | h
    · exact h1 h
    · exact h3 h
  · intro hch
    by_cases hs : s.eng.stable = Key.None
    · exact Or.inl hs
    · right
      rcases buttonsUpdate_cases s adc now with ⟨hsame, -⟩ | ⟨hne, hst, -⟩
      · exact absurd hsame hch
      · rw [hst]
        rcases hf hs with h | h
        · exact absurd h hne
        · exact h

theorem stable_key_changes_through_none_witness :
    (720 : Int) ≥ minThr pressedLeft ∧
    (filteredReading pressedLeft 720 = pressedLeft.eng.stable ∨
      filteredReading pressedLeft 720 = Key.None) ∧
    ((runTicks pressedLeft [(8, 300)]).eng.stable = Key.None ∨
      (buttonsUpdate (runTicks pressedLeft [(8, 300)]) 8 331).eng.stable = Key.None) :=
  ⟨(stable_key_changes_through_none pressedLeft 720 500).1 (by decide) (by decide) (by decide),
   (stable_key_changes_through_none pressedLeft 720 500).2.1 (by decide),
   (stable_key_changes_through_none (runTicks pressedLeft [(8, 300)]) 8 331).2.2.2
     (by decide)⟩

/-! ## Keypad: `buttonsConsumeAll` during a press -/

/-- With no press start recorded after its update, `keyLongPress` returns
false and leaves the state as the update left it. -/
theorem keyLongPress_no_start (s : Buttons) (adc : Int) (now : Nat) (k : Key) (rpt : Bool)
    (rms thr : Nat) (c : Bool) (h : (buttonsUpdate s adc now).eng.pressStart = 0) :
    keyLongPress s adc now k rpt rms thr c = (false, buttonsUpdate s adc now) := by
  unfold keyLongPress
  dsimp only
  by_cases hk : k = Key.None
  · rw [if_pos hk]
  · rw [if_neg hk]
    by_cases hs : (buttonsUpdate s adc now).eng.stable ≠ k
    · rw [if_pos hs]
    · rw [if_neg hs, if_pos h]

/-- While `k` stays the stable key of a press with no recorded start and a
clear long-press latch, consuming `keyLongPress` calls return false and keep
that situation. -/
theorem longPressCalls_no_start (k : Key) (rpt : Bool) (rms thr : Nat)
    (ps : List (Int × Nat)) :
    ∀ s : Buttons, s.eng.stable = k → s.eng.pressStart = 0 →
      s.eng.longFired (idx k) = false → HeldThroughLongPress k rpt rms thr s ps →
      (longPressCalls s k rpt rms thr ps).1 = List.replicate ps.length false ∧
      (longPressCalls s k rpt rms thr ps).2.eng.stable = k ∧
      (longPressCalls s k rpt rms thr ps).2.eng.pressStart = 0 ∧
      (longPressCalls s k rpt rms thr ps).2.eng.longFired (idx k) = false := by
  induction ps with
  | nil => intro s h1 h2 h3 _; exact ⟨rfl, h1, h2, h3⟩
  | cons p ps ih =>
    intro s h1 h2 h3 hheld
    obtain ⟨hu, hrest⟩ := hheld
    obtain ⟨e1, e2, -⟩ := buttonsUpdate_hold s p.1 p.2 (hu.trans h1.symm)
    have hcall := keyLongPress_no_start s p.1 p.2 k rpt rms thr true (e1.trans h2)
    rw [hcall] at hrest
    obtain ⟨i1, i2, i3, i4⟩ := ih (buttonsUpdate s p.1 p.2) hu (e1.trans h2)
      (by rw [e2]; exact h3) hrest
    simp only [longPressCalls, hcall, List.length_cons, List.replicate_succ]
    exact ⟨by rw [i1], i2, i3, i4⟩

/-- C27. `buttonsConsumeAll` called while `k` is the stable key leaves the
press without a recorded start. For the rest of the press (consuming
`keyLongPress(k)` calls after whose update `k` is still stable) every
`keyLongPress(k)` call returns false. When an update then ends the press, the
`keyLongPress(k)` call running it returns false, the recorded release duration
of `k` is 0 and the release and short-click flags of `k` are set, so that
`keyShortClick(k, T)` returns true for every `T > 0`, whether it is the call
that runs the releasing update or the call after it. -/
theorem consumeAll_during_hold (s : Buttons) (k : Key) (rpt : Bool) (rms thr : Nat)
    (calls : List (Int × Nat)) (adc : Int) (now : Nat) (adc2 : Int) (now2 T : Nat) (c : Bool)
    (hk : k ≠ Key.None) (hst : s.eng.stable = k)
    (hheld : HeldThroughLongPress k rpt rms thr (buttonsConsumeAll s) calls) :
    (buttonsConsumeAll s).eng.pressStart = 0 ∧
    (longPressCalls (buttonsConsumeAll s) k rpt rms thr calls).1
      = List.replicate calls.length false ∧
    ((buttonsUpdate (longPressCalls (buttonsConsumeAll s) k rpt rms thr calls).2
        adc now).eng.stable ≠ k →
      (keyLongPress (longPressCalls (buttonsConsumeAll s) k rpt rms thr calls).2
        adc now k rpt rms thr c).1 = false ∧
      (buttonsUpdate (longPressCalls (buttonsConsumeAll s) k rpt rms thr calls).2
        adc now).eng.releaseDur (idx k) = 0 ∧
      (buttonsUpdate (longPressCalls (buttonsConsumeAll s) k rpt rms thr calls).2
        adc now).eng.releasedPending (idx k) = true ∧
      (buttonsUpdate (longPressCalls (buttonsConsumeAll s) k rpt rms thr calls).2
        adc now).eng.shortPending (idx k) = true ∧
      (0 < T →
        (keyShortClick (longPressCalls (buttonsConsumeAll s) k rpt rms thr calls).2
          adc now k T c).1 = true ∧
        (keyShortClick
          (buttonsUpdate (longPressCalls (buttonsConsumeAll s) k rpt rms thr calls).2 adc now)
          adc2 now2 k T c).1 = true)) := by
  obtain ⟨i1, i2, i3, i4⟩ := longPressCalls_no_start k rpt rms thr calls (buttonsConsumeAll s)
    hst rfl rfl hheld
  refine ⟨rfl, i1, ?_⟩
  generalize (longPressCalls (buttonsConsumeAll s) k rpt rms thr calls).2 = H at i2 i3 i4 ⊢
  intro hrel
  obtain ⟨r1, r2, r3⟩ := buttonsUpdate_release H adc now k hk ⟨i2, hrel⟩
  have hdur : releaseDuration H.eng now = 0 := by
    unfold releaseDuration
    rw [if_neg (fun h => h i3)]
  rw [hdur] at r2
  rw [if_pos i4] at r3
  refine ⟨keyLongPress_other_key H adc now k rpt rms thr c (Or.inr hrel), r2, r1, r3, ?_⟩
  intro hT
  obtain ⟨f1, -⟩ := keyShortClick_fields H adc now k T c
  obtain ⟨g1, -⟩ := keyShortClick_fields (buttonsUpdate H adc now) adc2 now2 k T c
  obtain ⟨-, k2, k3⟩ := buttonsUpdate_keeps_pending (buttonsUpdate H adc now) adc2 now2 k
    (not_releasesKey_of_ne _ adc2 now2 k hrel)
  rw [f1, g1, k2, k3, r2, r3]
  simp [hT]

set_option maxRecDepth 100000 in
theorem consumeAll_during_hold_witness :
    (longPressCalls (buttonsConsumeAll pressedLeft) Key.Left false 300 800
        [(922, 500), (922, 1500), (8, 2000)]).1 = List.replicate 3 false ∧
    (buttonsUpdate (longPressCalls (buttonsConsumeAll pressedLeft) Key.Left false 300 800
        [(922, 500), (922, 1500), (8, 2000)]).2 8 2031).eng.releaseDur (idx Key.Left) = 0 ∧
    (keyShortClick
      (buttonsUpdate (longPressCalls (buttonsConsumeAll pressedLeft) Key.Left false 300 800
        [(922, 500), (922, 1500), (8, 2000)]).2 8 2031) 8 2040 Key.Left 1 true).1 = true :=
  ⟨(consumeAll_during_hold pressedLeft Key.Left false 300 800
      [(922, 500), (922, 1500), (8, 2000)] 8 2031 8 2040 1 true (by decide) (by decide)
      (by simp only [HeldThroughLongPress]; decide)).2.1,
   ((consumeAll_during_hold pressedLeft Key.Left false 300 800
      [(922, 500), (922, 1500), (8, 2000)] 8 2031 8 2040 1 true (by decide) (by decide)
      (by simp only [HeldThroughLongPress]; decide)).2.2 (by decide)).2.1,
   (((consumeAll_during_hold pressedLeft Key.Left false 300 800
      [(922, 500), (922, 1500), (8, 2000)] 8 2031 8 2040 1 true (by decide) (by decide)
      (by simp only [HeldThroughLongPress]; decide)).2.2 (by decide)).2.2.2.2
      (by decide)).2⟩

end FlexRC
